import Mathlib

/-!
Playback loops of the MPG123 and AdPlug input plugins, with the command
checks of the song-change plugin and two listeners of the skins interface.

A shallow embedding of `MPG123Plugin::play` (src/mpg123/mpg123.cc) and of
`AdPlugXMMS::play`, with the exclusion list of `init` and `cleanup`
(src/adplug/adplug-xmms.cc); of `escape_shell_chars`, `check_command` and
`edit_cb` (src/song_change/song_change.cc); and of the volume listener and the
oscilloscope branch of the visualization listener
(src/skins/ui_main_evlisteners.c).

Calls into the decoder library, the host and the output are external.  Each
function of the embedding receives the answers of those calls as data (one
record per pass through the loop) and records every call it makes in a log, so
that statements about the order and the number of calls can be made.  C++ `int`
and `long` variables are integers; signed overflow is undefined behaviour in
C++ and the embedding describes runs in which it does not occur.  A `float` is
the exact value of a number of the IEEE 754 binary32 format, and every
operation on `float` values rounds its exact result to the nearest such
number, a tie going to the even neighbour.  A C string is the list of the
characters that memory holds before the terminator.
-/

namespace MPG123Plugin

/-- The return codes of libmpg123 that `play` compares against.  The header
`mpg123.h` is not part of the sources, so the three values are parameters. -/
structure Codes where
  MPG123_DONE : Int
  MPG123_ERR_READER : Int
  MPG123_NEW_FORMAT : Int
  deriving DecidableEq, Repr

/-- The external calls made by `play`, with the values passed or returned. -/
inductive Ev where
  | mpg123_new
  | mpg123_open_handle (ret : Int)
  | mpg123_scan (ret : Int)
  | mpg123_getformat (ret : Int)
  | mpg123_read (ret : Int) (data : List Nat)
  | mpg123_info
  | set_stream_bitrate (v : Int)
  | open_audio (rate channels : Int)
  | check_stop (b : Bool)
  | check_seek (v : Int)
  | mpg123_seek (offset ret : Int)
  | print_mpg123_error
  | write_audio (data : List Nat)
  | mpg123_delete
  deriving DecidableEq, Repr

/-- The local variables of `play`.  The pair `outbuf`, `outbuf_size` is kept as
the list of the first `outbuf_size` bytes of `outbuf`, the only bytes the code
hands on; `outbuf_size = 0` is the empty list.  `error_count` only counts up
from zero and is kept as a natural number.  The field `log` lists the external
calls made so far, most recent first. -/
structure State where
  error : Bool
  rate : Int
  channels : Int
  bitrate : Int
  bitrate_sum : Int
  bitrate_count : Int
  error_count : Nat
  outbuf : List Nat
  log : List Ev
  deriving DecidableEq, Repr

/-- What the environment answers during one pass through the main loop:
`check_stop ()`, `check_seek ()`, the result of `mpg123_seek`, the value of
`fi.bitrate` after `mpg123_info`, and the result of `mpg123_read` with the
bytes it stored (`outbuf_size` becomes their number).  Answers to calls that
the pass does not make are ignored. -/
structure Tick where
  stop : Bool
  seek : Int
  seek_ret : Int
  fi_bitrate : Int
  read_ret : Int
  read_data : List Nat
  deriving DecidableEq, Repr

/-- One round of format negotiation at `GET_FORMAT`: the result of
`mpg123_getformat` with the rate and channel count it stores, then the result
of the first `mpg123_read`. -/
structure Attempt where
  getformat_ret : Int
  rate : Int
  channels : Int
  read_ret : Int
  read_data : List Nat
  deriving DecidableEq, Repr

/-- What the environment answers before the main loop. -/
structure Setup where
  fsize : Int
  open_ret : Int
  full_scan : Bool
  scan_ret : Int
  attempts : List Attempt
  info_ret : Int
  fi_bitrate : Int
  deriving DecidableEq, Repr

/-- Where control is after a piece of the loop: still inside the loop, or past
it (after `break` or a false loop condition). -/
inductive Step where
  | next (s : State)
  | exit (s : State)
  deriving DecidableEq, Repr

/-- The outcome of a run of `play` on the given answers: `result = none` when
the answers run out before `play` returns. -/
structure Run where
  result : Option Bool
  final : State
  deriving DecidableEq, Repr

/-- Record an external call. -/
def State.call (s : State) (e : Ev) : State := { s with log := e :: s.log }

/-- Reduction of a mathematical integer to the range of `int64_t`. -/
def wrap64 (x : Int) : Int := (x + 2 ^ 63) % 2 ^ 64 - 2 ^ 63

/-- The sample offset `(int64_t) seek * ctx.rate / 1000` of line 361. -/
def seek_offset (seek rate : Int) : Int := Int.tdiv (wrap64 (seek * rate)) 1000

/-- Lines 357-365: a seek request is handed to `mpg123_seek`, and the staging
buffer is emptied whether or not the call succeeded. -/
def handle_seek (t : Tick) (s : State) : State :=
  if 0 ≤ t.seek then
    let s1 := s.call (Ev.mpg123_seek (seek_offset t.seek s.rate) t.seek_ret)
    let s2 := if t.seek_ret < 0 then s1.call Ev.print_mpg123_error else s1
    { s2 with outbuf := [] }
  else s

/-- Lines 367-377: the bitrate estimator. -/
def update_bitrate (t : Tick) (s : State) : State :=
  let s1 := s.call Ev.mpg123_info
  let s2 := { s1 with bitrate_sum := s1.bitrate_sum + t.fi_bitrate,
                      bitrate_count := s1.bitrate_count + 1 }
  if Int.tdiv s2.bitrate_sum s2.bitrate_count ≠ s2.bitrate ∧ 16 ≤ s2.bitrate_count then
    let s3 := s2.call (Ev.set_stream_bitrate (Int.tdiv s2.bitrate_sum s2.bitrate_count * 1000))
    { s3 with bitrate := Int.tdiv s2.bitrate_sum s2.bitrate_count,
              bitrate_sum := 0, bitrate_count := 0 }
  else s2

/-- Lines 396-402, the `else` branch: reset the error counter, write the
staged bytes, empty the buffer. -/
def write_branch (s : State) : State :=
  let s1 := { s with error_count := 0 }
  let s2 := s1.call (Ev.write_audio s1.outbuf)
  { s2 with outbuf := [] }

/-- Lines 382-402: the read is made only when the staging buffer is empty, and
the `if` branch is taken only when that read returns a negative value. -/
def read_or_write (k : Codes) (t : Tick) (s : State) : Step :=
  if s.outbuf = [] then
    let s1 := { s.call (Ev.mpg123_read t.read_ret t.read_data) with outbuf := t.read_data }
    if t.read_ret < 0 then
      if t.read_ret = k.MPG123_DONE ∨ t.read_ret = k.MPG123_ERR_READER then
        Step.exit s1
      else
        let s2 := s1.call Ev.print_mpg123_error
        let s3 := { s2 with error_count := s2.error_count + 1 }
        if 10 ≤ s3.error_count then Step.exit { s3 with error := true }
        else Step.next s3
    else Step.next (write_branch s1)
  else Step.next (write_branch s)

/-- One evaluation of the loop condition `! check_stop ()` followed, when it
holds, by the loop body (lines 355-403).  The tuple update of lines 379-380
touches none of the variables modelled here and is left out. -/
def iteration (k : Codes) (t : Tick) (s : State) : Step :=
  let s0 := s.call (Ev.check_stop t.stop)
  if t.stop then Step.exit s0
  else
    let s1 := s0.call (Ev.check_seek t.seek)
    read_or_write k t (update_bitrate t (handle_seek t s1))

/-- The main loop, run on the answers for its successive passes. -/
def main_loop (k : Codes) : List Tick → State → Step
  | [], s => Step.next s
  | t :: ts, s =>
    match iteration k t s with
    | Step.exit s1 => Step.exit s1
    | Step.next s1 => main_loop k ts s1

/-- The outcome of format negotiation. -/
inductive Nego where
  | ok (s : State)
  | open_error (s : State)
  | pending (s : State)
  deriving DecidableEq, Repr

/-- Lines 331-342: `GET_FORMAT`.  A negative read result sends control back to
`GET_FORMAT` when it is `MPG123_NEW_FORMAT` and to `OPEN_ERROR` otherwise. -/
def get_format (k : Codes) : List Attempt → State → Nego
  | [], s => Nego.pending s
  | a :: rest, s =>
    let s1 := s.call (Ev.mpg123_getformat a.getformat_ret)
    if a.getformat_ret < 0 then Nego.open_error s1
    else
      let s2 := { s1 with rate := a.rate, channels := a.channels }
      let s3 := { s2.call (Ev.mpg123_read a.read_ret a.read_data) with outbuf := a.read_data }
      if a.read_ret < 0 then
        if a.read_ret = k.MPG123_NEW_FORMAT then get_format k rest s3
        else Nego.open_error s3
      else Nego.ok s3

/-- The variables of `play` after their initialisation (lines 291-318). -/
def init_state : State :=
  { error := false, rate := 0, channels := 0, bitrate := 0, bitrate_sum := 0,
    bitrate_count := 0, error_count := 0, outbuf := [], log := [Ev.mpg123_new] }

/-- Lines 320-353: everything before the main loop.  `Nego.ok` is the state at
the first evaluation of the loop condition, `Nego.open_error` the state on
arrival at the label `OPEN_ERROR`. -/
def setup (k : Codes) (su : Setup) : Nego :=
  let s1 := init_state.call (Ev.mpg123_open_handle su.open_ret)
  if su.open_ret < 0 then Nego.open_error s1
  else
    let stream : Bool := decide (su.fsize < 0)
    let scanned : Bool := !stream && su.full_scan
    let s2 := if scanned then s1.call (Ev.mpg123_scan su.scan_ret) else s1
    if scanned ∧ su.scan_ret < 0 then Nego.open_error s2
    else
      match get_format k su.attempts s2 with
      | Nego.pending s3 => Nego.pending s3
      | Nego.open_error s3 => Nego.open_error s3
      | Nego.ok s3 =>
        let s4 := s3.call Ev.mpg123_info
        if su.info_ret < 0 then Nego.open_error s4
        else
          let s5 := { s4 with bitrate := su.fi_bitrate * 1000 }
          let s6 := s5.call (Ev.set_stream_bitrate s5.bitrate)
          Nego.ok (s6.call (Ev.open_audio s6.rate s6.channels))

/-- Lines 322-325: the label `OPEN_ERROR`. -/
def open_error (s : State) : State :=
  { s.call Ev.print_mpg123_error with error := true }

/-- Lines 405-407: the label `cleanup`. -/
def cleanup (s : State) : Run :=
  { result := some (!s.error), final := s.call Ev.mpg123_delete }

/-- The end of `play` once the main loop has been left. -/
def finish : Step → Run
  | Step.exit s => cleanup s
  | Step.next s => { result := none, final := s }

/-- The function `MPG123Plugin::play`. -/
def play (k : Codes) (su : Setup) (ticks : List Tick) : Run :=
  match setup k su with
  | Nego.pending s => { result := none, final := s }
  | Nego.open_error s => cleanup (open_error s)
  | Nego.ok s => finish (main_loop k ticks s)

/-- The state carried by an outcome of the negotiation. -/
def Nego.state : Nego → State
  | Nego.ok s => s
  | Nego.open_error s => s
  | Nego.pending s => s

/-- The state carried by a step. -/
def Step.state : Step → State
  | Step.next s => s
  | Step.exit s => s

/-- The results of the `mpg123_read` calls in a log, most recent first. -/
def read_rets : List Ev → List Int
  | [] => []
  | Ev.mpg123_read ret _ :: l => ret :: read_rets l
  | _ :: l => read_rets l

/-- The number of `check_stop` calls in a log. -/
def stop_polls : List Ev → Nat
  | [] => 0
  | Ev.check_stop _ :: l => stop_polls l + 1
  | _ :: l => stop_polls l

/-- The arguments of the `set_stream_bitrate` calls in a log, most recent
first. -/
def published : List Ev → List Int
  | [] => []
  | Ev.set_stream_bitrate v :: l => v :: published l
  | _ :: l => published l

/-- The blocks handed to `write_audio` in a log, most recent first. -/
def written : List Ev → List (List Nat)
  | [] => []
  | Ev.write_audio d :: l => d :: written l
  | _ :: l => written l

/-- A read result that takes the error-counting path of lines 388-394. -/
def recoverable (k : Codes) (ret : Int) : Prop :=
  ret < 0 ∧ ret ≠ k.MPG123_DONE ∧ ret ≠ k.MPG123_ERR_READER

instance (k : Codes) (ret : Int) : Decidable (recoverable k ret) := by
  unfold recoverable; infer_instance

/-- The values of the three codes in libmpg123: `MPG123_DONE` and
`MPG123_NEW_FORMAT` are negative return values, `MPG123_ERR_READER` is one of
the positive error codes. -/
def sample_codes : Codes :=
  { MPG123_DONE := -12, MPG123_ERR_READER := 18, MPG123_NEW_FORMAT := -11 }

/-- A session start that succeeds at once: a file of 5000 bytes, 44100 Hz
stereo, a first block of two bytes, 128 kbit/s. -/
def sample_setup : Setup :=
  { fsize := 5000, open_ret := 0, full_scan := false, scan_ret := 0,
    attempts := [{ getformat_ret := 0, rate := 44100, channels := 2,
                   read_ret := 0, read_data := [1, 2] }],
    info_ret := 0, fi_bitrate := 128 }

/-- A pass with no stop and no seek whose read succeeds with the given bytes. -/
def good_tick (data : List Nat) : Tick :=
  { stop := false, seek := -1, seek_ret := 0, fi_bitrate := 128,
    read_ret := 0, read_data := data }

/-- A pass with no stop and no seek whose read fails with the generic error
`-1` and stores the given bytes. -/
def bad_tick (data : List Nat) : Tick :=
  { stop := false, seek := -1, seek_ret := 0, fi_bitrate := 128,
    read_ret := -1, read_data := data }

/-- A state of the main loop whose staging buffer still holds two bytes. -/
def stale_state : State :=
  { error := false, rate := 44100, channels := 2, bitrate := 128, bitrate_sum := 0,
    bitrate_count := 0, error_count := 0, outbuf := [9, 9], log := [] }

/-- A pass with a seek request to 1000 ms, which succeeds, and a successful
read of two bytes. -/
def seek_tick : Tick :=
  { stop := false, seek := 1000, seek_ret := 0, fi_bitrate := 128,
    read_ret := 0, read_data := [4, 5] }

/-- A pass whose read returns the value of `MPG123_ERR_READER` in
`sample_codes` and stores one byte. -/
def reader_error_tick : Tick :=
  { stop := false, seek := -1, seek_ret := 0, fi_bitrate := 128,
    read_ret := 18, read_data := [5] }

/-- A pass whose read returns the value of `MPG123_DONE` in `sample_codes`. -/
def done_tick : Tick :=
  { stop := false, seek := -1, seek_ret := 0, fi_bitrate := 128,
    read_ret := -12, read_data := [] }

/-- A pass whose stop poll answers true while a seek request is pending and
the decoder could deliver a block. -/
def stop_tick : Tick :=
  { stop := true, seek := 500, seek_ret := 0, fi_bitrate := 128,
    read_ret := 0, read_data := [8] }

/-- A session start in which `mpg123_open_handle` fails. -/
def failing_setup : Setup := { sample_setup with open_ret := -1 }

/-! The probe `MPG123Plugin::is_our_file` (lines 141-214). -/

/-- The calls that `is_our_file` makes on the file and on the decoder. -/
inductive ProbeEv where
  | fsize
  | fread (count : Int)
  | fseek (ret : Int)
  | mpg123_new
  | mpg123_open_handle (ret : Int)
  | mpg123_scan (ret : Int)
  | mpg123_getformat (ret : Int)
  | mpg123_info (ret : Int)
  | mpg123_read (ret : Int)
  | mpg123_delete
  deriving DecidableEq, Repr

/-- One round of the probe at the label `RETRY`: the results of
`mpg123_getformat`, `mpg123_info` and `mpg123_read`. -/
structure ProbeAttempt where
  getformat_ret : Int
  info_ret : Int
  read_ret : Int
  deriving DecidableEq, Repr

/-- What the file and the decoder answer to the probe: the file size, the
number of bytes `fread` delivers and the three bytes it stores, the result of
`fseek`, and the results of the decoder calls. -/
structure Probe where
  fsize : Int
  fread_count : Int
  id3buf : List Char
  fseek_ret : Int
  open_ret : Int
  full_scan : Bool
  scan_ret : Int
  attempts : List ProbeAttempt
  deriving DecidableEq, Repr

/-- The outcome of the probe: the value returned (`none` when the answers run
out first) and the calls made, most recent first. -/
structure ProbeRun where
  result : Option Bool
  log : List ProbeEv
  deriving DecidableEq, Repr

/-- The test `! strncmp (fname, "mms://", 6)` of line 146: the first six
characters of the name are those of "mms://". -/
def is_mms (fname : String) : Bool := fname.toList.take 6 == "mms://".toList

/-- The label `ERR` of lines 180-183. -/
def probe_err (log : List ProbeEv) : ProbeRun :=
  { result := some false, log := ProbeEv.mpg123_delete :: log }

/-- Lines 189-213: the label `RETRY` and the acceptance of the file. -/
def probe_retry (k : Codes) : List ProbeAttempt → List ProbeEv → ProbeRun
  | [], log => { result := none, log := log }
  | a :: rest, log =>
    let l1 := ProbeEv.mpg123_getformat a.getformat_ret :: log
    if a.getformat_ret < 0 then probe_err l1
    else
      let l2 := ProbeEv.mpg123_info a.info_ret :: l1
      if a.info_ret < 0 then probe_err l2
      else
        let l3 := ProbeEv.mpg123_read a.read_ret :: l2
        if a.read_ret < 0 then
          if a.read_ret = k.MPG123_NEW_FORMAT then probe_retry k rest l3
          else probe_err l3
        else { result := some true, log := ProbeEv.mpg123_delete :: l3 }

/-- Lines 167-187: the decoder is created and opened. -/
def probe_decoder (k : Codes) (f : Probe) (is_streaming : Bool) (log : List ProbeEv) :
    ProbeRun :=
  let l1 := ProbeEv.mpg123_open_handle f.open_ret :: ProbeEv.mpg123_new :: log
  if f.open_ret < 0 then probe_err l1
  else
    let scanned : Bool := !is_streaming && f.full_scan
    let l2 := if scanned then ProbeEv.mpg123_scan f.scan_ret :: l1 else l1
    if scanned ∧ f.scan_ret < 0 then probe_err l2
    else probe_retry k f.attempts l2

/-- The function `MPG123Plugin::is_our_file`. -/
def is_our_file (k : Codes) (fname : String) (f : Probe) : ProbeRun :=
  if is_mms fname then { result := some false, log := [] }
  else
    let l0 := [ProbeEv.fsize]
    if f.fsize < 0 then probe_decoder k f true l0
    else
      let l1 := ProbeEv.fread f.fread_count :: l0
      if f.fread_count ≠ 3 then { result := some false, log := l1 }
      else if f.id3buf = "ID3".toList then { result := some true, log := l1 }
      else
        let l2 := ProbeEv.fseek f.fseek_ret :: l1
        if f.fseek_ret < 0 then { result := some false, log := l2 }
        else probe_decoder k f false l2

/-- A file of 5000 bytes that starts with an ID3 tag. -/
def tagged_file : Probe :=
  { fsize := 5000, fread_count := 3, id3buf := "ID3".toList, fseek_ret := 0, open_ret := 0,
    full_scan := false, scan_ret := 0,
    attempts := [{ getformat_ret := 0, info_ret := 0, read_ret := 0 }] }

/-! The function `MPG123Plugin::read_tuple` (lines 216-273). -/

/-- Reduction of a mathematical integer to the range of a 32-bit `int`. -/
def wrap32 (x : Int) : Int := (x + 2 ^ 31) % 2 ^ 32 - 2 ^ 31

/-- The fields of the tuple that `read_tuple` sets; `none` is an unset field.
`codec` holds the version index and the layer that `make_format_string`
prints, `quality` the channel word and the rate of line 247. -/
structure Tuple where
  filename : Option String
  codec : Option (Int × Int)
  quality : Option (String × Int)
  bitrate : Option Int
  length : Option Int
  deriving DecidableEq, Repr

/-- The empty tuple `Tuple ()`. -/
def Tuple.empty : Tuple :=
  { filename := none, codec := none, quality := none, bitrate := none, length := none }

/-- What the file and the decoder answer to `read_tuple`: the file size at
line 218 and again at line 254, the results of the decoder calls with the
values they store, and the sample count `mpg123_length`. -/
structure TupleProbe where
  fsize : Int
  open_ret : Int
  full_scan : Bool
  scan_ret : Int
  getformat_ret : Int
  rate : Int
  channels : Int
  info_ret : Int
  version : Int
  layer : Int
  bitrate : Int
  size : Int
  samples : Int
  deriving DecidableEq, Repr

/-- The value of `int length` at line 256: the `int64_t` quotient, or 0,
converted to `int`. -/
def tuple_length (samples rate : Int) : Int :=
  wrap32 (if 0 < samples ∧ 0 < rate then Int.tdiv (wrap64 (samples * 1000)) rate else 0)

/-- The argument `8 * size / length` of line 261, converted to the `int` that
`set_int` takes. -/
def size_bitrate (size length : Int) : Int := wrap32 (Int.tdiv (wrap64 (8 * size)) length)

/-- The condition of lines 233-236, with the short-circuit order of `||` and
`&&`. -/
def tuple_probe_fails (f : TupleProbe) : Bool :=
  decide (f.open_ret < 0) ||
  (!decide (f.fsize < 0) && f.full_scan && decide (f.scan_ret < 0)) ||
  decide (f.getformat_ret < 0) || decide (f.info_ret < 0)

/-- The function `MPG123Plugin::read_tuple` up to line 262: the tuple as it
stands before the tag of the file or the stream information is merged in. -/
def read_tuple (filename : String) (f : TupleProbe) : Tuple :=
  if tuple_probe_fails f then Tuple.empty
  else
    let t0 : Tuple :=
      { filename := some filename,
        codec := some (f.version, f.layer),
        quality := some (if f.channels = 2 then "Stereo"
                         else if 2 < f.channels then "Surround" else "Mono", wrap32 f.rate),
        bitrate := some f.bitrate,
        length := none }
    if f.fsize < 0 then t0
    else
      let length := tuple_length f.samples f.rate
      let t1 := if 0 < length then { t0 with length := some length } else t0
      if 0 < f.size ∧ 0 < length then { t1 with bitrate := some (size_bitrate f.size length) }
      else t1

/-- A file of 4000000 bytes holding 8820000 samples at 44100 Hz, 200 seconds,
whose first frame announces 128 kbit/s. -/
def sample_file : TupleProbe :=
  { fsize := 4000000, open_ret := 0, full_scan := false, scan_ret := 0, getformat_ret := 0,
    rate := 44100, channels := 2, info_ret := 0, version := 0, layer := 3, bitrate := 128,
    size := 4000000, samples := 8820000 }

/-- A file of 2147483648 bytes holding 17179869184 samples at 8000 Hz:
2147483648 ms, a little under 25 days. -/
def long_file : TupleProbe :=
  { sample_file with fsize := 2147483648, size := 2147483648, rate := 8000, bitrate := 8,
                     samples := 17179869184 }

/-- The sample rates that `set_format` (lines 126-132) allows the decoder to
negotiate. -/
def set_format_rates : List Int :=
  [8000, 11025, 12000, 16000, 22050, 24000, 32000, 44100, 48000]

/-- The number of `mpg123_getformat` calls in a log. -/
def format_queries : List Ev → Nat
  | [] => 0
  | Ev.mpg123_getformat _ :: l => format_queries l + 1
  | _ :: l => format_queries l

/-- The variables of `play` without the log of calls. -/
def State.vars (s : State) : State := { s with log := [] }

/-- The kind of a step and the variables it carries, without the log. -/
def Step.vars : Step → Step
  | Step.next s => Step.next s.vars
  | Step.exit s => Step.exit s.vars

/-- Two passes in which the environment answers alike except, possibly, for
the result of `mpg123_seek`. -/
def same_but_seek_ret (a b : Tick) : Prop :=
  a.stop = b.stop ∧ a.seek = b.seek ∧ a.fi_bitrate = b.fi_bitrate ∧
  a.read_ret = b.read_ret ∧ a.read_data = b.read_data

instance (a b : Tick) : Decidable (same_but_seek_ret a b) := by
  unfold same_but_seek_ret; infer_instance

/-- A pass whose read returns the value of `MPG123_NEW_FORMAT` in
`sample_codes`. -/
def new_format_tick : Tick :=
  { stop := false, seek := -1, seek_ret := 0, fi_bitrate := 128,
    read_ret := -11, read_data := [] }

/-- A pass with a seek request to 1000 ms, which fails, and a successful read
of two bytes. -/
def failed_seek_tick : Tick :=
  { stop := false, seek := 1000, seek_ret := -1, fi_bitrate := 128,
    read_ret := 0, read_data := [4, 5] }

/-- A session start whose first read reports a new format once before the
negotiation succeeds at 48000 Hz. -/
def renegotiating_setup : Setup :=
  { sample_setup with
    attempts := [{ getformat_ret := 0, rate := 44100, channels := 2,
                   read_ret := -11, read_data := [] },
                 { getformat_ret := 0, rate := 48000, channels := 2,
                   read_ret := 0, read_data := [1, 2] }] }

/-- A session after the first write: nine failing reads, one successful read,
nine failing reads. -/
def nine_one_nine : List Tick :=
  good_tick [3] :: (List.replicate 9 (bad_tick []) ++
    good_tick [5] :: List.replicate 9 (bad_tick []))

end MPG123Plugin

namespace AdPlugXMMS

/-- A C `float`: the exact value `num / den` of a number of the IEEE 754
binary32 format.  The operations below are defined on every fraction and
round their exact result to that format; infinities and NaN are not
modelled. -/
structure CFloat where
  num : Int
  den : Int
  deriving DecidableEq, Repr

/-- The integer nearest to `p / q`, a tie going to the even neighbour. -/
def round_half_even (p q : Nat) : Nat :=
  if 2 * (p % q) < q then p / q
  else if q < 2 * (p % q) then p / q + 1
  else if (p / q) % 2 = 0 then p / q else p / q + 1

/-- The number of binary digits of `n`, for `n` below `2 ^ fuel`. -/
def bit_length : Nat → Nat → Nat
  | 0, _ => 0
  | fuel + 1, n => if n = 0 then 0 else bit_length fuel (n / 2) + 1

/-- The position of the last binary digit kept when `p / q` is rounded to
binary32: the spacing of the format around `p / q` is `2 ^ (104 - t)` for the
least `t` with `2 ^ 23 ≤ (p / q) * 2 ^ (t - 104)`, and `2 ^ (-149)`, the
spacing of the subnormal numbers, when there is none below 253.  The search
starts at the estimate that the numbers of digits of `p` and `q` give, after a
check that the candidate before the estimate fails. -/
def float_shift (p q : Nat) : Nat :=
  let t0 := min 253 (127 + bit_length 256 q - bit_length 256 p)
  let start := if t0 = 0 ∨ decide (q * 2 ^ 127 ≤ p * 2 ^ (t0 - 1)) = false then t0 else 0
  ((List.range' start (253 - start)).find? (fun t => decide (q * 2 ^ 127 ≤ p * 2 ^ t))).getD 253

/-- The binary32 number nearest to `n / d`, a tie going to the even
neighbour: the rounding that every `float` operation ends with when it is
evaluated in the precision of its type.  Overflow to infinity is not modelled:
above the largest finite number the spacing `2 ^ 104` is kept.  A zero `d`
gives 0. -/
def round_float (n d : Int) : CFloat :=
  if n = 0 then { num := 0, den := 1 }
  else
    let t := float_shift n.natAbs d.natAbs
    let m := round_half_even (n.natAbs * 2 ^ t) (d.natAbs * 2 ^ 104)
    { num := n.sign * d.sign * ((m * 2 ^ (104 - t) : Nat) : Int),
      den := ((2 ^ (t - 104) : Nat) : Int) }

/-- The conversion of an integer to `float`. -/
def float_of_int (i : Int) : CFloat := round_float i 1

/-- The quotient `a / b` of two `float` values. -/
def float_div (a b : CFloat) : CFloat := round_float (a.num * b.den) (a.den * b.num)

/-- The product `a * b` of two `float` values. -/
def float_mul (a b : CFloat) : CFloat := round_float (a.num * b.num) (a.den * b.den)

/-- The sum `a + b` of two `float` values. -/
def float_add (a b : CFloat) : CFloat :=
  round_float (a.num * b.den + b.num * a.den) (a.den * b.den)

/-- The conversion of a `float` to `int` or `long`, which truncates toward
zero. -/
def float_to_int (a : CFloat) : Int := Int.tdiv a.num a.den

/-- The value `(int) (1000 / r)` of lines 231 and 244: 1000 is converted to
`float`, the quotient is rounded to `float` and then truncated toward zero. -/
def ms_per_update (r : CFloat) : Int := float_to_int (float_div (float_of_int 1000) r)

/-- The value `(long) (toadd / r + 4) & ~3` of line 246: `toadd` and 4 are
converted to `float`, quotient and sum are each rounded to `float`, and the
truncated sum has its two lowest bits cleared. -/
def chunk (toadd : Int) (r : CFloat) : Int :=
  let x := float_to_int (float_add (float_div (float_of_int toadd) r) (float_of_int 4))
  x - x % 4

/-- The value `(long) (r * i)` of line 250: `i` is converted to `float` and the
product is rounded to `float` and then truncated toward zero. -/
def consumed (r : CFloat) (i : Int) : Int := float_to_int (float_mul r (float_of_int i))

/-- The member functions of AdPlug's `CPlayer` that `play` calls, acting on a
player state of type `σ`.  The class belongs to the AdPlug library. -/
structure CPlayer (σ : Type) where
  update : σ → Bool × σ
  getrefresh : σ → CFloat
  rewind : Nat → σ → σ

/-- The global `conf` (lines 86-90). -/
structure Conf where
  freq : Int
  bit16 : Bool
  stereo : Bool
  endless : Bool
  deriving DecidableEq, Repr

/-- The fields of the global `plr` other than the player itself. -/
structure Plr where
  subsong : Nat
  filename : Option String
  deriving DecidableEq, Repr

/-- The external calls made by `play`, with the values passed or returned. -/
inductive Ev where
  | set_stream_bitrate (v : Int)
  | open_audio (bit16 : Bool) (rate channels : Int)
  | factory (found : Bool)
  | malloc (bytes : Int)
  | rewind (subsong : Nat)
  | check_stop (b : Bool)
  | check_seek (v : Int)
  | update (playing : Bool)
  | opl_update (samples : Int)
  | write_audio (bytes : Int)
  | delete_player
  | free_sndbuf
  deriving DecidableEq, Repr

/-- The player and the local variables of `play` that live across passes of the
main loop; `log` lists the external calls made so far, most recent first. -/
structure State (σ : Type) where
  p : σ
  time : Int
  toadd : Int
  playing : Bool
  log : List Ev
  deriving DecidableEq, Repr

/-- What the environment shows during one pass through the main loop: the
global `conf` as it stands during the pass, `check_stop ()`, `check_seek ()`. -/
structure Tick where
  conf : Conf
  stop : Bool
  seek : Int
  deriving DecidableEq, Repr

/-- Where control is after a piece of the loop: still inside the loop, or past
it. -/
inductive Step (σ : Type) where
  | next (s : State σ)
  | exit (s : State σ)
  deriving DecidableEq, Repr

/-- The outcome of a run of `play`: `result = none` when `play` has not
returned, `log` the external calls made (left empty for a run cut off inside
an inner loop), `final` the loop variables when the player was created. -/
structure Run (σ : Type) where
  result : Option Bool
  plr : Plr
  log : List Ev
  final : Option (State σ)
  deriving DecidableEq, Repr

/-- The constant `SNDBUFSIZE`. -/
def SNDBUFSIZE : Int := 512

/-- Record an external call. -/
def State.call {σ : Type} (s : State σ) (e : Ev) : State σ := { s with log := e :: s.log }

/-- Lines 230-231: `while (time < seek && plr.p->update ()) time += ...`.  The
first argument bounds the number of passes; `none` means the bound was reached
with the loop still running. -/
def seek_loop {σ : Type} (P : CPlayer σ) : Nat → Int → State σ → Option (State σ)
  | 0, seek, s => if s.time < seek then none else some s
  | fuel + 1, seek, s =>
    if s.time < seek then
      let r := P.update s.p
      let s1 := { s with p := r.2 }.call (Ev.update r.1)
      if r.1 then
        seek_loop P fuel seek { s1 with time := s1.time + ms_per_update (P.getrefresh s1.p) }
      else some s1
    else some s

/-- Lines 220-232: the handling of a seek request. -/
def handle_seek {σ : Type} (P : CPlayer σ) (subsong : Nat) (fuel : Nat) (seek : Int)
    (s : State σ) : Option (State σ) :=
  if seek ≠ -1 then
    let s1 := if seek < s.time then
        { s with p := P.rewind subsong s.p, time := 0 }.call (Ev.rewind subsong)
      else s
    seek_loop P fuel seek s1
  else some s

/-- Lines 239-245: `while (toadd < 0)`. -/
def top_up {σ : Type} (P : CPlayer σ) (freq : Int) : Nat → State σ → Option (State σ)
  | 0, s => if s.toadd < 0 then none else some s
  | fuel + 1, s =>
    if s.toadd < 0 then
      let r := P.update s.p
      let s1 := { s with p := r.2, toadd := s.toadd + freq, playing := r.1 }.call (Ev.update r.1)
      let s2 := if r.1 then { s1 with time := s1.time + ms_per_update (P.getrefresh s1.p) }
        else s1
      top_up P freq fuel s2
    else some s

/-- Lines 237-251: `while (towrite > 0)`. -/
def fill {σ : Type} (P : CPlayer σ) (freq : Int) : Nat → Int → State σ → Option (State σ)
  | 0, towrite, s => if 0 < towrite then none else some s
  | fuel + 1, towrite, s =>
    if 0 < towrite then
      match top_up P freq (fuel + 1) s with
      | none => none
      | some s1 =>
        let i := min towrite (chunk s1.toadd (P.getrefresh s1.p))
        let s2 := { s1.call (Ev.opl_update i) with
                    toadd := s1.toadd - consumed (P.getrefresh s1.p) i }
        fill P freq fuel (towrite - i) s2
    else some s

/-- One evaluation of the loop condition `playing || conf.endless` followed,
when it holds, by the loop body (lines 212-254).  `none` means that one of the
inner loops did not end within `fuel` passes. -/
def iteration {σ : Type} (P : CPlayer σ) (sampsize : Int) (subsong : Nat) (fuel : Nat)
    (t : Tick) (s : State σ) : Option (Step σ) :=
  if (s.playing || t.conf.endless) = false then some (Step.exit s)
  else
    let s0 := s.call (Ev.check_stop t.stop)
    if t.stop then some (Step.exit s0)
    else
      match handle_seek P subsong fuel t.seek (s0.call (Ev.check_seek t.seek)) with
      | none => none
      | some s1 =>
        match fill P t.conf.freq fuel SNDBUFSIZE s1 with
        | none => none
        | some s2 => some (Step.next (s2.call (Ev.write_audio (SNDBUFSIZE * sampsize))))

/-- The main loop, run on what the environment shows in its successive
passes. -/
def main_loop {σ : Type} (P : CPlayer σ) (sampsize : Int) (subsong : Nat) (fuel : Nat) :
    List Tick → State σ → Option (Step σ)
  | [], s => some (Step.next s)
  | t :: ts, s =>
    match iteration P sampsize subsong fuel t s with
    | none => none
    | some (Step.exit s1) => some (Step.exit s1)
    | some (Step.next s1) => main_loop P sampsize subsong fuel ts s1

/-- The value `sampsize` of line 171. -/
def sampsize_of (c : Conf) : Int := (if c.bit16 then 2 else 1) * (if c.stereo then 2 else 1)

/-- Lines 192-198: reset to the first subsong on a new file. -/
def select_subsong (filename : String) (plr : Plr) : Plr :=
  if plr.filename = none ∨ plr.filename ≠ some filename then
    { subsong := 0, filename := some filename }
  else plr

/-- Lines 256-262: free everything and return. -/
def free_all {σ : Type} (plr : Plr) : Option (Step σ) → Run σ
  | none => { result := none, plr := plr, log := [], final := none }
  | some (Step.next s) => { result := none, plr := plr, log := s.log, final := some s }
  | some (Step.exit s) =>
    { result := some true, plr := plr, log := Ev.free_sndbuf :: Ev.delete_player :: s.log,
      final := some s }

/-- The calls made before the player is requested (lines 171-178). -/
def open_log (c : Conf) : List Ev :=
  [Ev.open_audio c.bit16 c.freq (if c.stereo then 2 else 1),
   Ev.set_stream_bitrate (c.freq * sampsize_of c * 8)]

/-- The state at the first evaluation of the loop condition (lines 179-208),
for a player that `factory` created in state `p0`. -/
def loop_entry {σ : Type} (P : CPlayer σ) (c : Conf) (plr : Plr) (p0 : σ) : State σ :=
  { p := P.rewind plr.subsong p0, time := 0, toadd := 0, playing := true,
    log := Ev.rewind plr.subsong :: Ev.malloc (SNDBUFSIZE * sampsize_of c)
           :: Ev.factory true :: open_log c }

/-- The function `AdPlugXMMS::play`.  `c` is the global `conf` at the call,
`plr` the remembered file name and subsong, `made` the player that `factory`
returns (`none` for a null pointer). -/
def play {σ : Type} (P : CPlayer σ) (c : Conf) (filename : String) (plr : Plr)
    (made : Option σ) (fuel : Nat) (ticks : List Tick) : Run σ :=
  match made with
  | none => { result := some false, plr := plr, log := Ev.factory false :: open_log c,
              final := none }
  | some p0 =>
    let plr1 := select_subsong filename plr
    free_all plr1
      (main_loop P (sampsize_of c) plr1.subsong fuel ticks (loop_entry P c plr1 p0))

/-- The calls made from inside the seek and fill loops. -/
def Ev.is_inner : Ev → Bool
  | Ev.rewind _ => true
  | Ev.update _ => true
  | Ev.opl_update _ => true
  | _ => false

/-- The calls made from inside the main loop. -/
def Ev.is_body : Ev → Bool
  | Ev.check_stop _ => true
  | Ev.check_seek _ => true
  | Ev.write_audio _ => true
  | e => e.is_inner

/-- The number of `check_stop` calls in a log. -/
def stop_polls : List Ev → Nat
  | [] => 0
  | Ev.check_stop _ :: l => stop_polls l + 1
  | _ :: l => stop_polls l

/-- The state carried by a step. -/
def Step.state {σ : Type} : Step σ → State σ
  | Step.next s => s
  | Step.exit s => s

/-- The number of player updates in a log that reported the song as still
playing. -/
def successful_updates : List Ev → Nat
  | [] => 0
  | Ev.update true :: l => successful_updates l + 1
  | _ :: l => successful_updates l

/-- The chunk sizes handed to `opl.update` in a log, most recent first. -/
def rendered : List Ev → List Int
  | [] => []
  | Ev.opl_update i :: l => i :: rendered l
  | _ :: l => rendered l

/-- The sizes in bytes of the blocks handed to `write_audio` in a log, most
recent first. -/
def blocks : List Ev → List Int
  | [] => []
  | Ev.write_audio n :: l => n :: blocks l
  | _ :: l => blocks l

/-- Two passes that agree on the stop and seek answers and on the frequency
and the endless flag of the configuration. -/
def same_but_format (a b : Tick) : Prop :=
  a.stop = b.stop ∧ a.seek = b.seek ∧ a.conf.freq = b.conf.freq ∧
  a.conf.endless = b.conf.endless

instance (a b : Tick) : Decidable (same_but_format a b) := by
  unfold same_but_format; infer_instance

/-- A player whose song lasts `len` updates at the given refresh rate; its
state is the number of updates made since the last rewind. -/
def sample_player (len : Nat) (refresh : CFloat) : CPlayer Nat :=
  { update := fun n => (decide (n + 1 < len), n + 1),
    getrefresh := fun _ => refresh,
    rewind := fun _ _ => 0 }

/-- The default configuration of lines 87-88. -/
def default_conf : Conf := { freq := 44100, bit16 := true, stereo := false, endless := false }

/-- A state of the main loop 560 ms into the song of a sample player. -/
def late_state : State Nat :=
  { p := 40, time := 560, toadd := 0, playing := true, log := [] }

/-- A pass with the default configuration, no stop and no seek. -/
def plain_tick : Tick := { conf := default_conf, stop := false, seek := -1 }

/-- A pass whose stop poll answers true while a seek request is pending. -/
def stop_tick : Tick := { conf := default_conf, stop := true, seek := 100 }

/-- The state at the start of a song whose player is in its initial state. -/
def fresh_state : State Nat :=
  { p := 0, time := 0, toadd := 0, playing := true, log := [] }

/-- A pass during which the configuration asks for 8 bit stereo. -/
def reformatted_tick : Tick :=
  { conf := { default_conf with bit16 := false, stereo := true }, stop := false, seek := -1 }

/-- The refresh rate 44100 / 512 Hz: one update for every 512 frames at
44100 Hz. -/
def block_rate : CFloat := ⟨44100, 512⟩

end AdPlugXMMS

namespace MPG123Plugin

/-- A pass with no stop and no seek whose `mpg123_info` reports the given
bitrate and whose read succeeds with one byte. -/
def bitrate_tick (b : Int) : Tick :=
  { stop := false, seek := -1, seek_ret := 0, fi_bitrate := b, read_ret := 0, read_data := [3] }

/-- A session of 33 passes: the bitrate reads 128 in the first 32 and 400 in
the last. -/
def long_window : List Tick :=
  List.replicate 32 (bitrate_tick 128) ++ [bitrate_tick 400]

end MPG123Plugin

namespace AdPlugXMMS

/-- A player whose `update` never reports the end of the song; its state is the
number of updates made since the last rewind. -/
def looping_player (refresh : CFloat) : CPlayer Nat :=
  { update := fun n => (true, n + 1),
    getrefresh := fun _ => refresh,
    rewind := fun _ _ => 0 }

end AdPlugXMMS

namespace SongChange

/-- The terminator of a C string. -/
def NUL : Char := Char.ofNat 0

/-- The dollar sign. -/
def dollar : Char := Char.ofNat 36

/-- The backquote. -/
def backquote : Char := Char.ofNat 96

/-- The double quote. -/
def dquote : Char := Char.ofNat 34

/-- The backslash. -/
def backslash : Char := Char.ofNat 92

/-- The percent sign. -/
def percent : Char := Char.ofNat 37

/-- The C library's `strlen` on memory holding a C string: the number of
characters before the first terminator.  Memory is given as the list of its
characters; past the end of the list a terminator is read. -/
def strlen : List Char → Nat
  | [] => 0
  | c :: rest => if c = NUL then 0 else strlen rest + 1

/-- The test `strchr (s, c) != NULL` of the C library for a string `s` without
an inner terminator: the terminator of `s` belongs to the string searched, so
the test succeeds for `c = NUL`. -/
def strchr (s : List Char) (c : Char) : Bool := decide (c = NUL ∨ c ∈ s)

/-- The string `special` of line 67: the characters to escape. -/
def special : List Char := [dollar, backquote, dquote, backslash]

/-- Lines 72-74: the first loop of `escape_shell_chars`, which counts in `num`
the characters of `string` that are in `special`. -/
def count_special : List Char → Nat → Nat
  | [], num => num
  | c :: rest, num =>
    if c = NUL then num
    else count_special rest (if strchr special c then num + 1 else num)

/-- Lines 81-86: the second loop of `escape_shell_chars` and the terminator
stored after it; the result lists the characters stored through `out`. -/
def copy_escaped : List Char → List Char
  | [] => [NUL]
  | c :: rest =>
    if c = NUL then [NUL]
    else (if strchr special c then [backslash, c] else [c]) ++ copy_escaped rest

/-- The result of `escape_shell_chars`: the number of characters requested from
`g_new` and the characters stored in the block, terminator included. -/
structure Escaped where
  allocated : Nat
  stored : List Char
  deriving DecidableEq, Repr

/-- The function `escape_shell_chars` (lines 65-89). -/
def escape_shell_chars (string : List Char) : Escaped :=
  { allocated := strlen string + count_special string 0 + 1,
    stored := copy_escaped string }

/-- The C string held in memory: the characters before the first terminator. -/
def c_string (mem : List Char) : List Char := mem.takeWhile (fun c => decide (c ≠ NUL))

/-- The text of a string with one backslash put in front of each dollar sign,
backquote, double quote and backslash. -/
def backslash_inserted (s : List Char) : List Char :=
  s.flatMap (fun c =>
    if c = dollar ∨ c = backquote ∨ c = dquote ∨ c = backslash then [backslash, c] else [c])

/-- The string `dangerous` of line 248. -/
def dangerous : List Char := ['f', 'n', 's']

/-- Lines 252-258: the loop of `check_command` from the character `c` on.
`prev` is `none` when `c == command` and otherwise holds `*(c - 1)`; `qu` is
the quote flag; the list holds `*c`, `*(c + 1)` and so on. -/
def check_loop : Option Char → Bool → List Char → Int
  | _, _, [] => 0
  | prev, qu, c :: rest =>
    if c = NUL then 0
    else if c = dquote ∧ (prev = none ∨ prev ≠ some backslash) then
      check_loop (some c) (!qu) rest
    else if c = percent ∧ qu = false ∧ strchr dangerous (rest.headD NUL) = true then -1
    else check_loop (some c) qu rest

/-- The function `check_command` (lines 246-260). -/
def check_command (command : List Char) : Int := check_loop none false command

/-- The four command strings of `config` (lines 294-299). -/
structure SongChangeConfig where
  cmd : List Char
  cmd_after : List Char
  cmd_end : List Char
  cmd_ttc : List Char
  deriving DecidableEq, Repr

/-- The widget calls made by `edit_cb`. -/
inductive Ev where
  | show_warn_img
  | show_warn_label
  | hide_warn_img
  | hide_warn_label
  deriving DecidableEq, Repr

/-- The function `edit_cb` (lines 303-316); the result lists its widget calls
in the order made. -/
def edit_cb (config : SongChangeConfig) : List Ev :=
  if check_command config.cmd < 0 ∨ check_command config.cmd_after < 0 ∨
      check_command config.cmd_end < 0 ∨ check_command config.cmd_ttc < 0 then
    [Ev.show_warn_img, Ev.show_warn_label]
  else [Ev.hide_warn_img, Ev.hide_warn_label]

/-- Whether the double quote at position `j` of `s` toggles the quoting: it is
not immediately preceded by a backslash. -/
def toggles (s : List Char) (j : Nat) : Bool :=
  decide (s[j]? = some dquote ∧ (j = 0 ∨ s[j - 1]? ≠ some backslash))

/-- Whether position `i` of `s` lies inside double quotes: an odd number of
toggling quotes stands before it. -/
def inside_quotes (s : List Char) (i : Nat) : Bool :=
  decide (((List.range i).countP (toggles s)) % 2 = 1)

/-- The condition of the specification for a command to be flagged: some
percent sign outside double quotes is immediately followed by `f`, `n` or
`s`. -/
def percent_letter_outside_quotes (s : List Char) : Bool :=
  (List.range s.length).any (fun i =>
    decide (s[i]? = some percent) && !inside_quotes s i &&
    decide (s[i + 1]? = some 'f' ∨ s[i + 1]? = some 'n' ∨ s[i + 1]? = some 's'))

/-- The command `echo %`. -/
def trailing_percent : List Char := "echo ".toList ++ [percent]

/-- The command `echo %s`. -/
def bare_parameter : List Char := "echo ".toList ++ [percent, 's']

/-- The command `echo "%s"`. -/
def quoted_parameter : List Char := "echo ".toList ++ [dquote, percent, 's', dquote]

/-- A title holding each of the four special characters once. -/
def sample_title : List Char := ['a', dollar, 'b', backquote, dquote, 'c', backslash]

end SongChange

namespace AdPlugXMMS

/-- The terminator of a C string. -/
def NUL : Char := Char.ofNat 0

/-- The colon that separates the file types in the configuration string. -/
def colon : Char := Char.ofNat 58

/-- A player description of AdPlug's `CPlayers` list: `id` stands for the
address of the description, by which `find` compares, `filetype` is its file
type. -/
structure CPlayerDesc where
  id : Nat
  filetype : List Char
  deriving DecidableEq, Repr

/-- Lines 369-371 of `cleanup`: the file type is added to `exclude`, after a
colon when `exclude` is not empty. -/
def add_filetype (exclude : List Char) (filetype : List Char) : List Char :=
  (if exclude ≠ [] then exclude ++ [colon] else exclude) ++ filetype

/-- Lines 363-372 of `cleanup`: the loop over `CAdPlug::getPlayers ()`, given as
`all`, that collects in `exclude` the file types of the descriptions not found
in `conf.players`. -/
def exclude_string (all players : List CPlayerDesc) : List Char :=
  all.foldl (fun exclude i => if i ∈ players then exclude else add_filetype exclude i.filetype) []

/-- The C string that a character sequence is read as: its characters before
the first terminator. -/
def c_str (s : List Char) : List Char := s.takeWhile (fun c => decide (c ≠ NUL))

/-- Lines 362-374 of `cleanup`: the value stored under `Exclude`. -/
def cleanup_exclude (all players : List CPlayerDesc) : List Char :=
  c_str (exclude_string all players)

/-- The function `str_replace_char` of libaudcore. -/
def str_replace_char (s : List Char) (a b : Char) : List Char :=
  s.map (fun c => if c = a then b else c)

/-- The C library's `strlen` at a place in memory: the number of characters
before the first terminator; past the end of the list a terminator is read. -/
def strlen : List Char → Nat
  | [] => 0
  | c :: rest => if c = NUL then 0 else strlen rest + 1

/-- Lines 319-320 of `init`: the loop `for (p = exclude; * p; p += strlen (p) +
1)` over the memory from `p` on; the result lists the strings passed to
`lookup_filetype`, in order.  Each pass moves `p` on, so as many passes as the
memory has characters are enough. -/
def walk : Nat → List Char → List (List Char)
  | 0, _ => []
  | fuel + 1, p =>
    if p.headD NUL = NUL then []
    else c_str p :: walk fuel (p.drop (strlen p + 1))

/-- Lines 311-322 of `init`: the strings passed to `lookup_filetype`, whose
players are removed from `conf.players`, for the value `cfgstr` stored under
`Exclude`.  The buffer of the `StringBuf` ends with its own terminator. -/
def init_exclude (cfgstr : List Char) : List (List Char) :=
  if cfgstr.headD NUL ≠ NUL then
    let exclude := str_replace_char (cfgstr ++ [colon]) colon NUL ++ [NUL]
    walk exclude.length exclude
  else []

/-- The file types of the descriptions of `all` that are not in `players`, in
the order of `all`. -/
def excluded_types (all players : List CPlayerDesc) : List (List Char) :=
  (all.filter (fun i => decide (i ∉ players))).map CPlayerDesc.filetype

/-- Four player descriptions. -/
def sample_players : List CPlayerDesc :=
  [⟨0, "hsc".toList⟩, ⟨1, "sng".toList⟩, ⟨2, "imf".toList⟩, ⟨3, "d00".toList⟩]

/-- The players left enabled when `hsc`, `imf` and `d00` are excluded. -/
def enabled_players : List CPlayerDesc := [⟨1, "sng".toList⟩]

end AdPlugXMMS

namespace Skins

/-- The macro `CLAMP` of GLib. -/
def CLAMP (x low high : Int) : Int :=
  if x > high then high else if x < low then low else x

/-- The macro `MAX` of GLib. -/
def MAX (a b : Int) : Int := if a > b then a else b

/-- The value `(gint) rint (((gdouble) a / b) * 100)` of lines 61 and 63.
`round100 a b` is the integer that the floating-point division, multiplication
and rounding yield for a divisor other than zero; a division by zero is
reported as `none`. -/
def percentage (round100 : Int → Int → Int) (a b : Int) : Option Int :=
  if b = 0 then none else some (round100 a b)

/-- The values passed to the volume sliders and to the balance sliders of the
main window and of the equalizer window. -/
structure Sliders where
  volume : Int
  balance : Int
  deriving DecidableEq, Repr

/-- The function `ui_main_evlistener_volume_change` (lines 52-72) for the host
volumes `h_vol[0] = l` and `h_vol[1] = r`. -/
def ui_main_evlistener_volume_change (round100 : Int → Int → Int) (l r : Int) :
    Option Sliders :=
  let vl := CLAMP l 0 100
  let vr := CLAMP r 0 100
  let v := MAX vl vr
  let b : Option Int :=
    if vl > vr then (percentage round100 vr vl).map (fun x => x - 100)
    else if vl < vr then (percentage round100 vl vr).map (fun x => 100 - x)
    else some 0
  b.map (fun b => { volume := v, balance := b })

/-- A rounding that yields, for `0 ≤ a < b ≤ 100`, an integer nearest to
`100 * a / b`, whichever way a tie is broken. -/
def nearest (round100 : Int → Int → Int) : Prop :=
  ∀ a b : Int, 0 ≤ a → a < b → b ≤ 100 → 2 * |round100 a b * b - 100 * a| ≤ b

/-- The integer nearest to the exact quotient `100 * a / b`, a tie going to the
even neighbour as `rint` does in the default rounding mode. -/
def rint_exact (a b : Int) : Int :=
  let q := (100 * a) / b
  let r := (100 * a) % b
  if 2 * r < b then q else if b < 2 * r then q + 1 else if q % 2 = 0 then q else q + 1

end Skins

namespace Skins

/-- The value `(vis->length << 8) / 74` of line 292. -/
def scope_step (length : Int) : Int := Int.tdiv (length * 256) 74

/-- The element `mono_pcm[0][pos >> 8]` of line 294; `none` when the index
lies outside the row. -/
def sample_at (mono_pcm : List Int) (pos : Int) : Option Int :=
  if 0 ≤ pos / 256 then mono_pcm[(pos / 256).toNat]? else none

/-- Lines 294-298: the value stored in `intern_vis_data[i]` for the sample `x`.
The sum `(x >> 12) + 7` is reduced to the range of `guint8` by the
assignment. -/
def scope_value (x : Int) : Int :=
  let v := (x / 4096 + 7) % 256
  if v = 255 then 0 else if v > 12 then 12 else v

/-- Lines 293-302: the passes of the loop that are left when `n` of them
remain and `pos` has its current value; the result lists the values stored in
`intern_vis_data`, in order, and is `none` when an index lies outside the row
of `mono_pcm`. -/
def scope_loop (mono_pcm : List Int) (step : Int) : Nat → Int → Option (List Int)
  | 0, _ => some []
  | n + 1, pos =>
    match sample_at mono_pcm pos with
    | none => none
    | some x =>
      match scope_loop mono_pcm step n (pos + step) with
      | none => none
      | some rest => some (scope_value x :: rest)

/-- The oscilloscope branch of `ui_main_evlistener_visualization_timeout`
(lines 285-303) for the row `mono_pcm[0]` and the data length `vis->length`:
the first 75 entries of `intern_vis_data`. -/
def oscilloscope (mono_pcm : List Int) (length : Int) : Option (List Int) :=
  scope_loop mono_pcm (scope_step length) 75 0

/-- A row of 512 samples that runs through the range of `gint16`. -/
def sample_row : List Int :=
  List.map (fun (i : Nat) => (i : Int) * 128 - 32768) (List.range 512)

end Skins

namespace AdPlugXMMS

/-- What one call does to the player and to the elapsed time, as the
specification of the counter has it: a rewind sets the time to 0; an update
that reports the song as still playing adds `(int) (1000 / refresh)` for the
refresh rate that the player reports after it; no other call changes either. -/
def tick_clock {σ : Type} (P : CPlayer σ) (e : Ev) (st : σ × Int) : σ × Int :=
  match e with
  | Ev.rewind subsong => (P.rewind subsong st.1, 0)
  | Ev.update _ =>
    ((P.update st.1).2,
     if (P.update st.1).1 then st.2 + ms_per_update (P.getrefresh (P.update st.1).2) else st.2)
  | _ => st

/-- The player and the elapsed time after the calls of a log (most recent
first), from a given player and time. -/
def clock {σ : Type} (P : CPlayer σ) (l : List Ev) (st : σ × Int) : σ × Int :=
  l.foldr (tick_clock P) st

/-- The refresh rate `(float) (1000.0 / 7)`. -/
def seventh_rate : CFloat := ⟨4681143, 32768⟩

/-- The refresh rate `18.2f`. -/
def timer_rate : CFloat := ⟨4771021, 262144⟩

/-- The refresh rate `60.05f`. -/
def screen_rate : CFloat := ⟨15741747, 262144⟩

end AdPlugXMMS

namespace MPG123Plugin

/-- A session start in which the full scan is asked for and `mpg123_scan`
fails. -/
def scan_failing_setup : Setup := { sample_setup with full_scan := true, scan_ret := -1 }

/-- A session start in which the format is negotiated twice, the first read
returning `MPG123_NEW_FORMAT`, and the second first read fails with the generic
error `-1`. -/
def read_failing_setup : Setup :=
  { sample_setup with
    attempts := [{ getformat_ret := 0, rate := 44100, channels := 2,
                   read_ret := -11, read_data := [] },
                 { getformat_ret := 0, rate := 48000, channels := 2,
                   read_ret := -1, read_data := [] }] }

/-- A session start in which `mpg123_info` fails. -/
def info_failing_setup : Setup := { sample_setup with info_ret := -1 }

end MPG123Plugin

namespace MPG123Plugin

/-! ## The main loop of `MPG123Plugin::play` -/

@[simp] theorem call_log (s : State) (e : Ev) : (s.call e).log = e :: s.log := rfl
@[simp] theorem call_error (s : State) (e : Ev) : (s.call e).error = s.error := rfl
@[simp] theorem call_error_count (s : State) (e : Ev) :
    (s.call e).error_count = s.error_count := rfl
@[simp] theorem call_outbuf (s : State) (e : Ev) : (s.call e).outbuf = s.outbuf := rfl

@[simp] theorem handle_seek_error (t : Tick) (s : State) :
    (handle_seek t s).error = s.error := by
  unfold handle_seek; split <;> [split; skip] <;> rfl

@[simp] theorem handle_seek_error_count (t : Tick) (s : State) :
    (handle_seek t s).error_count = s.error_count := by
  unfold handle_seek; split <;> [split; skip] <;> rfl

theorem handle_seek_outbuf (t : Tick) (s : State) :
    (handle_seek t s).outbuf = if 0 ≤ t.seek then [] else s.outbuf := by
  unfold handle_seek; split <;> [split; skip] <;> rfl

@[simp] theorem handle_seek_read_rets (t : Tick) (s : State) :
    read_rets (handle_seek t s).log = read_rets s.log := by
  unfold handle_seek; split <;> [split; skip] <;> simp [read_rets]

@[simp] theorem update_bitrate_error (t : Tick) (s : State) :
    (update_bitrate t s).error = s.error := by
  simp only [update_bitrate]; split <;> rfl

@[simp] theorem update_bitrate_error_count (t : Tick) (s : State) :
    (update_bitrate t s).error_count = s.error_count := by
  simp only [update_bitrate]; split <;> rfl

@[simp] theorem update_bitrate_outbuf (t : Tick) (s : State) :
    (update_bitrate t s).outbuf = s.outbuf := by
  simp only [update_bitrate]; split <;> rfl

@[simp] theorem update_bitrate_read_rets (t : Tick) (s : State) :
    read_rets (update_bitrate t s).log = read_rets s.log := by
  simp only [update_bitrate]; split <;> simp [read_rets]

theorem mpg_main_loop_append (k : Codes) (a b : List Tick) (s : State) :
    main_loop k (a ++ b) s =
      match main_loop k a s with
      | Step.exit s1 => Step.exit s1
      | Step.next s1 => main_loop k b s1 := by
  induction a generalizing s with
  | nil => simp [main_loop]
  | cons t ts ih =>
    simp only [List.cons_append, main_loop]
    cases h : iteration k t s with
    | exit s1 => simp
    | next s1 => simp [ih]

theorem mpg_main_loop_exit_append (k : Codes) (a b : List Tick) (s s1 : State)
    (h : main_loop k a s = Step.exit s1) : main_loop k (a ++ b) s = Step.exit s1 := by
  rw [mpg_main_loop_append, h]

theorem mpg_main_loop_next_append (k : Codes) (a b : List Tick) (s s1 : State)
    (h : main_loop k a s = Step.next s1) : main_loop k (a ++ b) s = main_loop k b s1 := by
  rw [mpg_main_loop_append, h]

/-- A pass whose read is made on an empty buffer and fails with a recoverable
error that stores no bytes: the counter goes up by one, and the loop is left
with the error flag set exactly when the counter reaches 10. -/
theorem iteration_failed_read (k : Codes) (t : Tick) (s : State)
    (hstop : t.stop = false) (hrec : recoverable k t.read_ret) (hdata : t.read_data = [])
    (hbuf : s.outbuf = []) :
    ∃ s1, s1.error_count = s.error_count + 1 ∧ s1.outbuf = [] ∧
      (s.error_count + 1 < 10 → iteration k t s = Step.next s1 ∧ s1.error = s.error) ∧
      (10 ≤ s.error_count + 1 → iteration k t s = Step.exit s1 ∧ s1.error = true) := by
  obtain ⟨hneg, hd, hr⟩ := hrec
  have hb : (update_bitrate t (handle_seek t
      ((s.call (Ev.check_stop t.stop)).call (Ev.check_seek t.seek)))).outbuf = [] := by
    simp [handle_seek_outbuf, hbuf]
  have hit : iteration k t s = read_or_write k t (update_bitrate t (handle_seek t
      ((s.call (Ev.check_stop t.stop)).call (Ev.check_seek t.seek)))) := by
    simp [iteration, hstop]
  have hcnt : (update_bitrate t (handle_seek t
      ((s.call (Ev.check_stop t.stop)).call (Ev.check_seek t.seek)))).error_count
      = s.error_count := by simp
  have herr : (update_bitrate t (handle_seek t
      ((s.call (Ev.check_stop t.stop)).call (Ev.check_seek t.seek)))).error = s.error := by simp
  generalize update_bitrate t (handle_seek t
      ((s.call (Ev.check_stop t.stop)).call (Ev.check_seek t.seek))) = sb at hb hit hcnt herr
  have hne : ¬ (t.read_ret = k.MPG123_DONE ∨ t.read_ret = k.MPG123_ERR_READER) := by
    rintro (h | h)
    · exact hd h
    · exact hr h
  by_cases hc : 10 ≤ s.error_count + 1
  · refine ⟨{ ({ sb.call (Ev.mpg123_read t.read_ret t.read_data) with
                  outbuf := t.read_data }.call Ev.print_mpg123_error) with
                error_count := sb.error_count + 1, error := true }, ?_, ?_,
              fun h => absurd hc (by omega), fun _ => ⟨?_, rfl⟩⟩
    · simp [hcnt]
    · simp [hdata]
    · rw [hit]
      simp [read_or_write, hb, hneg, hne, hcnt, hc]
  · refine ⟨{ ({ sb.call (Ev.mpg123_read t.read_ret t.read_data) with
                  outbuf := t.read_data }.call Ev.print_mpg123_error) with
                error_count := sb.error_count + 1 }, ?_, ?_,
              fun _ => ⟨?_, ?_⟩, fun h => absurd h hc⟩
    · simp [hcnt]
    · simp [hdata]
    · rw [hit]
      simp [read_or_write, hb, hneg, hne, hcnt, hc]
    · simp [herr]

/-- Fewer than ten such passes in a row keep the loop running. -/
theorem failed_reads_keep_running (k : Codes) (ts : List Tick) (s : State)
    (hbad : ∀ t ∈ ts, t.stop = false ∧ recoverable k t.read_ret ∧ t.read_data = [])
    (hbuf : s.outbuf = []) (hlt : s.error_count + ts.length < 10) :
    ∃ s1, main_loop k ts s = Step.next s1 ∧ s1.error_count = s.error_count + ts.length ∧
      s1.outbuf = [] ∧ s1.error = s.error := by
  induction ts generalizing s with
  | nil => exact ⟨s, rfl, by simp, hbuf, rfl⟩
  | cons t ts ih =>
    obtain ⟨h1, h2, h3⟩ := hbad t (List.mem_cons_self _ _)
    obtain ⟨s1, hc1, hb1, hnext, -⟩ := iteration_failed_read k t s h1 h2 h3 hbuf
    simp only [List.length_cons] at hlt
    obtain ⟨hit, he1⟩ := hnext (by omega)
    obtain ⟨s2, hm, hc2, hb2, he2⟩ := ih s1 (fun u hu => hbad u (List.mem_cons_of_mem _ hu)) hb1
      (by omega)
    refine ⟨s2, ?_, ?_, hb2, ?_⟩
    · simp [main_loop, hit, hm]
    · simp only [List.length_cons]; omega
    · rw [he2, he1]

theorem get_format_ok (k : Codes) (l : List Attempt) (s s1 : State)
    (h : get_format k l s = Nego.ok s1) :
    s1.error = s.error ∧ s1.error_count = s.error_count := by
  induction l generalizing s with
  | nil => simp [get_format] at h
  | cons a rest ih =>
    simp only [get_format] at h
    split at h
    · simp at h
    · split at h
      · split at h
        · have := ih _ h
          simpa using this
        · simp at h
      · simp only [Nego.ok.injEq] at h
        subst h
        simp

/-- On entry to the main loop the error flag is clear and the error counter is
zero. -/
theorem setup_ok (k : Codes) (su : Setup) (s0 : State) (h : setup k su = Nego.ok s0) :
    s0.error = false ∧ s0.error_count = 0 := by
  simp only [setup] at h
  split at h
  · simp at h
  · split at h
    · simp at h
    · split at h
      · simp at h
      · simp at h
      · rename_i s3 hg
        split at h
        · simp at h
        · simp only [Nego.ok.injEq] at h
          subst h
          have := get_format_ok k _ _ _ hg
          simp only [call_error, call_error_count] at this ⊢
          refine ⟨?_, ?_⟩
          · rw [this.1]; split <;> rfl
          · rw [this.2]; split <;> rfl

theorem play_of_setup_ok (k : Codes) (su : Setup) (ticks : List Tick) (s0 : State)
    (h : setup k su = Nego.ok s0) : play k su ticks = finish (main_loop k ticks s0) := by
  simp [play, h]

/-- Ten passes in a row whose reads fail recoverably and store no bytes,
started with a zero counter and an empty buffer: the loop is left in the tenth
pass with the error flag set. -/
theorem ten_failed_reads_exit (k : Codes) (ts : List Tick) (s : State)
    (hzero : s.error_count = 0) (hbuf : s.outbuf = []) (hlen : ts.length = 10)
    (hbad : ∀ t ∈ ts, t.stop = false ∧ recoverable k t.read_ret ∧ t.read_data = []) :
    (∃ s9, main_loop k (ts.take 9) s = Step.next s9 ∧ s9.error_count = 9) ∧
    (∃ s10, main_loop k ts s = Step.exit s10 ∧ s10.error = true ∧ s10.error_count = 10) := by
  obtain ⟨s9, hm9, hc9, hb9, -⟩ := failed_reads_keep_running k (ts.take 9) s
    (fun t ht => hbad t (List.mem_of_mem_take ht)) hbuf (by simp [hzero, hlen])
  have hc9 : s9.error_count = 9 := by simpa [hzero, hlen] using hc9
  have hlast : (ts.drop 9).length = 1 := by simp [hlen]
  obtain ⟨t10, ht10⟩ := List.length_eq_one.mp hlast
  have hmem : t10 ∈ ts := List.mem_of_mem_drop (by rw [ht10]; exact List.mem_singleton_self _)
  obtain ⟨h1, h2, h3⟩ := hbad t10 hmem
  obtain ⟨s10, hc10, -, -, hexit⟩ := iteration_failed_read k t10 s9 h1 h2 h3 hb9
  obtain ⟨hit, he10⟩ := hexit (by omega)
  refine ⟨⟨s9, hm9, hc9⟩, s10, ?_, he10, by omega⟩
  have hsplit : ts = ts.take 9 ++ [t10] := by rw [← ht10, List.take_append_drop]
  rw [hsplit, mpg_main_loop_next_append k _ _ s s9 hm9]
  simp [main_loop, hit]

/-- C1 (amended): when, in a state of the main loop with a zero error counter
and an empty staging buffer, the reads of 10 consecutive passes each fail with
a recoverable error (negative, neither MPG123_DONE nor MPG123_ERR_READER) and
store no bytes, `play` leaves the loop in the 10th of these passes and returns
false with the counter at 10; after the first 9 of them `play` has not
returned. -/
theorem too_many_errors_after_ten (k : Codes) (su : Setup) (pre ts rest : List Tick)
    (s0 s : State) (hsetup : setup k su = Nego.ok s0)
    (hpre : main_loop k pre s0 = Step.next s)
    (hzero : s.error_count = 0) (hbuf : s.outbuf = []) (hlen : ts.length = 10)
    (hbad : ∀ t ∈ ts, t.stop = false ∧ recoverable k t.read_ret ∧ t.read_data = []) :
    (play k su (pre ++ ts ++ rest)).result = some false ∧
    (play k su (pre ++ ts ++ rest)).final.error_count = 10 ∧
    (play k su (pre ++ ts.take 9)).result = none ∧
    (play k su (pre ++ ts.take 9)).final.error_count = 9 := by
  obtain ⟨⟨s9, hm9, hc9⟩, s10, hm10, he10, hc10⟩ := ten_failed_reads_exit k ts s hzero hbuf hlen hbad
  have hfull : main_loop k (pre ++ ts ++ rest) s0 = Step.exit s10 := by
    rw [List.append_assoc, mpg_main_loop_next_append k _ _ s0 s hpre]
    exact mpg_main_loop_exit_append k _ _ s s10 hm10
  have hnine : main_loop k (pre ++ ts.take 9) s0 = Step.next s9 := by
    rw [mpg_main_loop_next_append k _ _ s0 s hpre, hm9]
  rw [play_of_setup_ok k su _ s0 hsetup, play_of_setup_ok k su _ s0 hsetup, hfull, hnine]
  simp [finish, cleanup, he10, hc10, hc9]

/-- C1, witness: a session that writes one block and then meets ten failing
reads in a row. -/
theorem too_many_errors_after_ten_witness :
    setup sample_codes sample_setup = Nego.ok (setup sample_codes sample_setup).state ∧
    (play sample_codes sample_setup
      ([good_tick [3]] ++ List.replicate 10 (bad_tick []) ++ [])).result = some false ∧
    (play sample_codes sample_setup
      ([good_tick [3]] ++ (List.replicate 10 (bad_tick [])).take 9)).result = none :=
  have h := too_many_errors_after_ten sample_codes sample_setup [good_tick [3]]
    (List.replicate 10 (bad_tick [])) [] (setup sample_codes sample_setup).state
    (main_loop sample_codes [good_tick [3]] (setup sample_codes sample_setup).state).state
    (by decide) (by decide) (by decide) (by decide) (by decide) (by decide)
  ⟨by decide, h.1, h.2.2.1⟩

/-- C1, counterexample: ten reads in a row fail with the recoverable error -1,
no read succeeds in between, and yet after the tenth failure `play` has not
returned, the error flag is clear and the error counter stands at 1.  Every
pass is offered the same failing read, which stores one byte; the pass after a
failed read finds the buffer filled, makes no read, resets the counter and
writes the byte. -/
theorem ten_failed_reads_without_exit :
    (play sample_codes sample_setup (List.replicate 20 (bad_tick [7]))).result = none ∧
    (read_rets (play sample_codes sample_setup (List.replicate 20 (bad_tick [7]))).final.log).take 10 = List.replicate 10 (-1) ∧
    (written (play sample_codes sample_setup (List.replicate 20 (bad_tick [7]))).final.log).take 9 = List.replicate 9 [7] ∧
    (play sample_codes sample_setup (List.replicate 20 (bad_tick [7]))).final.error = false ∧
    (play sample_codes sample_setup (List.replicate 20 (bad_tick [7]))).final.error_count = 1 := by
  decide

@[simp] theorem write_branch_error (s : State) : (write_branch s).error = s.error := rfl
@[simp] theorem write_branch_error_count (s : State) : (write_branch s).error_count = 0 := rfl
@[simp] theorem write_branch_read_rets (s : State) :
    read_rets (write_branch s).log = read_rets s.log := by
  simp [write_branch, read_rets]

/-- The invariant behind the error budget, for the read-or-write part of a
pass: the `error_count` most recent reads all failed recoverably. -/
theorem read_or_write_budget (k : Codes) (t : Tick) (s : State)
    (h1 : s.error = false) (h2 : s.error_count < 10)
    (h3 : s.error_count ≤ (read_rets s.log).length)
    (h4 : ∀ r ∈ (read_rets s.log).take s.error_count, recoverable k r) :
    match read_or_write k t s with
    | Step.next s1 => s1.error = false ∧ s1.error_count < 10 ∧
        s1.error_count ≤ (read_rets s1.log).length ∧
        ∀ r ∈ (read_rets s1.log).take s1.error_count, recoverable k r
    | Step.exit s1 => s1.error = true →
        10 ≤ (read_rets s1.log).length ∧ ∀ r ∈ (read_rets s1.log).take 10, recoverable k r := by
  unfold read_or_write
  by_cases hb : s.outbuf = []
  · rw [if_pos hb]
    by_cases hneg : t.read_ret < 0
    · simp only [hneg, if_true]
      by_cases hne : t.read_ret = k.MPG123_DONE ∨ t.read_ret = k.MPG123_ERR_READER
      · rw [if_pos hne]
        simp [h1]
      · rw [if_neg hne]
        have hrec : recoverable k t.read_ret :=
          ⟨hneg, fun h => hne (Or.inl h), fun h => hne (Or.inr h)⟩
        by_cases hc : 10 ≤ s.error_count + 1
        · have h9 : s.error_count = 9 := by omega
          simp only [call_error_count, hc, if_true, call_log, read_rets, List.length_cons]
          intro _
          refine ⟨by omega, ?_⟩
          intro r hr
          rw [show (10 : Nat) = 9 + 1 from rfl, List.take_succ_cons, ← h9] at hr
          rcases List.mem_cons.mp hr with h | h
          · rw [h]; exact hrec
          · exact h4 r h
        · simp only [call_error_count, hc, if_false, call_log, read_rets, List.length_cons,
            call_error]
          refine ⟨h1, by omega, by omega, ?_⟩
          intro r hr
          rw [List.take_succ_cons] at hr
          rcases List.mem_cons.mp hr with h | h
          · rw [h]; exact hrec
          · exact h4 r h
    · simp only [hneg, if_false]
      simp [h1]
  · rw [if_neg hb]
    simp [h1]

theorem iteration_budget (k : Codes) (t : Tick) (s : State)
    (h1 : s.error = false) (h2 : s.error_count < 10)
    (h3 : s.error_count ≤ (read_rets s.log).length)
    (h4 : ∀ r ∈ (read_rets s.log).take s.error_count, recoverable k r) :
    match iteration k t s with
    | Step.next s1 => s1.error = false ∧ s1.error_count < 10 ∧
        s1.error_count ≤ (read_rets s1.log).length ∧
        ∀ r ∈ (read_rets s1.log).take s1.error_count, recoverable k r
    | Step.exit s1 => s1.error = true →
        10 ≤ (read_rets s1.log).length ∧ ∀ r ∈ (read_rets s1.log).take 10, recoverable k r := by
  unfold iteration
  by_cases hs : t.stop = true
  · simp [hs, h1]
  · simp only [hs]
    apply read_or_write_budget
    · simpa using h1
    · simpa using h2
    · simpa [read_rets] using h3
    · simpa [read_rets] using h4

theorem main_loop_budget (k : Codes) (ts : List Tick) (s : State)
    (h1 : s.error = false) (h2 : s.error_count < 10)
    (h3 : s.error_count ≤ (read_rets s.log).length)
    (h4 : ∀ r ∈ (read_rets s.log).take s.error_count, recoverable k r) :
    match main_loop k ts s with
    | Step.next s1 => s1.error = false ∧ s1.error_count < 10 ∧
        s1.error_count ≤ (read_rets s1.log).length ∧
        ∀ r ∈ (read_rets s1.log).take s1.error_count, recoverable k r
    | Step.exit s1 => s1.error = true →
        10 ≤ (read_rets s1.log).length ∧ ∀ r ∈ (read_rets s1.log).take 10, recoverable k r := by
  induction ts generalizing s with
  | nil => exact ⟨h1, h2, h3, h4⟩
  | cons t ts ih =>
    have hit := iteration_budget k t s h1 h2 h3 h4
    simp only [main_loop]
    cases hi : iteration k t s with
    | exit s1 => rw [hi] at hit; exact hit
    | next s1 =>
      rw [hi] at hit
      exact ih s1 hit.1 hit.2.1 hit.2.2.1 hit.2.2.2

/-- While the main loop runs the error flag is clear. -/
theorem main_loop_next_error (k : Codes) (ts : List Tick) (s s1 : State)
    (h1 : s.error = false) (h2 : s.error_count = 0)
    (h : main_loop k ts s = Step.next s1) : s1.error = false := by
  have := main_loop_budget k ts s h1 (by omega) (by omega) (by simp [h2])
  rw [h] at this
  exact this.1

/-- The error flag and the read results at the end of a run that reached the
main loop are those of the state in which the loop stood last. -/
theorem finish_final (st : Step) :
    (finish st).final.error = st.state.error ∧
    read_rets (finish st).final.log = read_rets st.state.log := by
  cases st <;> simp [finish, cleanup, Step.state, read_rets]

/-- C2: a successful read resets the consecutive-error counter.  In every run
of `play` that reaches the main loop, the error flag is set there only when the
10 most recent reads all failed recoverably; in particular a run whose reads
end with 9 recoverable failures, one success and 9 more recoverable failures
has the error flag clear. -/
theorem error_budget_counts_consecutive_failures (k : Codes) (su : Setup)
    (ticks : List Tick) (s0 : State) (hsetup : setup k su = Nego.ok s0) :
    ((play k su ticks).final.error = true →
      10 ≤ (read_rets (play k su ticks).final.log).length ∧
      ∀ r ∈ (read_rets (play k su ticks).final.log).take 10, recoverable k r) ∧
    (∀ older e1 e2 : List Int, ∀ ok : Int,
      (read_rets (play k su ticks).final.log).reverse = older ++ e1 ++ [ok] ++ e2 →
      e1.length = 9 → e2.length = 9 → (∀ r ∈ e1 ++ e2, recoverable k r) → 0 ≤ ok →
      (play k su ticks).final.error = false) := by
  obtain ⟨he0, hc0⟩ := setup_ok k su s0 hsetup
  have hinv := main_loop_budget k ticks s0 he0 (by omega) (by omega) (by simp [hc0])
  have hfin := finish_final (main_loop k ticks s0)
  rw [play_of_setup_ok k su ticks s0 hsetup, hfin.1, hfin.2]
  have hgen : (main_loop k ticks s0).state.error = true →
      10 ≤ (read_rets (main_loop k ticks s0).state.log).length ∧
      ∀ r ∈ (read_rets (main_loop k ticks s0).state.log).take 10, recoverable k r := by
    cases hm : main_loop k ticks s0 with
    | next s1 =>
      rw [hm] at hinv
      intro h
      simp [Step.state, hinv.1] at h
    | exit s1 =>
      rw [hm] at hinv
      exact hinv
  refine ⟨hgen, ?_⟩
  intro older e1 e2 ok hrev h1 h2 _ hok
  cases herr : (main_loop k ticks s0).state.error with
  | false => rfl
  | true =>
    exfalso
    obtain ⟨-, hall⟩ := hgen herr
    have hR : read_rets (main_loop k ticks s0).state.log
        = (e2.reverse ++ [ok]) ++ (e1.reverse ++ older.reverse) := by
      have := congrArg List.reverse hrev
      simpa using this
    have hlen : (e2.reverse ++ [ok]).length = 10 := by simp [h2]
    have hmem : ok ∈ (read_rets (main_loop k ticks s0).state.log).take 10 := by
      rw [hR, List.take_left' hlen]
      simp
    have := (hall ok hmem).1
    omega

/-- C2, witness: nine failing reads, one successful read and nine more failing
reads leave `play` running with the error flag clear. -/
theorem error_budget_counts_consecutive_failures_witness :
    setup sample_codes sample_setup = Nego.ok (setup sample_codes sample_setup).state ∧
    (read_rets (play sample_codes sample_setup nine_one_nine).final.log).reverse
      = [0] ++ List.replicate 9 (-1) ++ [0] ++ List.replicate 9 (-1) ∧
    (play sample_codes sample_setup nine_one_nine).final.error = false ∧
    (play sample_codes sample_setup nine_one_nine).result = none :=
  ⟨by decide, by decide,
   (error_budget_counts_consecutive_failures sample_codes sample_setup nine_one_nine
      (setup sample_codes sample_setup).state (by decide)).2
      [0] (List.replicate 9 (-1)) (List.replicate 9 (-1)) 0
      (by decide) (by decide) (by decide) (by decide) (by decide),
   by decide⟩

/-! ### Creation and release of the decoder handle -/

theorem handle_seek_count (t : Tick) (s : State) (e : Ev)
    (he : e = Ev.mpg123_delete ∨ e = Ev.mpg123_new) :
    (handle_seek t s).log.count e = s.log.count e := by
  unfold handle_seek
  rcases he with rfl | rfl <;> (split <;> [split; skip]) <;> simp [List.count_cons]

theorem update_bitrate_count (t : Tick) (s : State) (e : Ev)
    (he : e = Ev.mpg123_delete ∨ e = Ev.mpg123_new) :
    (update_bitrate t s).log.count e = s.log.count e := by
  simp only [update_bitrate]
  rcases he with rfl | rfl <;> split <;> simp [List.count_cons]

theorem read_or_write_count (k : Codes) (t : Tick) (s : State) (e : Ev)
    (he : e = Ev.mpg123_delete ∨ e = Ev.mpg123_new) :
    (read_or_write k t s).state.log.count e = s.log.count e := by
  unfold read_or_write
  by_cases hb : s.outbuf = []
  · rw [if_pos hb]
    by_cases hneg : t.read_ret < 0
    · simp only [hneg, if_true]
      by_cases hne : t.read_ret = k.MPG123_DONE ∨ t.read_ret = k.MPG123_ERR_READER
      · rw [if_pos hne]
        rcases he with rfl | rfl <;> simp [Step.state, List.count_cons]
      · rw [if_neg hne]
        by_cases hc : 10 ≤ s.error_count + 1
        · rcases he with rfl | rfl <;> simp [Step.state, List.count_cons, hc]
        · rcases he with rfl | rfl <;> simp [Step.state, List.count_cons, hc]
    · simp only [hneg, if_false]
      rcases he with rfl | rfl <;> simp [Step.state, List.count_cons, write_branch]
  · rw [if_neg hb]
    rcases he with rfl | rfl <;> simp [Step.state, List.count_cons, write_branch]

theorem iteration_count (k : Codes) (t : Tick) (s : State) (e : Ev)
    (he : e = Ev.mpg123_delete ∨ e = Ev.mpg123_new) :
    (iteration k t s).state.log.count e = s.log.count e := by
  unfold iteration
  by_cases hs : t.stop = true
  · rcases he with rfl | rfl <;> simp [hs, Step.state, List.count_cons]
  · simp only [hs]
    rw [if_neg (by simp), read_or_write_count k t _ e he, update_bitrate_count t _ e he,
      handle_seek_count t _ e he]
    rcases he with rfl | rfl <;> simp [List.count_cons]

theorem main_loop_count (k : Codes) (ts : List Tick) (s : State) (e : Ev)
    (he : e = Ev.mpg123_delete ∨ e = Ev.mpg123_new) :
    (main_loop k ts s).state.log.count e = s.log.count e := by
  induction ts generalizing s with
  | nil => rfl
  | cons t ts ih =>
    have hit := iteration_count k t s e he
    simp only [main_loop]
    cases hi : iteration k t s with
    | exit s1 => rw [hi] at hit; exact hit
    | next s1 =>
      rw [hi] at hit
      simp only [Step.state] at hit
      rw [ih s1, hit]

theorem get_format_count (k : Codes) (l : List Attempt) (s : State) (e : Ev)
    (he : e = Ev.mpg123_delete ∨ e = Ev.mpg123_new) :
    (get_format k l s).state.log.count e = s.log.count e := by
  induction l generalizing s with
  | nil => rfl
  | cons a rest ih =>
    simp only [get_format]
    by_cases h1 : a.getformat_ret < 0
    · rw [if_pos h1]
      rcases he with rfl | rfl <;> simp [Nego.state, List.count_cons]
    · rw [if_neg h1]
      by_cases h2 : a.read_ret < 0
      · rw [if_pos h2]
        by_cases h3 : a.read_ret = k.MPG123_NEW_FORMAT
        · rw [if_pos h3, ih]
          rcases he with rfl | rfl <;> simp [List.count_cons]
        · rw [if_neg h3]
          rcases he with rfl | rfl <;> simp [Nego.state, List.count_cons]
      · rw [if_neg h2]
        rcases he with rfl | rfl <;> simp [Nego.state, List.count_cons]

theorem setup_count (k : Codes) (su : Setup) (e : Ev)
    (he : e = Ev.mpg123_delete ∨ e = Ev.mpg123_new) :
    (setup k su).state.log.count e = [Ev.mpg123_new].count e := by
  simp only [setup]
  by_cases h1 : su.open_ret < 0
  · rw [if_pos h1]
    rcases he with rfl | rfl <;> simp [Nego.state, List.count_cons, init_state]
  · rw [if_neg h1]
    have hs2 : (if (!decide (su.fsize < 0) && su.full_scan) = true then
          (init_state.call (Ev.mpg123_open_handle su.open_ret)).call (Ev.mpg123_scan su.scan_ret)
        else init_state.call (Ev.mpg123_open_handle su.open_ret)).log.count e
        = [Ev.mpg123_new].count e := by
      rcases he with rfl | rfl <;> split <;> simp [List.count_cons, init_state]
    generalize (if (!decide (su.fsize < 0) && su.full_scan) = true then
          (init_state.call (Ev.mpg123_open_handle su.open_ret)).call (Ev.mpg123_scan su.scan_ret)
        else init_state.call (Ev.mpg123_open_handle su.open_ret)) = s2 at hs2
    by_cases h2 : (!decide (su.fsize < 0) && su.full_scan) = true ∧ su.scan_ret < 0
    · rw [if_pos h2]
      exact hs2
    · rw [if_neg h2]
      have hg := get_format_count k su.attempts s2 e he
      cases hgf : get_format k su.attempts s2 with
      | pending s3 => rw [hgf] at hg; simpa [Nego.state, hs2] using hg
      | open_error s3 => rw [hgf] at hg; simpa [Nego.state, hs2] using hg
      | ok s3 =>
        rw [hgf] at hg
        simp only [Nego.state] at hg
        by_cases h3 : su.info_ret < 0
        · simp only [h3, if_true, Nego.state, call_log]
          rw [← hs2, ← hg]
          rcases he with rfl | rfl <;> simp [List.count_cons]
        · simp only [h3, if_false, Nego.state, call_log]
          rw [← hs2, ← hg]
          rcases he with rfl | rfl <;> simp [List.count_cons]

/-- The handle is created once, and released once when `play` returns and not
before. -/
theorem play_handle_counts (k : Codes) (su : Setup) (ticks : List Tick) :
    (play k su ticks).final.log.count Ev.mpg123_new = 1 ∧
    (play k su ticks).final.log.count Ev.mpg123_delete
      = if (play k su ticks).result.isSome then 1 else 0 := by
  have hn := setup_count k su Ev.mpg123_new (Or.inr rfl)
  have hd := setup_count k su Ev.mpg123_delete (Or.inl rfl)
  cases hs : setup k su with
  | pending s =>
    rw [hs] at hn hd
    simp only [Nego.state] at hn hd
    simp [play, hs, hn, hd]
  | open_error s =>
    rw [hs] at hn hd
    simp only [Nego.state] at hn hd
    simp [play, hs, cleanup, open_error, List.count_cons, hn, hd]
  | ok s =>
    rw [hs] at hn hd
    simp only [Nego.state] at hn hd
    simp only [play, hs]
    have hn1 := main_loop_count k ticks s Ev.mpg123_new (Or.inr rfl)
    have hd1 := main_loop_count k ticks s Ev.mpg123_delete (Or.inl rfl)
    cases hm : main_loop k ticks s with
    | next s1 =>
      rw [hm] at hn1 hd1
      simp only [Step.state] at hn1 hd1
      simp [finish, hn1, hd1, hn, hd]
    | exit s1 =>
      rw [hm] at hn1 hd1
      simp only [Step.state] at hn1 hd1
      simp [finish, cleanup, List.count_cons, hn1, hd1, hn, hd]

end MPG123Plugin

namespace AdPlugXMMS

/-! ## The main loop of `AdPlugXMMS::play` -/

@[simp] theorem adplug_call_log {σ : Type} (s : State σ) (e : Ev) :
    (s.call e).log = e :: s.log := rfl
@[simp] theorem adplug_call_time {σ : Type} (s : State σ) (e : Ev) :
    (s.call e).time = s.time := rfl
@[simp] theorem adplug_call_p {σ : Type} (s : State σ) (e : Ev) : (s.call e).p = s.p := rfl
@[simp] theorem adplug_call_playing {σ : Type} (s : State σ) (e : Ev) :
    (s.call e).playing = s.playing := rfl
@[simp] theorem adplug_call_toadd {σ : Type} (s : State σ) (e : Ev) :
    (s.call e).toadd = s.toadd := rfl

/-- The seek loop adds only calls of the inner kind to the log. -/
theorem seek_loop_frame {σ : Type} (P : CPlayer σ) (fuel : Nat) (seek : Int)
    (s s1 : State σ) (h : seek_loop P fuel seek s = some s1) :
    ∃ l, s1.log = l ++ s.log ∧ ∀ x ∈ l, x.is_inner = true := by
  induction fuel generalizing s with
  | zero =>
    simp only [seek_loop] at h
    split at h
    · simp at h
    · simp only [Option.some.injEq] at h
      subst h
      exact ⟨[], rfl, by simp⟩
  | succ n ih =>
    simp only [seek_loop] at h
    split at h
    · split at h
      · obtain ⟨l, hl, hin⟩ := ih _ h
        refine ⟨l ++ [Ev.update (P.update s.p).1], by simpa using hl, ?_⟩
        intro x hx
        rcases List.mem_append.mp hx with hx | hx
        · exact hin x hx
        · rw [List.mem_singleton.mp hx]; rfl
      · simp only [Option.some.injEq] at h
        subst h
        exact ⟨[Ev.update (P.update s.p).1], rfl, by simp [Ev.is_inner]⟩
    · simp only [Option.some.injEq] at h
      subst h
      exact ⟨[], rfl, by simp⟩

theorem adplug_handle_seek_frame {σ : Type} (P : CPlayer σ) (subsong fuel : Nat) (seek : Int)
    (s s1 : State σ) (h : handle_seek P subsong fuel seek s = some s1) :
    ∃ l, s1.log = l ++ s.log ∧ ∀ x ∈ l, x.is_inner = true := by
  simp only [handle_seek] at h
  split at h
  · obtain ⟨l, hl, hin⟩ := seek_loop_frame P fuel seek _ s1 h
    by_cases hb : seek < s.time
    · rw [if_pos hb] at hl
      refine ⟨l ++ [Ev.rewind subsong], by simpa using hl, ?_⟩
      intro x hx
      rcases List.mem_append.mp hx with hx | hx
      · exact hin x hx
      · rw [List.mem_singleton.mp hx]; rfl
    · rw [if_neg hb] at hl
      exact ⟨l, hl, hin⟩
  · simp only [Option.some.injEq] at h
    subst h
    exact ⟨[], rfl, by simp⟩

theorem top_up_frame {σ : Type} (P : CPlayer σ) (freq : Int) (fuel : Nat)
    (s s1 : State σ) (h : top_up P freq fuel s = some s1) :
    ∃ l, s1.log = l ++ s.log ∧ ∀ x ∈ l, x.is_inner = true := by
  induction fuel generalizing s with
  | zero =>
    simp only [top_up] at h
    split at h
    · simp at h
    · simp only [Option.some.injEq] at h
      subst h
      exact ⟨[], rfl, by simp⟩
  | succ n ih =>
    simp only [top_up] at h
    split at h
    · obtain ⟨l, hl, hin⟩ := ih _ h
      refine ⟨l ++ [Ev.update (P.update s.p).1], ?_, ?_⟩
      · rw [hl]; split <;> simp
      · intro x hx
        rcases List.mem_append.mp hx with hx | hx
        · exact hin x hx
        · rw [List.mem_singleton.mp hx]; rfl
    · simp only [Option.some.injEq] at h
      subst h
      exact ⟨[], rfl, by simp⟩

theorem fill_frame {σ : Type} (P : CPlayer σ) (freq : Int) (fuel : Nat) (towrite : Int)
    (s s1 : State σ) (h : fill P freq fuel towrite s = some s1) :
    ∃ l, s1.log = l ++ s.log ∧ ∀ x ∈ l, x.is_inner = true := by
  induction fuel generalizing s towrite with
  | zero =>
    simp only [fill] at h
    split at h
    · simp at h
    · simp only [Option.some.injEq] at h
      subst h
      exact ⟨[], rfl, by simp⟩
  | succ n ih =>
    simp only [fill] at h
    split at h
    · cases ht : top_up P freq (n + 1) s with
      | none => simp [ht] at h
      | some s2 =>
        simp only [ht] at h
        obtain ⟨l2, hl2, hin2⟩ := top_up_frame P freq (n + 1) s s2 ht
        obtain ⟨l, hl, hin⟩ := ih _ _ h
        refine ⟨l ++ Ev.opl_update (min towrite (chunk s2.toadd (P.getrefresh s2.p))) :: l2,
          ?_, ?_⟩
        · rw [hl]; simp [hl2]
        · intro x hx
          rcases List.mem_append.mp hx with hx | hx
          · exact hin x hx
          · rcases List.mem_cons.mp hx with hx | hx
            · rw [hx]; rfl
            · exact hin2 x hx
    · simp only [Option.some.injEq] at h
      subst h
      exact ⟨[], rfl, by simp⟩

theorem inner_is_body (x : Ev) (h : x.is_inner = true) : x.is_body = true := by
  cases x <;> simp_all [Ev.is_inner, Ev.is_body]

theorem stop_polls_inner (l m : List Ev) (h : ∀ x ∈ l, x.is_inner = true) :
    stop_polls (l ++ m) = stop_polls m := by
  induction l with
  | nil => rfl
  | cons x l ih =>
    have hx := h x (List.mem_cons_self _ _)
    have := ih (fun y hy => h y (List.mem_cons_of_mem _ hy))
    cases x <;> simp_all [Ev.is_inner, stop_polls]

theorem count_body (l m : List Ev) (e : Ev) (he : e.is_body = false)
    (h : ∀ x ∈ l, x.is_body = true) : (l ++ m).count e = m.count e := by
  have hnot : e ∉ l := fun hmem => by
    have := h e hmem
    rw [he] at this
    exact Bool.noConfusion this
  rw [List.count_append, List.count_eq_zero_of_not_mem hnot, Nat.zero_add]

/-- The shape of a pass that ends: the loop condition fails and nothing is
called; or the stop poll answers true and nothing else is called; or the pass
polls stop and seek, runs the inner loops and writes one block. -/
theorem iteration_shape {σ : Type} (P : CPlayer σ) (sampsize : Int) (subsong fuel : Nat)
    (t : Tick) (s : State σ) (st : Step σ)
    (h : iteration P sampsize subsong fuel t s = some st) :
    ((s.playing || t.conf.endless) = false ∧ st = Step.exit s) ∨
    ((s.playing || t.conf.endless) = true ∧ t.stop = true ∧
      st = Step.exit (s.call (Ev.check_stop true))) ∨
    ((s.playing || t.conf.endless) = true ∧ t.stop = false ∧
      ∃ (l : List Ev) (s2 : State σ),
        st = Step.next (s2.call (Ev.write_audio (SNDBUFSIZE * sampsize))) ∧
        s2.log = l ++ Ev.check_seek t.seek :: Ev.check_stop false :: s.log ∧
        ∀ x ∈ l, x.is_inner = true) := by
  simp only [iteration] at h
  by_cases hc : (s.playing || t.conf.endless) = false
  · rw [if_pos hc] at h
    simp only [Option.some.injEq] at h
    exact Or.inl ⟨hc, h.symm⟩
  · rw [if_neg hc] at h
    have hc1 : (s.playing || t.conf.endless) = true := by
      cases hv : (s.playing || t.conf.endless)
      · exact absurd hv hc
      · rfl
    by_cases hs : t.stop = true
    · rw [if_pos hs] at h
      simp only [Option.some.injEq] at h
      exact Or.inr (Or.inl ⟨hc1, hs, by rw [← h, hs]⟩)
    · rw [if_neg hs] at h
      have hs1 : t.stop = false := by simpa using hs
      refine Or.inr (Or.inr ⟨hc1, hs1, ?_⟩)
      cases h1 : handle_seek P subsong fuel t.seek
          ((s.call (Ev.check_stop t.stop)).call (Ev.check_seek t.seek)) with
      | none => simp [h1] at h
      | some s1 =>
        simp only [h1] at h
        cases h2 : fill P t.conf.freq fuel SNDBUFSIZE s1 with
        | none => simp [h2] at h
        | some s2 =>
          simp only [h2, Option.some.injEq] at h
          obtain ⟨l1, hl1, hin1⟩ := adplug_handle_seek_frame P subsong fuel t.seek _ s1 h1
          obtain ⟨l2, hl2, hin2⟩ := fill_frame P t.conf.freq fuel SNDBUFSIZE s1 s2 h2
          refine ⟨l2 ++ l1, s2, h.symm, ?_, ?_⟩
          · rw [hl2, hl1, hs1]; simp
          · intro x hx
            rcases List.mem_append.mp hx with hx | hx
            · exact hin2 x hx
            · exact hin1 x hx

/-- A pass adds only calls of the loop body to the log. -/
theorem iteration_frame {σ : Type} (P : CPlayer σ) (sampsize : Int) (subsong fuel : Nat)
    (t : Tick) (s : State σ) (st : Step σ)
    (h : iteration P sampsize subsong fuel t s = some st) :
    ∃ l, st.state.log = l ++ s.log ∧ ∀ x ∈ l, x.is_body = true := by
  rcases iteration_shape P sampsize subsong fuel t s st h with
    ⟨-, rfl⟩ | ⟨-, -, rfl⟩ | ⟨-, -, l, s2, rfl, hl, hin⟩
  · exact ⟨[], rfl, by simp⟩
  · exact ⟨[Ev.check_stop true], rfl, by simp [Ev.is_body]⟩
  · refine ⟨Ev.write_audio (SNDBUFSIZE * sampsize) :: l ++
        [Ev.check_seek t.seek, Ev.check_stop false], ?_, ?_⟩
    · simp [Step.state, hl]
    · intro x hx
      simp only [List.cons_append, List.mem_cons, List.mem_append, List.mem_singleton,
        List.not_mem_nil, or_false] at hx
      rcases hx with rfl | hx | rfl | rfl
      · rfl
      · exact inner_is_body x (hin x hx)
      · rfl
      · rfl

theorem adplug_main_loop_frame {σ : Type} (P : CPlayer σ) (sampsize : Int)
    (subsong fuel : Nat) (ts : List Tick) (s : State σ) (st : Step σ)
    (h : main_loop P sampsize subsong fuel ts s = some st) :
    ∃ l, st.state.log = l ++ s.log ∧ ∀ x ∈ l, x.is_body = true := by
  induction ts generalizing s with
  | nil =>
    simp only [main_loop, Option.some.injEq] at h
    subst h
    exact ⟨[], rfl, by simp⟩
  | cons t ts ih =>
    simp only [main_loop] at h
    cases hi : iteration P sampsize subsong fuel t s with
    | none => simp [hi] at h
    | some st1 =>
      obtain ⟨l1, hl1, hin1⟩ := iteration_frame P sampsize subsong fuel t s st1 hi
      cases st1 with
      | exit s1 =>
        simp only [hi, Option.some.injEq] at h
        subst h
        exact ⟨l1, hl1, hin1⟩
      | next s1 =>
        simp only [hi] at h
        obtain ⟨l, hl, hin⟩ := ih s1 h
        refine ⟨l ++ l1, ?_, ?_⟩
        · rw [hl]
          simp only [Step.state] at hl1
          rw [hl1, List.append_assoc]
        · intro x hx
          rcases List.mem_append.mp hx with hx | hx
          · exact hin x hx
          · exact hin1 x hx

/-! ### Seeking -/

/-- When the seek loop ends, the target is reached or the last update reported
the end of the song. -/
theorem seek_loop_post {σ : Type} (P : CPlayer σ) (fuel : Nat) (seek : Int)
    (s s1 : State σ) (h : seek_loop P fuel seek s = some s1) :
    seek ≤ s1.time ∨ s1.log.head? = some (Ev.update false) := by
  induction fuel generalizing s with
  | zero =>
    simp only [seek_loop] at h
    split at h
    · simp at h
    · simp only [Option.some.injEq] at h
      subst h
      left; omega
  | succ n ih =>
    simp only [seek_loop] at h
    split at h
    · by_cases hu : (P.update s.p).1 = true
      · rw [if_pos hu] at h
        exact ih _ h
      · rw [if_neg hu] at h
        simp only [Option.some.injEq] at h
        subst h
        right
        have : (P.update s.p).1 = false := by simpa using hu
        simp [this]
    · simp only [Option.some.injEq] at h
      subst h
      left; omega

/-- The seek loop ends within `seek - time` passes when every update lasts at
least one millisecond. -/
theorem seek_loop_total {σ : Type} (P : CPlayer σ)
    (hms : ∀ p, 1 ≤ ms_per_update (P.getrefresh p)) (fuel : Nat) (seek : Int)
    (s : State σ) (hfuel : seek - s.time ≤ fuel) :
    ∃ s1, seek_loop P fuel seek s = some s1 := by
  induction fuel generalizing s with
  | zero =>
    simp only [seek_loop]
    have : ¬ s.time < seek := by
      simp only [Nat.cast_zero] at hfuel
      omega
    rw [if_neg this]
    exact ⟨s, rfl⟩
  | succ n ih =>
    simp only [seek_loop]
    by_cases hlt : s.time < seek
    · rw [if_pos hlt]
      by_cases hu : (P.update s.p).1 = true
      · rw [if_pos hu]
        apply ih
        have := hms (P.update s.p).2
        simp only [adplug_call_time, adplug_call_p]
        push_cast at hfuel
        omega
      · rw [if_neg hu]
        exact ⟨_, rfl⟩
    · rw [if_neg hlt]
      exact ⟨s, rfl⟩

/-- C4: after the handling of a backward seek (target `T` below the elapsed
time) has finished, the elapsed time is at least `T` or the last player update
of the fast-forward reported the end of the song.  Moreover the handling does
finish, within `T` updates, for a player whose updates each last at least one
millisecond. -/
theorem backward_seek_reaches_target {σ : Type} (P : CPlayer σ) (subsong fuel : Nat)
    (T : Int) (s : State σ) (hback : T < s.time) :
    (∀ s1, handle_seek P subsong fuel T s = some s1 →
      T ≤ s1.time ∨ s1.log.head? = some (Ev.update false)) ∧
    ((∀ p, 1 ≤ ms_per_update (P.getrefresh p)) → T ≤ fuel →
      ∃ s1, handle_seek P subsong fuel T s = some s1) := by
  refine ⟨?_, ?_⟩
  · intro s1 h
    simp only [handle_seek] at h
    split at h
    · exact seek_loop_post P fuel T _ s1 h
    · simp only [Option.some.injEq] at h
      subst h
      left; omega
  · intro hms hfuel
    simp only [handle_seek]
    split
    · apply seek_loop_total P hms
      simp only [adplug_call_time]
      omega
    · exact ⟨s, rfl⟩

/-- C4, witness: from 560 ms a seek back to 100 ms rewinds and ends at 112 ms
after 8 updates of 14 ms; on a song of 5 updates it ends at the end of the
song, 56 ms in. -/
theorem backward_seek_reaches_target_witness :
    (100 : Int) < late_state.time ∧
    (handle_seek (sample_player 100 ⟨70, 1⟩) 0 20 100 late_state).map (fun s => s.time)
      = some 112 ∧
    (100 ≤ (112 : Int) ∨ [Ev.update true].head? = some (Ev.update false)) ∧
    (handle_seek (sample_player 5 ⟨70, 1⟩) 0 20 100 late_state).map
      (fun s => (s.time, s.log.head?)) = some (56, some (Ev.update false)) ∧
    (∃ s1, handle_seek (sample_player 100 ⟨70, 1⟩) 0 100 100 late_state = some s1) :=
  ⟨by decide, by decide,
   (backward_seek_reaches_target (sample_player 100 ⟨70, 1⟩) 0 20 100 late_state
      (by decide)).1
      { p := 8, time := 112, toadd := 0, playing := true,
        log := List.replicate 8 (Ev.update true) ++ [Ev.rewind 0] } (by decide),
   by decide,
   (backward_seek_reaches_target (sample_player 100 ⟨70, 1⟩) 0 100 100 late_state
      (by decide)).2 (fun _ => (by decide : (1 : Int) ≤ ms_per_update ⟨70, 1⟩)) (by decide)⟩

/-! ### Elapsed time -/

/-! ### Rounding to `float` -/

theorem round_half_even_ge (p q : Nat) : p / q ≤ round_half_even p q := by
  simp only [round_half_even]
  split
  · exact le_refl _
  · split
    · omega
    · split <;> omega

theorem float_shift_spec (p q : Nat) (h : float_shift p q < 253) :
    q * 2 ^ 127 ≤ p * 2 ^ float_shift p q := by
  unfold float_shift at h ⊢
  simp only at h ⊢
  generalize (if min 253 (127 + bit_length 256 q - bit_length 256 p) = 0 ∨
      decide (q * 2 ^ 127 ≤ p * 2 ^ (min 253 (127 + bit_length 256 q - bit_length 256 p) - 1))
        = false
    then min 253 (127 + bit_length 256 q - bit_length 256 p) else 0) = start at h ⊢
  revert h
  cases hf : (List.range' start (253 - start)).find?
      (fun t => decide (q * 2 ^ 127 ≤ p * 2 ^ t)) with
  | none =>
    intro h
    exact absurd h (lt_irrefl 253)
  | some t =>
    intro _
    have := List.find?_some hf
    exact of_decide_eq_true this

theorem round_float_den_pos (n d : Int) : 0 < (round_float n d).den := by
  simp only [round_float]
  split
  · decide
  · positivity

theorem round_float_num_nonneg (n d : Int) (hn : 0 ≤ n) (hd : 0 < d) :
    0 ≤ (round_float n d).num := by
  simp only [round_float]
  have h1 : 0 ≤ n.sign := Int.sign_nonneg.mpr hn
  have h2 : 0 ≤ d.sign := Int.sign_nonneg.mpr hd.le
  split
  · exact le_refl _
  · positivity

/-- Rounding to `float` does not take a value below an integer `k` of at most
24 bits that it is not below. -/
theorem round_float_ge (k : Nat) (hk : k ≤ 2 ^ 23) (n d : Int) (hd : 0 < d)
    (hkn : (k : Int) * d ≤ n) :
    (k : Int) * (round_float n d).den ≤ (round_float n d).num := by
  rcases Nat.eq_zero_or_pos k with rfl | hkpos
  · have hn : 0 ≤ n := by simpa using hkn
    simpa using round_float_num_nonneg n d hn hd
  · have hnpos : 0 < n := by
      have : (1 : Int) ≤ k := by exact_mod_cast hkpos
      nlinarith
    simp only [round_float]
    rw [if_neg hnpos.ne', Int.sign_eq_one_of_pos hnpos, Int.sign_eq_one_of_pos hd, one_mul,
      one_mul]
    have hq : 0 < d.natAbs := Int.natAbs_pos.mpr hd.ne'
    have hpq : k * d.natAbs ≤ n.natAbs := by
      have h1 : ((k * d.natAbs : Nat) : Int) ≤ (n.natAbs : Int) := by
        rw [Nat.cast_mul, Int.natCast_natAbs, Int.natCast_natAbs, abs_of_pos hd,
          abs_of_pos hnpos]
        exact hkn
      exact_mod_cast h1
    generalize n.natAbs = p at hpq
    generalize d.natAbs = q at hpq hq
    have hge := round_half_even_ge (p * 2 ^ float_shift p q) (q * 2 ^ 104)
    have hQ : 0 < q * 2 ^ 104 := by positivity
    rw [← Nat.cast_mul]
    apply Int.ofNat_le.mpr
    by_cases ht : 104 ≤ float_shift p q
    · have e1 : 104 - float_shift p q = 0 := by omega
      rw [e1, pow_zero, mul_one]
      refine le_trans ?_ hge
      rw [Nat.le_div_iff_mul_le hQ]
      have e2 : 2 ^ (float_shift p q - 104) * 2 ^ 104 = 2 ^ float_shift p q := by
        rw [← pow_add]
        congr 1
        omega
      calc k * 2 ^ (float_shift p q - 104) * (q * 2 ^ 104)
          = (k * q) * (2 ^ (float_shift p q - 104) * 2 ^ 104) := by ring
        _ = (k * q) * 2 ^ float_shift p q := by rw [e2]
        _ ≤ p * 2 ^ float_shift p q := Nat.mul_le_mul_right _ hpq
    · have e1 : float_shift p q - 104 = 0 := by omega
      rw [e1, pow_zero, mul_one]
      have hspec := float_shift_spec p q (by omega)
      have hM : 2 ^ 23 ≤ round_half_even (p * 2 ^ float_shift p q) (q * 2 ^ 104) := by
        refine le_trans ?_ hge
        rw [Nat.le_div_iff_mul_le hQ]
        calc 2 ^ 23 * (q * 2 ^ 104) = q * 2 ^ 127 := by ring
          _ ≤ p * 2 ^ float_shift p q := hspec
      have h2 : 1 ≤ 2 ^ (104 - float_shift p q) := Nat.one_le_two_pow
      calc k ≤ 2 ^ 23 := hk
        _ ≤ round_half_even (p * 2 ^ float_shift p q) (q * 2 ^ 104) := hM
        _ = round_half_even (p * 2 ^ float_shift p q) (q * 2 ^ 104) * 1 := (mul_one _).symm
        _ ≤ round_half_even (p * 2 ^ float_shift p q) (q * 2 ^ 104)
              * 2 ^ (104 - float_shift p q) := Nat.mul_le_mul_left _ h2

theorem float_to_int_ge (k : Nat) (a : CFloat) (hden : 0 < a.den)
    (h : (k : Int) * a.den ≤ a.num) : (k : Int) ≤ float_to_int a := by
  simp only [float_to_int]
  have hnum : 0 ≤ a.num := by
    have : 0 ≤ (k : Int) * a.den := by positivity
    omega
  rw [Int.tdiv_eq_ediv hnum hden.le]
  exact Int.le_ediv_of_mul_le hden h


theorem round_half_even_le (p q k : Nat) (hq : 0 < q) (h : p ≤ k * q) :
    round_half_even p q ≤ k := by
  have hdiv : p / q ≤ k := by
    calc p / q ≤ (k * q) / q := Nat.div_le_div_right h
      _ = k := Nat.mul_div_cancel _ hq
  have hmod := Nat.div_add_mod p q
  have hlt := Nat.mod_lt p hq
  rcases Nat.lt_or_ge (p / q) k with hk | hk
  · simp only [round_half_even]
    split
    · omega
    · split
      · omega
      · split <;> omega
  · have he : p / q = k := le_antisymm hdiv hk
    have hr : p % q = 0 := by
      have : q * (p / q) = k * q := by rw [he, Nat.mul_comm]
      omega
    simp only [round_half_even, hr, he]
    rw [if_pos (by omega)]

/-- Rounding to `float` does not take a non-negative value above an integer
`k` of at most 24 bits that it is not above. -/
theorem round_float_le (k : Nat) (hk : k < 2 ^ 24) (n d : Int) (hn : 0 ≤ n) (hd : 0 < d)
    (hkn : n ≤ (k : Int) * d) :
    (round_float n d).num ≤ (k : Int) * (round_float n d).den := by
  rcases hn.eq_or_lt with hn0 | hnpos
  · simp only [round_float]
    rw [if_pos hn0.symm]
    show (0 : Int) ≤ (k : Int) * 1
    positivity
  · simp only [round_float]
    rw [if_neg hnpos.ne', Int.sign_eq_one_of_pos hnpos, Int.sign_eq_one_of_pos hd, one_mul,
      one_mul]
    have hq : 0 < d.natAbs := Int.natAbs_pos.mpr hd.ne'
    have hpq : n.natAbs ≤ k * d.natAbs := by
      have h1 : (n.natAbs : Int) ≤ ((k * d.natAbs : Nat) : Int) := by
        rw [Nat.cast_mul, Int.natCast_natAbs, Int.natCast_natAbs, abs_of_pos hd,
          abs_of_pos hnpos]
        exact hkn
      exact_mod_cast h1
    have hp : 0 < n.natAbs := Int.natAbs_pos.mpr hnpos.ne'
    generalize n.natAbs = p at hpq hp
    generalize d.natAbs = q at hpq hq
    have hQ : 0 < q * 2 ^ 104 := by positivity
    rw [← Nat.cast_mul]
    apply Int.ofNat_le.mpr
    by_cases ht : 104 ≤ float_shift p q
    · have e1 : 104 - float_shift p q = 0 := by omega
      rw [e1, pow_zero, mul_one]
      apply round_half_even_le _ _ _ hQ
      have e2 : 2 ^ (float_shift p q - 104) * 2 ^ 104 = 2 ^ float_shift p q := by
        rw [← pow_add]
        congr 1
        omega
      calc p * 2 ^ float_shift p q ≤ (k * q) * 2 ^ float_shift p q :=
            Nat.mul_le_mul_right _ hpq
        _ = (k * q) * (2 ^ (float_shift p q - 104) * 2 ^ 104) := by rw [e2]
        _ = k * 2 ^ (float_shift p q - 104) * (q * 2 ^ 104) := by ring
    · exfalso
      have hspec := float_shift_spec p q (by omega)
      have h1 : q * 2 ^ 127 ≤ (k * q) * 2 ^ float_shift p q :=
        le_trans hspec (Nat.mul_le_mul_right _ hpq)
      have h2 : 2 ^ float_shift p q ≤ 2 ^ 103 :=
        Nat.pow_le_pow_right (by decide) (by omega)
      have h3 : (k * q) * 2 ^ float_shift p q ≤ (k * q) * 2 ^ 103 :=
        Nat.mul_le_mul_left _ h2
      have h4 : k * 2 ^ 103 < 2 ^ 24 * 2 ^ 103 :=
        Nat.mul_lt_mul_of_pos_right hk (by positivity)
      have h5 : q * (k * 2 ^ 103) < q * (2 ^ 24 * 2 ^ 103) :=
        Nat.mul_lt_mul_of_pos_left h4 hq
      have e3 : q * (2 ^ 24 * 2 ^ 103) = q * 2 ^ 127 := by
        rw [← pow_add]
      have e4 : (k * q) * 2 ^ 103 = q * (k * 2 ^ 103) := by ring
      rw [e4] at h3
      rw [e3] at h5
      exact absurd (le_trans h1 h3) (not_le.mpr h5)

theorem float_to_int_le (k : Nat) (a : CFloat) (hnum : 0 ≤ a.num) (hden : 0 < a.den)
    (h : a.num ≤ (k : Int) * a.den) : float_to_int a ≤ (k : Int) := by
  simp only [float_to_int]
  rw [Int.tdiv_eq_ediv hnum hden.le]
  apply Int.ediv_le_of_le_mul hden
  exact h

/-- What one chunk of at most `w` frames takes off `toadd` at a refresh rate
of at most `c` Hz, for whole numbers `w` and `c` whose product has at most 24
bits. -/
theorem consumed_le (r : CFloat) (i : Int) (c w : Nat) (hn : 0 ≤ r.num) (hd : 0 < r.den)
    (hr : r.num ≤ (c : Int) * r.den) (hi0 : 0 ≤ i) (hi : i ≤ (w : Int))
    (hcw : c * w < 2 ^ 24) (hw : w < 2 ^ 24) :
    consumed r i ≤ ((c * w : Nat) : Int) := by
  have h1 : (float_of_int i).num ≤ (w : Int) * (float_of_int i).den := by
    simp only [float_of_int]
    exact round_float_le w hw i 1 hi0 (by decide) (by simpa using hi)
  have h2 : 0 ≤ (float_of_int i).num := round_float_num_nonneg _ _ hi0 (by decide)
  have h3 : 0 < (float_of_int i).den := round_float_den_pos _ _
  simp only [consumed]
  apply float_to_int_le
  · simp only [float_mul]
    exact round_float_num_nonneg _ _ (by positivity) (by positivity)
  · simp only [float_mul]
    exact round_float_den_pos _ _
  · simp only [float_mul]
    apply round_float_le (c * w) hcw _ _ (by positivity) (by positivity)
    push_cast
    calc r.num * (float_of_int i).num
        ≤ ((c : Int) * r.den) * (float_of_int i).num :=
          Int.mul_le_mul_of_nonneg_right hr h2
      _ ≤ ((c : Int) * r.den) * ((w : Int) * (float_of_int i).den) :=
          Int.mul_le_mul_of_nonneg_left h1 (by positivity)
      _ = (c : Int) * (w : Int) * (r.den * (float_of_int i).den) := by ring


/-- The rounding of the `float` operations shows in the values: at
`(float) (1000.0 / 7)` Hz the quotient `1000 / r` rounds to 7, where the exact
quotient is below 7; at `18.2f` Hz the quotient `6188 / r` rounds to 340, where
the exact quotient is below 340, so that the chunk is 344 and not 340; at
`60.05f` Hz the product `r * 20` rounds to 1201, where the exact product is
below 1201. -/
theorem float_operations_round :
    ms_per_update seventh_rate = 7 ∧
    Int.tdiv (1000 * seventh_rate.den) seventh_rate.num = 6 ∧
    chunk 6188 timer_rate = 344 ∧
    Int.tdiv (6188 * timer_rate.den + 4 * timer_rate.num) timer_rate.num = 343 ∧
    consumed screen_rate 20 = 1201 ∧
    Int.tdiv (screen_rate.num * 20) screen_rate.den = 1200 := by
  decide

theorem float_div_nonneg (a r : CFloat) (ha : 0 ≤ a.num) (had : 0 < a.den)
    (hn : 0 < r.num) (hd : 0 < r.den) :
    0 ≤ (float_div a r).num ∧ 0 < (float_div a r).den := by
  simp only [float_div]
  exact ⟨round_float_num_nonneg _ _ (by positivity) (by positivity), round_float_den_pos _ _⟩

theorem float_of_int_nonneg (i : Int) (hi : 0 ≤ i) :
    0 ≤ (float_of_int i).num ∧ 0 < (float_of_int i).den := by
  simp only [float_of_int]
  exact ⟨round_float_num_nonneg _ _ hi (by decide), round_float_den_pos _ _⟩

theorem ms_per_update_nonneg (r : CFloat) (hn : 0 < r.num) (hd : 0 < r.den) :
    0 ≤ ms_per_update r := by
  obtain ⟨h1, h2⟩ := float_of_int_nonneg 1000 (by decide)
  obtain ⟨h3, h4⟩ := float_div_nonneg (float_of_int 1000) r h1 h2 hn hd
  simp only [ms_per_update, float_to_int]
  exact Int.tdiv_nonneg h3 h4.le

theorem top_up_time {σ : Type} (P : CPlayer σ)
    (hms : ∀ p, 0 ≤ ms_per_update (P.getrefresh p)) (freq : Int) (fuel : Nat)
    (s s1 : State σ) (h : top_up P freq fuel s = some s1) : s.time ≤ s1.time := by
  induction fuel generalizing s with
  | zero =>
    simp only [top_up] at h
    split at h
    · simp at h
    · simp only [Option.some.injEq] at h
      subst h
      exact le_refl _
  | succ n ih =>
    simp only [top_up] at h
    split at h
    · have := ih _ h
      have hm := hms (P.update s.p).2
      by_cases hu : (P.update s.p).1 = true
      · rw [if_pos hu] at this
        simp only [adplug_call_time, adplug_call_p] at this
        omega
      · rw [if_neg hu] at this
        simpa using this
    · simp only [Option.some.injEq] at h
      subst h
      exact le_refl _

theorem fill_time {σ : Type} (P : CPlayer σ)
    (hms : ∀ p, 0 ≤ ms_per_update (P.getrefresh p)) (freq : Int) (fuel : Nat)
    (towrite : Int) (s s1 : State σ) (h : fill P freq fuel towrite s = some s1) :
    s.time ≤ s1.time := by
  induction fuel generalizing s towrite with
  | zero =>
    simp only [fill] at h
    split at h
    · simp at h
    · simp only [Option.some.injEq] at h
      subst h
      exact le_refl _
  | succ n ih =>
    simp only [fill] at h
    split at h
    · cases ht : top_up P freq (n + 1) s with
      | none => simp [ht] at h
      | some s2 =>
        simp only [ht] at h
        have h1 := top_up_time P hms freq (n + 1) s s2 ht
        have h2 := ih _ _ h
        simp only [adplug_call_time] at h2
        omega
    · simp only [Option.some.injEq] at h
      subst h
      exact le_refl _

theorem iteration_time {σ : Type} (P : CPlayer σ)
    (hms : ∀ p, 0 ≤ ms_per_update (P.getrefresh p)) (sampsize : Int) (subsong fuel : Nat)
    (t : Tick) (s : State σ) (st : Step σ) (hseek : t.seek = -1)
    (h : iteration P sampsize subsong fuel t s = some st) : s.time ≤ st.state.time := by
  simp only [iteration, hseek, handle_seek] at h
  split at h
  · simp only [Option.some.injEq] at h
    subst h
    exact le_refl _
  · split at h
    · simp only [Option.some.injEq] at h
      subst h
      exact le_refl _
    · simp only [ne_eq, not_true_eq_false, if_false] at h
      cases hf : fill P t.conf.freq fuel SNDBUFSIZE
          ((s.call (Ev.check_stop t.stop)).call (Ev.check_seek (-1))) with
      | none => simp [hf] at h
      | some s2 =>
        simp only [hf, Option.some.injEq] at h
        subst h
        have := fill_time P hms _ _ _ _ s2 hf
        simpa [Step.state] using this

/-- C6: the elapsed-time counter never decreases over loop passes that handle
no seek request (`check_seek ()` answers -1), for a player whose refresh rate
is positive: along every such sequence of passes of `AdPlugXMMS::play`, with
any configuration and any stop answers, the value of `time` at the end is at
least its value at the start; a sequence of one pass is one loop step. -/
theorem time_monotone_without_seek {σ : Type} (P : CPlayer σ)
    (hpos : ∀ p, 0 < (P.getrefresh p).num ∧ 0 < (P.getrefresh p).den)
    (sampsize : Int) (subsong fuel : Nat) (ts : List Tick) (s : State σ) (st : Step σ)
    (hseek : ∀ t ∈ ts, t.seek = -1)
    (h : main_loop P sampsize subsong fuel ts s = some st) : s.time ≤ st.state.time := by
  have hms : ∀ p, 0 ≤ ms_per_update (P.getrefresh p) :=
    fun p => ms_per_update_nonneg _ (hpos p).1 (hpos p).2
  induction ts generalizing s with
  | nil =>
    simp only [main_loop, Option.some.injEq] at h
    subst h
    exact le_refl _
  | cons t ts ih =>
    simp only [main_loop] at h
    cases hi : iteration P sampsize subsong fuel t s with
    | none => simp [hi] at h
    | some st1 =>
      have h1 := iteration_time P hms sampsize subsong fuel t s st1
        (hseek t (List.mem_cons_self _ _)) hi
      cases st1 with
      | exit s1 =>
        simp only [hi, Option.some.injEq] at h
        subst h
        exact h1
      | next s1 =>
        simp only [hi] at h
        have h2 := ih s1 (fun u hu => hseek u (List.mem_cons_of_mem _ hu)) h
        simp only [Step.state] at h1
        omega

/-- C6, witness: three passes without a seek on a player refreshing at 70 Hz
take the elapsed time from 560 ms to 602 ms. -/
theorem time_monotone_without_seek_witness :
    (0 < (⟨70, 1⟩ : CFloat).num ∧ 0 < (⟨70, 1⟩ : CFloat).den) ∧
    (main_loop (sample_player 100 ⟨70, 1⟩) 2 0 20 [plain_tick, plain_tick, plain_tick]
      late_state).map (fun st => st.state.time) = some 602 ∧
    late_state.time ≤ ((main_loop (sample_player 100 ⟨70, 1⟩) 2 0 20
      [plain_tick, plain_tick, plain_tick] late_state).getD (Step.next late_state)).state.time :=
  ⟨by decide, by decide,
   time_monotone_without_seek (sample_player 100 ⟨70, 1⟩)
     (fun _ => (by decide : 0 < (⟨70, 1⟩ : CFloat).num ∧ 0 < (⟨70, 1⟩ : CFloat).den))
     2 0 20 [plain_tick, plain_tick, plain_tick] late_state
     ((main_loop (sample_player 100 ⟨70, 1⟩) 2 0 20 [plain_tick, plain_tick, plain_tick]
        late_state).getD (Step.next late_state))
     (by decide) (by decide)⟩

/-! ### Creation and release of the player and the sound buffer -/

theorem loop_entry_count {σ : Type} (P : CPlayer σ) (c : Conf) (plr : Plr) (p0 : σ) :
    (loop_entry P c plr p0).log.count Ev.delete_player = 0 ∧
    (loop_entry P c plr p0).log.count Ev.free_sndbuf = 0 ∧
    (loop_entry P c plr p0).log.count (Ev.factory true) = 1 ∧
    (loop_entry P c plr p0).log.count (Ev.malloc (SNDBUFSIZE * sampsize_of c)) = 1 := by
  simp [loop_entry, open_log, List.count_cons]

/-- When the player was created: it is deleted and the buffer freed once when
`play` returns and not before; the player and the buffer were obtained once. -/
theorem adplug_play_counts {σ : Type} (P : CPlayer σ) (c : Conf) (filename : String)
    (plr : Plr) (p0 : σ) (fuel : Nat) (ticks : List Tick) :
    (play P c filename plr (some p0) fuel ticks).log.count Ev.delete_player
      = (if (play P c filename plr (some p0) fuel ticks).result.isSome then 1 else 0) ∧
    (play P c filename plr (some p0) fuel ticks).log.count Ev.free_sndbuf
      = (if (play P c filename plr (some p0) fuel ticks).result.isSome then 1 else 0) ∧
    ((play P c filename plr (some p0) fuel ticks).result.isSome = true →
      (play P c filename plr (some p0) fuel ticks).result = some true ∧
      (play P c filename plr (some p0) fuel ticks).log.count (Ev.factory true) = 1 ∧
      (play P c filename plr (some p0) fuel ticks).log.count
        (Ev.malloc (SNDBUFSIZE * sampsize_of c)) = 1) := by
  obtain ⟨hd, hf, hfa, hma⟩ := loop_entry_count P c (select_subsong filename plr) p0
  cases hm : main_loop P (sampsize_of c) (select_subsong filename plr).subsong fuel ticks
      (loop_entry P c (select_subsong filename plr) p0) with
  | none => simp [play, hm, free_all]
  | some st =>
    obtain ⟨l, hl, hin⟩ := adplug_main_loop_frame P _ _ fuel ticks _ st hm
    have cnt : ∀ e : Ev, e.is_body = false → st.state.log.count e
        = (loop_entry P c (select_subsong filename plr) p0).log.count e := by
      intro e he
      rw [hl]
      exact count_body l _ e he hin
    have h1 := cnt Ev.delete_player rfl
    have h2 := cnt Ev.free_sndbuf rfl
    have h3 := cnt (Ev.factory true) rfl
    have h4 := cnt (Ev.malloc (SNDBUFSIZE * sampsize_of c)) rfl
    cases st with
    | next s1 =>
      simp only [Step.state] at h1 h2
      simp [play, hm, free_all, h1, h2, hd, hf]
    | exit s1 =>
      simp only [Step.state] at h1 h2 h3 h4
      simp [play, hm, free_all, List.count_cons, h1, h2, h3, h4, hd, hf, hfa, hma]

/-- When `factory` returns a null pointer `play` returns false at once; no
buffer was allocated and nothing is deleted or freed. -/
theorem adplug_play_no_player {σ : Type} (P : CPlayer σ) (c : Conf) (filename : String)
    (plr : Plr) (fuel : Nat) (ticks : List Tick) :
    (play P c filename plr none fuel ticks).result = some false ∧
    (play P c filename plr none fuel ticks).log = Ev.factory false :: open_log c ∧
    (∀ n, Ev.malloc n ∉ (play P c filename plr none fuel ticks).log) ∧
    (play P c filename plr none fuel ticks).log.count Ev.delete_player = 0 ∧
    (play P c filename plr none fuel ticks).log.count Ev.free_sndbuf = 0 := by
  simp [play, open_log, List.count_cons]

end AdPlugXMMS

/-- C3: the decode resources are released exactly once on every exit path.  In
`MPG123Plugin::play` the handle is created once, and `mpg123_delete` has been
called exactly once when `play` has returned, on whichever path, and not at all
before.  In `AdPlugXMMS::play` with a player created, the player is deleted and
the sound buffer freed exactly once when `play` has returned, and not before,
both having been obtained once; when player creation fails `play` returns false
with no buffer allocated and nothing deleted or freed. -/
theorem resources_released_exactly_once (k : MPG123Plugin.Codes) (su : MPG123Plugin.Setup)
    (ticks : List MPG123Plugin.Tick) {σ : Type} (P : AdPlugXMMS.CPlayer σ)
    (c : AdPlugXMMS.Conf) (filename : String) (plr : AdPlugXMMS.Plr) (p0 : σ) (fuel : Nat)
    (aticks : List AdPlugXMMS.Tick) :
    ((MPG123Plugin.play k su ticks).final.log.count MPG123Plugin.Ev.mpg123_new = 1 ∧
     (MPG123Plugin.play k su ticks).final.log.count MPG123Plugin.Ev.mpg123_delete
       = if (MPG123Plugin.play k su ticks).result.isSome then 1 else 0) ∧
    ((AdPlugXMMS.play P c filename plr (some p0) fuel aticks).log.count
        AdPlugXMMS.Ev.delete_player
       = (if (AdPlugXMMS.play P c filename plr (some p0) fuel aticks).result.isSome
          then 1 else 0) ∧
     (AdPlugXMMS.play P c filename plr (some p0) fuel aticks).log.count
        AdPlugXMMS.Ev.free_sndbuf
       = (if (AdPlugXMMS.play P c filename plr (some p0) fuel aticks).result.isSome
          then 1 else 0) ∧
     ((AdPlugXMMS.play P c filename plr (some p0) fuel aticks).result.isSome = true →
       (AdPlugXMMS.play P c filename plr (some p0) fuel aticks).result = some true ∧
       (AdPlugXMMS.play P c filename plr (some p0) fuel aticks).log.count
         (AdPlugXMMS.Ev.factory true) = 1 ∧
       (AdPlugXMMS.play P c filename plr (some p0) fuel aticks).log.count
         (AdPlugXMMS.Ev.malloc (AdPlugXMMS.SNDBUFSIZE * AdPlugXMMS.sampsize_of c)) = 1)) ∧
    ((AdPlugXMMS.play P c filename plr none fuel aticks).result = some false ∧
     (AdPlugXMMS.play P c filename plr none fuel aticks).log
       = AdPlugXMMS.Ev.factory false :: AdPlugXMMS.open_log c ∧
     (∀ n, AdPlugXMMS.Ev.malloc n ∉ (AdPlugXMMS.play P c filename plr none fuel aticks).log) ∧
     (AdPlugXMMS.play P c filename plr none fuel aticks).log.count
        AdPlugXMMS.Ev.delete_player = 0 ∧
     (AdPlugXMMS.play P c filename plr none fuel aticks).log.count
        AdPlugXMMS.Ev.free_sndbuf = 0) :=
  ⟨MPG123Plugin.play_handle_counts k su ticks,
   AdPlugXMMS.adplug_play_counts P c filename plr p0 fuel aticks,
   AdPlugXMMS.adplug_play_no_player P c filename plr fuel aticks⟩

namespace MPG123Plugin

/-! ### Stop polls, written blocks and the seek -/

theorem handle_seek_stop_polls (t : Tick) (s : State) :
    stop_polls (handle_seek t s).log = stop_polls s.log := by
  unfold handle_seek; split <;> [split; skip] <;> simp [stop_polls]

theorem update_bitrate_stop_polls (t : Tick) (s : State) :
    stop_polls (update_bitrate t s).log = stop_polls s.log := by
  simp only [update_bitrate]; split <;> simp [stop_polls]

theorem read_or_write_stop_polls (k : Codes) (t : Tick) (s : State) :
    stop_polls (read_or_write k t s).state.log = stop_polls s.log := by
  unfold read_or_write
  by_cases hb : s.outbuf = []
  · rw [if_pos hb]
    by_cases hneg : t.read_ret < 0
    · simp only [hneg, if_true]
      by_cases hne : t.read_ret = k.MPG123_DONE ∨ t.read_ret = k.MPG123_ERR_READER
      · rw [if_pos hne]; simp [Step.state, stop_polls]
      · rw [if_neg hne]
        by_cases hc : 10 ≤ s.error_count + 1 <;> simp [Step.state, stop_polls, hc]
    · simp only [hneg, if_false]
      simp [Step.state, stop_polls, write_branch]
  · rw [if_neg hb]
    simp [Step.state, stop_polls, write_branch]

/-- Every pass polls the stop signal exactly once. -/
theorem iteration_stop_polls (k : Codes) (t : Tick) (s : State) :
    stop_polls (iteration k t s).state.log = stop_polls s.log + 1 := by
  unfold iteration
  by_cases hs : t.stop = true
  · simp [hs, Step.state, stop_polls]
  · simp only [hs]
    rw [if_neg (by simp), read_or_write_stop_polls, update_bitrate_stop_polls,
      handle_seek_stop_polls]
    simp [stop_polls]

/-- A pass whose stop poll answers true makes no other call and leaves the
loop. -/
theorem iteration_stop (k : Codes) (t : Tick) (s : State) (h : t.stop = true) :
    iteration k t s = Step.exit (s.call (Ev.check_stop true)) := by
  simp [iteration, h]

@[simp] theorem handle_seek_written (t : Tick) (s : State) :
    written (handle_seek t s).log = written s.log := by
  unfold handle_seek; split <;> [split; skip] <;> simp [written]

@[simp] theorem update_bitrate_written (t : Tick) (s : State) :
    written (update_bitrate t s).log = written s.log := by
  simp only [update_bitrate]; split <;> simp [written]

/-- In a pass that consumes a seek request the staging buffer is emptied before
the read, so the pass does not depend on what the buffer held. -/
theorem iteration_seek_forgets (k : Codes) (t : Tick) (s : State) (b : List Nat)
    (hstop : t.stop = false) (hseek : 0 ≤ t.seek) :
    iteration k t { s with outbuf := b } = iteration k t s := by
  simp only [iteration, hstop]
  have : handle_seek t (({ s with outbuf := b } : State).call
      (Ev.check_stop false) |>.call (Ev.check_seek t.seek))
      = handle_seek t ((s.call (Ev.check_stop false)).call (Ev.check_seek t.seek)) := by
    simp only [handle_seek, if_pos hseek]
    split <;> rfl
  simp only [Bool.false_eq_true, if_false]
  rw [this]

/-- What a pass that consumes a seek request writes and leaves staged. -/
theorem iteration_seek_writes (k : Codes) (t : Tick) (s : State)
    (hstop : t.stop = false) (hseek : 0 ≤ t.seek) :
    written (iteration k t s).state.log
      = (if 0 ≤ t.read_ret then [t.read_data] else []) ++ written s.log ∧
    ((iteration k t s).state.outbuf = [] ∨ (iteration k t s).state.outbuf = t.read_data) := by
  simp only [iteration, hstop, Bool.false_eq_true, if_false]
  have hb : (update_bitrate t (handle_seek t
      ((s.call (Ev.check_stop false)).call (Ev.check_seek t.seek)))).outbuf = [] := by
    simp [handle_seek_outbuf, hseek]
  have hw : written (update_bitrate t (handle_seek t
      ((s.call (Ev.check_stop false)).call (Ev.check_seek t.seek)))).log = written s.log := by
    simp [written]
  generalize update_bitrate t (handle_seek t
      ((s.call (Ev.check_stop false)).call (Ev.check_seek t.seek))) = sb at hb hw
  unfold read_or_write
  rw [if_pos hb]
  by_cases hneg : t.read_ret < 0
  · have hn : ¬ 0 ≤ t.read_ret := by omega
    simp only [hneg, if_true, hn, if_false, List.nil_append]
    by_cases hne : t.read_ret = k.MPG123_DONE ∨ t.read_ret = k.MPG123_ERR_READER
    · rw [if_pos hne]; simp [Step.state, written, hw]
    · rw [if_neg hne]
      by_cases hc : 10 ≤ sb.error_count + 1 <;> simp [Step.state, written, hw, hc]
  · have hn : 0 ≤ t.read_ret := by omega
    simp only [hneg, if_false, hn, if_true]
    simp [Step.state, written, write_branch, hw]

/-- C5: in a pass of the main loop that consumes a seek request (`seek >= 0`)
the staging buffer is emptied, whether or not `mpg123_seek` succeeded, before
anything is read or written.  Hence the whole further run is the same whatever
the buffer held before the seek; the only block such a pass can write is the
one its own read, made after the seek, has just stored; and what it leaves
staged is nothing or the bytes of that read. -/
theorem seek_discards_staged_audio (k : Codes) (t : Tick) (s : State)
    (hstop : t.stop = false) (hseek : 0 ≤ t.seek) :
    (handle_seek t ((s.call (Ev.check_stop t.stop)).call (Ev.check_seek t.seek))).outbuf = [] ∧
    (∀ (b : List Nat) (ts : List Tick),
      main_loop k (t :: ts) { s with outbuf := b } = main_loop k (t :: ts) s) ∧
    written (iteration k t s).state.log
      = (if 0 ≤ t.read_ret then [t.read_data] else []) ++ written s.log ∧
    ((iteration k t s).state.outbuf = [] ∨ (iteration k t s).state.outbuf = t.read_data) := by
  refine ⟨by simp [handle_seek_outbuf, hseek], ?_, iteration_seek_writes k t s hstop hseek⟩
  intro b ts
  simp only [main_loop, iteration_seek_forgets k t s b hstop hseek]

/-- C5, witness: the two bytes staged before the seek are not written; the
pass writes the two bytes read after the seek. -/
theorem seek_discards_staged_audio_witness :
    seek_tick.stop = false ∧ 0 ≤ seek_tick.seek ∧ stale_state.outbuf = [9, 9] ∧
    written (iteration sample_codes seek_tick stale_state).state.log = [[4, 5]] :=
  ⟨by decide, by decide, by decide,
   (seek_discards_staged_audio sample_codes seek_tick stale_state (by decide) (by decide)).2.2.1⟩

/-- C7, evaluation at the failing input: the session start publishes 128000
for a reading of 128; the next 15 passes, each reading 128, publish nothing;
the 16th pass publishes 128000 again, because line 371 compares the average
128 with the variable `bitrate`, which line 347 set to 128000. -/
theorem constant_bitrate_republished :
    published (play sample_codes sample_setup (List.replicate 15 (good_tick [3]))).final.log
      = [128000] ∧
    published (play sample_codes sample_setup (List.replicate 16 (good_tick [3]))).final.log
      = [128000, 128000] := by
  decide

/-- A pass whose read, made on an empty buffer, returns `MPG123_DONE` or
`MPG123_ERR_READER` as a negative value: the loop is left at once, with the
error flag and the error counter untouched and nothing written. -/
theorem iteration_break (k : Codes) (t : Tick) (s : State)
    (hstop : t.stop = false) (hempty : s.outbuf = [] ∨ 0 ≤ t.seek)
    (hret : t.read_ret = k.MPG123_DONE ∨ t.read_ret = k.MPG123_ERR_READER)
    (hneg : t.read_ret < 0) :
    ∃ s1, iteration k t s = Step.exit s1 ∧ s1.error = s.error ∧
      s1.error_count = s.error_count ∧ written s1.log = written s.log ∧
      read_rets s1.log = t.read_ret :: read_rets s.log := by
  have hb : (update_bitrate t (handle_seek t
      ((s.call (Ev.check_stop t.stop)).call (Ev.check_seek t.seek)))).outbuf = [] := by
    rcases hempty with h | h
    · simp only [update_bitrate_outbuf, handle_seek_outbuf, call_outbuf, h]
      split <;> rfl
    · simp [handle_seek_outbuf, h]
  refine ⟨{ (update_bitrate t (handle_seek t ((s.call (Ev.check_stop t.stop)).call
      (Ev.check_seek t.seek)))).call (Ev.mpg123_read t.read_ret t.read_data) with
      outbuf := t.read_data }, ?_, ?_, ?_, ?_, ?_⟩
  · simp only [iteration, hstop, Bool.false_eq_true, if_false, read_or_write]
    rw [hstop] at hb
    rw [if_pos hb, if_pos hneg, if_pos hret]
  · simp
  · simp
  · simp [written]
  · simp [read_rets]

/-- The same for a run of `play`: it returns true. -/
theorem play_break (k : Codes) (su : Setup) (pre rest : List Tick) (t : Tick)
    (s0 s : State) (hsetup : setup k su = Nego.ok s0)
    (hpre : main_loop k pre s0 = Step.next s)
    (hstop : t.stop = false) (hempty : s.outbuf = [] ∨ 0 ≤ t.seek)
    (hret : t.read_ret = k.MPG123_DONE ∨ t.read_ret = k.MPG123_ERR_READER)
    (hneg : t.read_ret < 0) :
    (play k su (pre ++ t :: rest)).result = some true ∧
    (play k su (pre ++ t :: rest)).final.error_count = s.error_count ∧
    written (play k su (pre ++ t :: rest)).final.log = written s.log ∧
    read_rets (play k su (pre ++ t :: rest)).final.log = t.read_ret :: read_rets s.log := by
  obtain ⟨he0, hc0⟩ := setup_ok k su s0 hsetup
  have hes := main_loop_next_error k pre s0 s he0 hc0 hpre
  obtain ⟨s1, hit, he1, hc1, hw1, hr1⟩ := iteration_break k t s hstop hempty hret hneg
  have hm : main_loop k (pre ++ t :: rest) s0 = Step.exit s1 := by
    rw [mpg_main_loop_next_append k _ _ s0 s hpre]
    simp [main_loop, hit]
  rw [play_of_setup_ok k su _ s0 hsetup, hm]
  simp [finish, cleanup, he1, hes, hc1, written, hw1, read_rets, hr1]

/-- C8: when, in a pass of the main loop, the read is made on an empty staging
buffer and returns MPG123_DONE (a negative code), the loop is left in that
pass without a write and `play` returns true, whatever the value of the
consecutive-error counter, which is left as it was. -/
theorem end_of_stream_completes (k : Codes) (su : Setup) (pre rest : List Tick) (t : Tick)
    (s0 s : State) (hsetup : setup k su = Nego.ok s0)
    (hpre : main_loop k pre s0 = Step.next s)
    (hstop : t.stop = false) (hempty : s.outbuf = [] ∨ 0 ≤ t.seek)
    (hdone : t.read_ret = k.MPG123_DONE) (hneg : k.MPG123_DONE < 0) :
    (play k su (pre ++ t :: rest)).result = some true ∧
    (play k su (pre ++ t :: rest)).final.error_count = s.error_count ∧
    written (play k su (pre ++ t :: rest)).final.log = written s.log ∧
    read_rets (play k su (pre ++ t :: rest)).final.log
      = k.MPG123_DONE :: read_rets s.log := by
  have := play_break k su pre rest t s0 s hsetup hpre hstop hempty (Or.inl hdone)
    (by rw [hdone]; exact hneg)
  rw [hdone] at this
  exact this

/-- C8, witness: after a first write and five failing reads the end of the
stream is reported; `play` returns true with the counter still at 5. -/
theorem end_of_stream_completes_witness :
    setup sample_codes sample_setup = Nego.ok (setup sample_codes sample_setup).state ∧
    sample_codes.MPG123_DONE < 0 ∧
    (play sample_codes sample_setup
      ((good_tick [3] :: List.replicate 5 (bad_tick [])) ++ done_tick :: [])).result
      = some true ∧
    (play sample_codes sample_setup
      ((good_tick [3] :: List.replicate 5 (bad_tick [])) ++ done_tick :: [])).final.error_count
      = 5 :=
  have h := end_of_stream_completes sample_codes sample_setup
    (good_tick [3] :: List.replicate 5 (bad_tick [])) [] done_tick
    (setup sample_codes sample_setup).state
    (main_loop sample_codes (good_tick [3] :: List.replicate 5 (bad_tick []))
      (setup sample_codes sample_setup).state).state
    (by decide) (by decide) (by decide) (by decide) (by decide) (by decide)
  ⟨by decide, by decide, h.1, h.2.1⟩

theorem get_format_error_count (k : Codes) (l : List Attempt) (s : State) :
    (get_format k l s).state.error_count = s.error_count := by
  induction l generalizing s with
  | nil => rfl
  | cons a rest ih =>
    simp only [get_format]
    by_cases h1 : a.getformat_ret < 0
    · rw [if_pos h1]; rfl
    · rw [if_neg h1]
      by_cases h2 : a.read_ret < 0
      · rw [if_pos h2]
        by_cases h3 : a.read_ret = k.MPG123_NEW_FORMAT
        · rw [if_pos h3, ih]; rfl
        · rw [if_neg h3]; rfl
      · rw [if_neg h2]; rfl

/-- Before the main loop the error counter is zero. -/
theorem setup_error_count (k : Codes) (su : Setup) : (setup k su).state.error_count = 0 := by
  simp only [setup]
  by_cases h1 : su.open_ret < 0
  · rw [if_pos h1]; rfl
  · rw [if_neg h1]
    have hs2 : (if (!decide (su.fsize < 0) && su.full_scan) = true then
          (init_state.call (Ev.mpg123_open_handle su.open_ret)).call (Ev.mpg123_scan su.scan_ret)
        else init_state.call (Ev.mpg123_open_handle su.open_ret)).error_count = 0 := by
      split <;> rfl
    generalize (if (!decide (su.fsize < 0) && su.full_scan) = true then
          (init_state.call (Ev.mpg123_open_handle su.open_ret)).call (Ev.mpg123_scan su.scan_ret)
        else init_state.call (Ev.mpg123_open_handle su.open_ret)) = s2 at hs2
    by_cases h2 : (!decide (su.fsize < 0) && su.full_scan) = true ∧ su.scan_ret < 0
    · rw [if_pos h2]
      exact hs2
    · rw [if_neg h2]
      have hg := get_format_error_count k su.attempts s2
      cases hgf : get_format k su.attempts s2 with
      | pending s3 => rw [hgf] at hg; simpa [Nego.state, hs2] using hg
      | open_error s3 => rw [hgf] at hg; simpa [Nego.state, hs2] using hg
      | ok s3 =>
        rw [hgf] at hg
        simp only [Nego.state] at hg
        by_cases h3 : su.info_ret < 0
        · simp only [h3, if_true, Nego.state, call_error_count]
          rw [hg, hs2]
        · simp only [h3, if_false, Nego.state, call_error_count]
          rw [hg, hs2]

/-- A failing `mpg123_open_handle` leads to `OPEN_ERROR`. -/
theorem setup_open_fails (k : Codes) (su : Setup) (h : su.open_ret < 0) :
    ∃ s1, setup k su = Nego.open_error s1 := by
  simp only [setup, if_pos h]
  exact ⟨_, rfl⟩

/-- A failing first `mpg123_getformat` leads to `OPEN_ERROR`. -/
theorem setup_getformat_fails (k : Codes) (su : Setup) (a : Attempt) (rest : List Attempt)
    (hatt : su.attempts = a :: rest) (h : a.getformat_ret < 0) :
    ∃ s1, setup k su = Nego.open_error s1 := by
  simp only [setup, hatt, get_format, if_pos h]
  split
  · exact ⟨_, rfl⟩
  · split
    · exact ⟨_, rfl⟩
    · exact ⟨_, rfl⟩

theorem get_format_stop_polls (k : Codes) (l : List Attempt) (s : State) :
    stop_polls (get_format k l s).state.log = stop_polls s.log := by
  induction l generalizing s with
  | nil => rfl
  | cons a rest ih =>
    simp only [get_format]
    by_cases h1 : a.getformat_ret < 0
    · rw [if_pos h1]; simp [Nego.state, stop_polls]
    · rw [if_neg h1]
      by_cases h2 : a.read_ret < 0
      · rw [if_pos h2]
        by_cases h3 : a.read_ret = k.MPG123_NEW_FORMAT
        · rw [if_pos h3, ih]; simp [stop_polls]
        · rw [if_neg h3]; simp [Nego.state, stop_polls]
      · rw [if_neg h2]; simp [Nego.state, stop_polls]

/-- Before the main loop `check_stop` is not called. -/
theorem setup_stop_polls (k : Codes) (su : Setup) :
    stop_polls (setup k su).state.log = 0 := by
  simp only [setup]
  by_cases h1 : su.open_ret < 0
  · rw [if_pos h1]; simp [Nego.state, stop_polls, init_state]
  · rw [if_neg h1]
    have hs2 : stop_polls (if (!decide (su.fsize < 0) && su.full_scan) = true then
          (init_state.call (Ev.mpg123_open_handle su.open_ret)).call (Ev.mpg123_scan su.scan_ret)
        else init_state.call (Ev.mpg123_open_handle su.open_ret)).log = 0 := by
      split <;> simp [stop_polls, init_state]
    generalize (if (!decide (su.fsize < 0) && su.full_scan) = true then
          (init_state.call (Ev.mpg123_open_handle su.open_ret)).call (Ev.mpg123_scan su.scan_ret)
        else init_state.call (Ev.mpg123_open_handle su.open_ret)) = s2 at hs2
    by_cases h2 : (!decide (su.fsize < 0) && su.full_scan) = true ∧ su.scan_ret < 0
    · rw [if_pos h2]
      exact hs2
    · rw [if_neg h2]
      have hg := get_format_stop_polls k su.attempts s2
      cases hgf : get_format k su.attempts s2 with
      | pending s3 => rw [hgf] at hg; simpa [Nego.state, hs2] using hg
      | open_error s3 => rw [hgf] at hg; simpa [Nego.state, hs2] using hg
      | ok s3 =>
        rw [hgf] at hg
        simp only [Nego.state] at hg
        by_cases h3 : su.info_ret < 0
        · simp only [h3, if_true, Nego.state, call_log, stop_polls]
          rw [hg, hs2]
        · simp only [h3, if_false, Nego.state, call_log, stop_polls]
          rw [hg, hs2]

/-- Rounds of negotiation whose first read returns `MPG123_NEW_FORMAT` lead
back to `GET_FORMAT`. -/
theorem get_format_renegotiates (k : Codes) (pre rest : List Attempt) (s : State)
    (hpre : ∀ b ∈ pre, 0 ≤ b.getformat_ret ∧ b.read_ret < 0 ∧
      b.read_ret = k.MPG123_NEW_FORMAT) :
    ∃ s1, get_format k (pre ++ rest) s = get_format k rest s1 := by
  induction pre generalizing s with
  | nil => exact ⟨s, rfl⟩
  | cons b pre ih =>
    obtain ⟨hb1, hb2, hb3⟩ := hpre b (List.mem_cons_self _ _)
    simp only [List.cons_append, get_format]
    rw [if_neg (by omega), if_pos hb2, if_pos hb3]
    exact ih _ (fun c hc => hpre c (List.mem_cons_of_mem _ hc))

/-- A failing `mpg123_getformat`, or a first read that fails with a result
other than `MPG123_NEW_FORMAT`, leads to `OPEN_ERROR`. -/
theorem get_format_fails (k : Codes) (pre : List Attempt) (a : Attempt)
    (rest : List Attempt) (s : State)
    (hpre : ∀ b ∈ pre, 0 ≤ b.getformat_ret ∧ b.read_ret < 0 ∧
      b.read_ret = k.MPG123_NEW_FORMAT)
    (ha : a.getformat_ret < 0 ∨ (a.read_ret < 0 ∧ a.read_ret ≠ k.MPG123_NEW_FORMAT)) :
    ∃ s1, get_format k (pre ++ a :: rest) s = Nego.open_error s1 := by
  obtain ⟨s0, hs0⟩ := get_format_renegotiates k pre (a :: rest) s hpre
  rw [hs0]
  simp only [get_format]
  by_cases h1 : a.getformat_ret < 0
  · rw [if_pos h1]
    exact ⟨_, rfl⟩
  · rw [if_neg h1]
    rcases ha with h | ⟨h2, h3⟩
    · exact absurd h h1
    · rw [if_pos h2, if_neg h3]
      exact ⟨_, rfl⟩

/-- A round of negotiation in which both calls succeed ends the negotiation. -/
theorem get_format_succeeds (k : Codes) (pre : List Attempt) (a : Attempt)
    (rest : List Attempt) (s : State)
    (hpre : ∀ b ∈ pre, 0 ≤ b.getformat_ret ∧ b.read_ret < 0 ∧
      b.read_ret = k.MPG123_NEW_FORMAT)
    (h1 : 0 ≤ a.getformat_ret) (h2 : 0 ≤ a.read_ret) :
    ∃ s1, get_format k (pre ++ a :: rest) s = Nego.ok s1 := by
  obtain ⟨s0, hs0⟩ := get_format_renegotiates k pre (a :: rest) s hpre
  rw [hs0]
  simp only [get_format]
  rw [if_neg (by omega), if_neg (by omega)]
  exact ⟨_, rfl⟩

/-- Every failure before the main loop leads to `OPEN_ERROR`: of
`mpg123_open_handle`, of `mpg123_scan` when the full scan is made, of
`mpg123_getformat` or of the first read in any round of the negotiation, and of
`mpg123_info`. -/
theorem setup_fails (k : Codes) (su : Setup)
    (h : su.open_ret < 0 ∨ (0 ≤ su.fsize ∧ su.full_scan = true ∧ su.scan_ret < 0) ∨
      ∃ pre a rest, su.attempts = pre ++ a :: rest ∧
        (∀ b ∈ pre, 0 ≤ b.getformat_ret ∧ b.read_ret < 0 ∧
          b.read_ret = k.MPG123_NEW_FORMAT) ∧
        (a.getformat_ret < 0 ∨ (a.read_ret < 0 ∧ a.read_ret ≠ k.MPG123_NEW_FORMAT) ∨
          (0 ≤ a.getformat_ret ∧ 0 ≤ a.read_ret ∧ su.info_ret < 0))) :
    ∃ s1, setup k su = Nego.open_error s1 := by
  simp only [setup]
  by_cases h1 : su.open_ret < 0
  · rw [if_pos h1]
    exact ⟨_, rfl⟩
  · rw [if_neg h1]
    by_cases h2 : (!decide (su.fsize < 0) && su.full_scan) = true ∧ su.scan_ret < 0
    · rw [if_pos h2]
      exact ⟨_, rfl⟩
    · rw [if_neg h2]
      rcases h with h | ⟨hf, hs, hr⟩ | ⟨pre, a, rest, hatt, hpre, ha⟩
      · exact absurd h h1
      · exfalso
        apply h2
        refine ⟨?_, hr⟩
        have : ¬ su.fsize < 0 := by omega
        simp [this, hs]
      · rw [hatt]
        rcases ha with ha | ha | ⟨g1, g2, g3⟩
        · obtain ⟨s1, hs1⟩ := get_format_fails k pre a rest _ hpre (Or.inl ha)
          rw [hs1]
          exact ⟨_, rfl⟩
        · obtain ⟨s1, hs1⟩ := get_format_fails k pre a rest _ hpre (Or.inr ha)
          rw [hs1]
          exact ⟨_, rfl⟩
        · obtain ⟨s1, hs1⟩ := get_format_succeeds k pre a rest _ hpre g1 g2
          rw [hs1]
          simp only [if_pos g3]
          exact ⟨_, rfl⟩

/-- A pass whose read, made on an empty buffer, returns a value that is not
negative: the block is written, the error counter is zero and the loop goes
on. -/
theorem iteration_read_written (k : Codes) (t : Tick) (s : State)
    (hstop : t.stop = false) (hempty : s.outbuf = [] ∨ 0 ≤ t.seek)
    (hret : 0 ≤ t.read_ret) :
    ∃ s1, iteration k t s = Step.next s1 ∧ written s1.log = t.read_data :: written s.log ∧
      s1.error_count = 0 ∧ s1.error = s.error := by
  have hb : (update_bitrate t (handle_seek t
      ((s.call (Ev.check_stop t.stop)).call (Ev.check_seek t.seek)))).outbuf = [] := by
    rw [update_bitrate_outbuf, handle_seek_outbuf]
    rcases hempty with h | h
    · simp [h]
    · simp [h]
  have hit : iteration k t s = read_or_write k t (update_bitrate t (handle_seek t
      ((s.call (Ev.check_stop t.stop)).call (Ev.check_seek t.seek)))) := by
    simp [iteration, hstop]
  have herr : (update_bitrate t (handle_seek t
      ((s.call (Ev.check_stop t.stop)).call (Ev.check_seek t.seek)))).error = s.error := by simp
  have hwr : written (update_bitrate t (handle_seek t
      ((s.call (Ev.check_stop t.stop)).call (Ev.check_seek t.seek)))).log
      = written s.log := by simp [written]
  generalize update_bitrate t (handle_seek t
      ((s.call (Ev.check_stop t.stop)).call (Ev.check_seek t.seek))) = sb
    at hb hit herr hwr
  have hstep : iteration k t s = Step.next (write_branch
      { sb.call (Ev.mpg123_read t.read_ret t.read_data) with outbuf := t.read_data }) := by
    rw [hit]
    simp only [read_or_write]
    rw [if_pos hb, if_neg (by omega)]
  refine ⟨_, hstep, ?_, ?_, ?_⟩
  · simp [write_branch, State.call, written, hwr]
  · simp [write_branch, State.call]
  · simp [write_branch, State.call, herr]

/-- A pass whose read, made on an empty buffer, fails with a result that is
counted, the counter staying below 10: nothing is written and the loop goes
on. -/
theorem iteration_read_counted (k : Codes) (t : Tick) (s : State)
    (hstop : t.stop = false) (hempty : s.outbuf = [] ∨ 0 ≤ t.seek)
    (hrec : recoverable k t.read_ret) (hbudget : s.error_count + 1 < 10) :
    ∃ s1, iteration k t s = Step.next s1 ∧ written s1.log = written s.log ∧
      s1.error_count = s.error_count + 1 ∧ s1.error = s.error := by
  obtain ⟨hneg, hd, hr⟩ := hrec
  have hb : (update_bitrate t (handle_seek t
      ((s.call (Ev.check_stop t.stop)).call (Ev.check_seek t.seek)))).outbuf = [] := by
    rw [update_bitrate_outbuf, handle_seek_outbuf]
    rcases hempty with h | h
    · simp [h]
    · simp [h]
  have hit : iteration k t s = read_or_write k t (update_bitrate t (handle_seek t
      ((s.call (Ev.check_stop t.stop)).call (Ev.check_seek t.seek)))) := by
    simp [iteration, hstop]
  have hcnt : (update_bitrate t (handle_seek t
      ((s.call (Ev.check_stop t.stop)).call (Ev.check_seek t.seek)))).error_count
      = s.error_count := by simp
  have herr : (update_bitrate t (handle_seek t
      ((s.call (Ev.check_stop t.stop)).call (Ev.check_seek t.seek)))).error = s.error := by simp
  have hwr : written (update_bitrate t (handle_seek t
      ((s.call (Ev.check_stop t.stop)).call (Ev.check_seek t.seek)))).log
      = written s.log := by simp [written]
  generalize update_bitrate t (handle_seek t
      ((s.call (Ev.check_stop t.stop)).call (Ev.check_seek t.seek))) = sb
    at hb hit hcnt herr hwr
  have hne : ¬ (t.read_ret = k.MPG123_DONE ∨ t.read_ret = k.MPG123_ERR_READER) := by
    rintro (h | h)
    · exact hd h
    · exact hr h
  have hc : ¬ 10 ≤ sb.error_count + 1 := by omega
  have hstep : iteration k t s = Step.next
      { ({ sb.call (Ev.mpg123_read t.read_ret t.read_data) with
            outbuf := t.read_data }.call Ev.print_mpg123_error) with
          error_count := sb.error_count + 1 } := by
    rw [hit]
    simp only [read_or_write]
    rw [if_pos hb, if_pos hneg, if_neg hne]
    simp only [State.call]
    rw [if_neg hc]
  refine ⟨_, hstep, ?_, ?_, ?_⟩
  · simp [State.call, written, hwr]
  · simp [State.call, hcnt]
  · simp [State.call, herr]

end MPG123Plugin

/-- C3, witness: a session of each plugin that ends with a stop request has
returned true with its resources released once. -/
theorem resources_released_exactly_once_witness :
    (MPG123Plugin.play MPG123Plugin.sample_codes MPG123Plugin.sample_setup
      [MPG123Plugin.good_tick [3], MPG123Plugin.stop_tick]).result = some true ∧
    (MPG123Plugin.play MPG123Plugin.sample_codes MPG123Plugin.sample_setup
      [MPG123Plugin.good_tick [3], MPG123Plugin.stop_tick]).final.log.count
        MPG123Plugin.Ev.mpg123_delete = 1 ∧
    (AdPlugXMMS.play (AdPlugXMMS.sample_player 100 ⟨70, 1⟩) AdPlugXMMS.default_conf "a.rad"
      ⟨0, none⟩ (some 0) 20 [AdPlugXMMS.plain_tick, AdPlugXMMS.stop_tick]).result
      = some true ∧
    (AdPlugXMMS.play (AdPlugXMMS.sample_player 100 ⟨70, 1⟩) AdPlugXMMS.default_conf "a.rad"
      ⟨0, none⟩ (some 0) 20 [AdPlugXMMS.plain_tick, AdPlugXMMS.stop_tick]).log.count
        AdPlugXMMS.Ev.free_sndbuf = 1 :=
  have h := resources_released_exactly_once MPG123Plugin.sample_codes
    MPG123Plugin.sample_setup [MPG123Plugin.good_tick [3], MPG123Plugin.stop_tick]
    (AdPlugXMMS.sample_player 100 ⟨70, 1⟩) AdPlugXMMS.default_conf "a.rad" ⟨0, none⟩ 0 20
    [AdPlugXMMS.plain_tick, AdPlugXMMS.stop_tick]
  ⟨by decide, h.1.2, by decide, h.2.1.2.1⟩

/-- C10: in both playback loops a pass whose stop poll answers true leaves the
loop having made no other call (no seek poll, no read or player update, no
write), and every pass polls the stop signal exactly once.  For `AdPlugXMMS`
a pass is an execution of the loop body, entered when `playing || conf.endless`
holds, and the count is for passes that come to an end. -/
theorem stop_poll_ends_pass (k : MPG123Plugin.Codes) (t : MPG123Plugin.Tick)
    (s : MPG123Plugin.State) {σ : Type} (P : AdPlugXMMS.CPlayer σ) (sampsize : Int)
    (subsong fuel : Nat) (ta : AdPlugXMMS.Tick) (sa : AdPlugXMMS.State σ) :
    (t.stop = true → MPG123Plugin.iteration k t s
      = MPG123Plugin.Step.exit (s.call (MPG123Plugin.Ev.check_stop true))) ∧
    MPG123Plugin.stop_polls (MPG123Plugin.iteration k t s).state.log
      = MPG123Plugin.stop_polls s.log + 1 ∧
    (ta.stop = true → (sa.playing || ta.conf.endless) = true →
      AdPlugXMMS.iteration P sampsize subsong fuel ta sa
        = some (AdPlugXMMS.Step.exit (sa.call (AdPlugXMMS.Ev.check_stop true)))) ∧
    (∀ st, AdPlugXMMS.iteration P sampsize subsong fuel ta sa = some st →
      (sa.playing || ta.conf.endless) = true →
      AdPlugXMMS.stop_polls st.state.log = AdPlugXMMS.stop_polls sa.log + 1) := by
  refine ⟨MPG123Plugin.iteration_stop k t s, MPG123Plugin.iteration_stop_polls k t s, ?_, ?_⟩
  · intro hs hc
    simp [AdPlugXMMS.iteration, hs, hc]
  · intro st h hc
    rcases AdPlugXMMS.iteration_shape P sampsize subsong fuel ta sa st h with
      ⟨hc0, -⟩ | ⟨-, -, rfl⟩ | ⟨-, -, l, s2, rfl, hl, hin⟩
    · rw [hc] at hc0
      exact Bool.noConfusion hc0
    · simp [AdPlugXMMS.Step.state, AdPlugXMMS.stop_polls]
    · simp only [AdPlugXMMS.Step.state, AdPlugXMMS.adplug_call_log, AdPlugXMMS.stop_polls, hl]
      rw [AdPlugXMMS.stop_polls_inner l _ hin]
      simp [AdPlugXMMS.stop_polls]

/-- C10, witness: a stop answer ends the pass of either loop although a seek
request is pending. -/
theorem stop_poll_ends_pass_witness :
    MPG123Plugin.stop_tick.stop = true ∧
    MPG123Plugin.iteration MPG123Plugin.sample_codes MPG123Plugin.stop_tick
      MPG123Plugin.stale_state
      = MPG123Plugin.Step.exit
          (MPG123Plugin.stale_state.call (MPG123Plugin.Ev.check_stop true)) ∧
    AdPlugXMMS.stop_tick.stop = true ∧
    AdPlugXMMS.iteration (AdPlugXMMS.sample_player 100 ⟨70, 1⟩) 2 0 20 AdPlugXMMS.stop_tick
      AdPlugXMMS.late_state
      = some (AdPlugXMMS.Step.exit
          (AdPlugXMMS.late_state.call (AdPlugXMMS.Ev.check_stop true))) :=
  ⟨by decide,
   (stop_poll_ends_pass MPG123Plugin.sample_codes MPG123Plugin.stop_tick
      MPG123Plugin.stale_state (AdPlugXMMS.sample_player 100 ⟨70, 1⟩) 2 0 20
      AdPlugXMMS.stop_tick AdPlugXMMS.late_state).1 (by decide),
   by decide,
   (stop_poll_ends_pass MPG123Plugin.sample_codes MPG123Plugin.stop_tick
      MPG123Plugin.stale_state (AdPlugXMMS.sample_player 100 ⟨70, 1⟩) 2 0 20
      AdPlugXMMS.stop_tick AdPlugXMMS.late_state).2.2.1 (by decide) (by decide)⟩

namespace MPG123Plugin

/-! ### A format change reported by the read -/

/-- C11, evaluation at the failing input.  During the initial negotiation a
read that returns MPG123_NEW_FORMAT sends control back to `mpg123_getformat`
and the counter stays at zero.  In the main loop the same result takes the
error path of lines 388-394: the error is printed, the counter goes to 1, and
`mpg123_getformat` is not called again (it was called once, before the loop);
ten such reads in a row make `play` return false. -/
theorem new_format_counted_as_error :
    (format_queries (play sample_codes renegotiating_setup []).final.log = 2 ∧
     (play sample_codes renegotiating_setup []).final.error_count = 0 ∧
     (play sample_codes renegotiating_setup []).final.rate = 48000) ∧
    new_format_tick.read_ret = sample_codes.MPG123_NEW_FORMAT ∧
    (play sample_codes sample_setup [good_tick [3], new_format_tick]).final.error_count = 1 ∧
    (play sample_codes sample_setup [good_tick [3], new_format_tick]).final.log.head?
      = some Ev.print_mpg123_error ∧
    format_queries (play sample_codes sample_setup [good_tick [3], new_format_tick]).final.log
      = 1 ∧
    (play sample_codes sample_setup
      (good_tick [3] :: List.replicate 10 new_format_tick)).result = some false := by
  decide

/-! ### The seek request -/

theorem wrap64_of_range (x : Int) (h0 : 0 ≤ x) (h1 : x < 2 ^ 63) : wrap64 x = x := by
  unfold wrap64
  rw [Int.emod_eq_of_lt (by omega) (by omega)]
  omega

theorem seek_offset_exact (T R : Int) (hT0 : 0 ≤ T) (hT : T < 2 ^ 31) (hR0 : 0 < R)
    (hR : R < 2 ^ 32) : seek_offset T R = Int.tdiv (T * R) 1000 ∧
      seek_offset T R = T * R / 1000 ∧ 0 ≤ T * R ∧ T * R < 2 ^ 63 := by
  have h0 : 0 ≤ T * R := Int.mul_nonneg hT0 hR0.le
  have h1 : T * R < 2 ^ 63 := by nlinarith
  refine ⟨?_, ?_, h0, h1⟩
  · unfold seek_offset
    rw [wrap64_of_range _ h0 h1]
  · unfold seek_offset
    rw [wrap64_of_range _ h0 h1, Int.tdiv_eq_ediv h0 (by norm_num)]

theorem handle_seek_log (t : Tick) (s : State) (h : 0 ≤ t.seek) :
    Ev.mpg123_seek (seek_offset t.seek s.rate) t.seek_ret ∈ (handle_seek t s).log := by
  unfold handle_seek
  rw [if_pos h]
  split <;> simp

/-- C12: for a seek target `0 <= T < 2^31` and a sample rate `0 < R < 2^32`
(every rate that `set_format` allows is in this range) the product `T * R`
lies in the range of `int64_t`, and the offset handed to `mpg123_seek` in the
pass that consumes the request is `T * R / 1000`, rounded toward zero. -/
theorem seek_offset_is_truncated_quotient (t : Tick) (s : State)
    (hT0 : 0 ≤ t.seek) (hT : t.seek < 2 ^ 31) (hR0 : 0 < s.rate) (hR : s.rate < 2 ^ 32) :
    Ev.mpg123_seek (Int.tdiv (t.seek * s.rate) 1000) t.seek_ret ∈ (handle_seek t s).log ∧
    Int.tdiv (t.seek * s.rate) 1000 = t.seek * s.rate / 1000 ∧
    seek_offset t.seek s.rate = Int.tdiv (t.seek * s.rate) 1000 ∧
    (0 ≤ t.seek * s.rate ∧ t.seek * s.rate < 2 ^ 63) ∧
    (∀ r ∈ set_format_rates, 0 < r ∧ r < 2 ^ 32) := by
  obtain ⟨h1, h2, h3, h4⟩ := seek_offset_exact t.seek s.rate hT0 hT hR0 hR
  refine ⟨?_, ?_, h1, ⟨h3, h4⟩, by decide⟩
  · rw [← h1]
    exact handle_seek_log t s hT0
  · rw [← h1, h2]

/-- C12, witness: a seek to 1000 ms at 44100 Hz asks for sample 44100. -/
theorem seek_offset_is_truncated_quotient_witness :
    (0 ≤ seek_tick.seek ∧ seek_tick.seek < 2 ^ 31 ∧ 0 < stale_state.rate ∧
      stale_state.rate < 2 ^ 32) ∧
    Ev.mpg123_seek 44100 0 ∈ (handle_seek seek_tick stale_state).log ∧
    seek_offset (2 ^ 31 - 1) 48000 = 103079215056 :=
  ⟨by decide,
   (seek_offset_is_truncated_quotient seek_tick stale_state (by decide) (by decide)
      (by decide) (by decide)).1,
   by decide⟩

@[simp] theorem write_branch_written (s : State) :
    written (write_branch s).log = s.outbuf :: written s.log := by
  simp [write_branch, written]

/-- A pass that consumes a seek request and whose read succeeds makes exactly
one read and writes its block. -/
theorem iteration_seek_reads_once (k : Codes) (t : Tick) (s : State)
    (hstop : t.stop = false) (hseek : 0 ≤ t.seek) (hread : 0 ≤ t.read_ret) :
    ∃ s1, iteration k t s = Step.next s1 ∧
      read_rets s1.log = t.read_ret :: read_rets s.log ∧
      written s1.log = t.read_data :: written s.log ∧
      s1.log.head? = some (Ev.write_audio t.read_data) ∧ s1.outbuf = [] := by
  have hb : (update_bitrate t (handle_seek t
      ((s.call (Ev.check_stop false)).call (Ev.check_seek t.seek)))).outbuf = [] := by
    simp [handle_seek_outbuf, hseek]
  have hr : read_rets (update_bitrate t (handle_seek t
      ((s.call (Ev.check_stop false)).call (Ev.check_seek t.seek)))).log = read_rets s.log := by
    simp [read_rets]
  have hw : written (update_bitrate t (handle_seek t
      ((s.call (Ev.check_stop false)).call (Ev.check_seek t.seek)))).log = written s.log := by
    simp [written]
  have hn : ¬ t.read_ret < 0 := by omega
  refine ⟨write_branch { (update_bitrate t (handle_seek t ((s.call (Ev.check_stop false)).call
      (Ev.check_seek t.seek)))).call (Ev.mpg123_read t.read_ret t.read_data) with
      outbuf := t.read_data }, ?_, ?_, ?_, ?_, ?_⟩
  · simp only [iteration, hstop, Bool.false_eq_true, if_false, read_or_write]
    rw [if_pos hb, if_neg hn]
  · simp [read_rets, hr]
  · simp [written, hw]
  · simp [write_branch]
  · simp [write_branch]

/-- C13 (amended): when `mpg123_seek` fails in a pass that consumes a seek
request, the error is printed and the staging buffer emptied, and the pass
goes on like any other: it makes one read and, when that read succeeds, hands
its block to `write_audio` in the same pass.  Nothing is decoded and
discarded. -/
theorem failed_seek_continues_decoding (k : Codes) (t : Tick) (s : State)
    (hstop : t.stop = false) (hseek : 0 ≤ t.seek) (hfail : t.seek_ret < 0)
    (hread : 0 ≤ t.read_ret) :
    Ev.print_mpg123_error ∈ (handle_seek t s).log ∧ (handle_seek t s).outbuf = [] ∧
    ∃ s1, iteration k t s = Step.next s1 ∧
      read_rets s1.log = t.read_ret :: read_rets s.log ∧
      written s1.log = t.read_data :: written s.log ∧
      s1.log.head? = some (Ev.write_audio t.read_data) := by
  refine ⟨?_, by simp [handle_seek_outbuf, hseek], ?_⟩
  · simp [handle_seek, hseek, hfail]
  · obtain ⟨s1, h1, h2, h3, h4, -⟩ := iteration_seek_reads_once k t s hstop hseek hread
    exact ⟨s1, h1, h2, h3, h4⟩

/-- C13, witness: after a failed seek to 1000 ms the two bytes read next are
written. -/
theorem failed_seek_continues_decoding_witness :
    (failed_seek_tick.stop = false ∧ 0 ≤ failed_seek_tick.seek ∧
      failed_seek_tick.seek_ret < 0 ∧ 0 ≤ failed_seek_tick.read_ret) ∧
    Ev.print_mpg123_error ∈ (handle_seek failed_seek_tick stale_state).log ∧
    (handle_seek failed_seek_tick stale_state).outbuf = [] :=
  ⟨by decide,
   (failed_seek_continues_decoding sample_codes failed_seek_tick stale_state (by decide)
      (by decide) (by decide) (by decide)).1,
   (failed_seek_continues_decoding sample_codes failed_seek_tick stale_state (by decide)
      (by decide) (by decide) (by decide)).2.1⟩

/-- C13, counterexample: the calls of a pass whose seek to 1000 ms fails, in
the order made.  After the failure comes one read, and the block it stores is
handed to `write_audio`: no unit is decoded and discarded.  A target of
2000000 ms gives the same single read and the same write. -/
theorem failed_seek_has_no_fast_forward :
    (iteration sample_codes failed_seek_tick stale_state).state.log.reverse =
      [Ev.check_stop false, Ev.check_seek 1000, Ev.mpg123_seek 44100 (-1),
       Ev.print_mpg123_error, Ev.mpg123_info, Ev.mpg123_read 0 [4, 5],
       Ev.write_audio [4, 5]] ∧
    (iteration sample_codes { failed_seek_tick with seek := 2000000 }
        stale_state).state.log.reverse =
      [Ev.check_stop false, Ev.check_seek 2000000, Ev.mpg123_seek 88200000 (-1),
       Ev.print_mpg123_error, Ev.mpg123_info, Ev.mpg123_read 0 [4, 5],
       Ev.write_audio [4, 5]] := by
  decide

/-! ### A failed seek is not an error -/

theorem handle_seek_vars (t u : Tick) (s : State) (hseek : t.seek = u.seek) :
    (handle_seek t s).vars = (handle_seek u s.vars).vars := by
  unfold handle_seek
  rw [← hseek]
  by_cases h0 : 0 ≤ t.seek
  · simp only [if_pos h0]
    by_cases h1 : t.seek_ret < 0 <;> by_cases h2 : u.seek_ret < 0 <;>
      simp [h1, h2, State.vars, State.call]
  · simp [if_neg h0, State.vars]

theorem update_bitrate_vars (t u : Tick) (s : State) (hfi : t.fi_bitrate = u.fi_bitrate) :
    (update_bitrate t s).vars = (update_bitrate u s.vars).vars := by
  simp only [update_bitrate]
  rw [← hfi]
  by_cases h : Int.tdiv (s.bitrate_sum + t.fi_bitrate) (s.bitrate_count + 1) ≠ s.bitrate ∧
      16 ≤ s.bitrate_count + 1
  · have h2 : Int.tdiv (s.vars.bitrate_sum + t.fi_bitrate) (s.vars.bitrate_count + 1)
        ≠ s.vars.bitrate ∧ 16 ≤ s.vars.bitrate_count + 1 := h
    simp only [call_error, State.call] at h h2 ⊢
    rw [if_pos h, if_pos h2]
    simp [State.vars]
  · have h2 : ¬ (Int.tdiv (s.vars.bitrate_sum + t.fi_bitrate) (s.vars.bitrate_count + 1)
        ≠ s.vars.bitrate ∧ 16 ≤ s.vars.bitrate_count + 1) := h
    simp only [call_error, State.call] at h h2 ⊢
    rw [if_neg h, if_neg h2]
    simp [State.vars]

theorem read_or_write_vars (k : Codes) (t u : Tick) (s : State)
    (hret : t.read_ret = u.read_ret) (hdata : t.read_data = u.read_data) :
    (read_or_write k t s).vars = (read_or_write k u s.vars).vars := by
  unfold read_or_write
  rw [← hret, ← hdata]
  by_cases hb : s.outbuf = []
  · have hb2 : s.vars.outbuf = [] := hb
    rw [if_pos hb, if_pos hb2]
    by_cases hneg : t.read_ret < 0
    · simp only [hneg, if_true]
      by_cases hne : t.read_ret = k.MPG123_DONE ∨ t.read_ret = k.MPG123_ERR_READER
      · rw [if_pos hne, if_pos hne]
        simp [Step.vars, State.vars, State.call]
      · rw [if_neg hne, if_neg hne]
        by_cases hc : 10 ≤ s.error_count + 1
        · simp [hc, Step.vars, State.vars, State.call]
        · simp [hc, Step.vars, State.vars, State.call]
    · simp only [hneg, if_false]
      simp [Step.vars, State.vars, State.call, write_branch]
  · have hb2 : ¬ s.vars.outbuf = [] := hb
    rw [if_neg hb, if_neg hb2]
    simp [Step.vars, State.vars, State.call, write_branch]

@[simp] theorem call_vars (s : State) (e : Ev) : (s.call e).vars = s.vars := rfl

@[simp] theorem vars_vars (s : State) : s.vars.vars = s.vars := rfl

theorem read_or_write_congr (k : Codes) (t : Tick) (s r : State) (h : s.vars = r.vars) :
    (read_or_write k t s).vars = (read_or_write k t r).vars := by
  rw [read_or_write_vars k t t s rfl rfl, read_or_write_vars k t t r rfl rfl, h]

theorem update_bitrate_congr (t : Tick) (s r : State) (h : s.vars = r.vars) :
    (update_bitrate t s).vars = (update_bitrate t r).vars := by
  rw [update_bitrate_vars t t s rfl, update_bitrate_vars t t r rfl, h]

/-- Apart from the log, a pass does not depend on the result of
`mpg123_seek`. -/
theorem iteration_vars (k : Codes) (t u : Tick) (s r : State)
    (htu : same_but_seek_ret t u) (hsr : s.vars = r.vars) :
    (iteration k t s).vars = (iteration k u r).vars := by
  obtain ⟨h1, h2, h3, h4, h5⟩ := htu
  simp only [iteration]
  rw [← h1]
  by_cases hs : t.stop = true
  · simp only [hs, if_true, Step.vars, call_vars, hsr]
  · have hf : t.stop = false := by simpa using hs
    simp only [hf, Bool.false_eq_true, if_false]
    have e1 : (handle_seek t ((s.call (Ev.check_stop false)).call (Ev.check_seek t.seek))).vars
        = (handle_seek u ((r.call (Ev.check_stop false)).call (Ev.check_seek u.seek))).vars := by
      rw [handle_seek_vars t u _ h2, handle_seek_vars u u
        ((r.call (Ev.check_stop false)).call (Ev.check_seek u.seek)) rfl]
      simp [hsr]
    have e2 := update_bitrate_congr t _ _ e1
    rw [update_bitrate_vars t u (handle_seek u _) h3,
      ← update_bitrate_vars u u (handle_seek u _) rfl] at e2
    have e3 := read_or_write_congr k t _ _ e2
    rw [e3, read_or_write_vars k t u _ h4 h5, ← read_or_write_vars k u u _ rfl rfl]

theorem main_loop_vars (k : Codes) (ts us : List Tick) (s r : State)
    (h : List.Forall₂ same_but_seek_ret ts us) (hsr : s.vars = r.vars) :
    (main_loop k ts s).vars = (main_loop k us r).vars := by
  induction h generalizing s r with
  | nil => simp [main_loop, Step.vars, hsr]
  | @cons t u ts us htu _ ih =>
    have hit := iteration_vars k t u s r htu hsr
    simp only [main_loop]
    cases h1 : iteration k t s with
    | exit s1 =>
      cases h2 : iteration k u r with
      | exit r1 => rw [h1, h2] at hit; simpa using hit
      | next r1 => rw [h1, h2] at hit; simp [Step.vars] at hit
    | next s1 =>
      cases h2 : iteration k u r with
      | exit r1 => rw [h1, h2] at hit; simp [Step.vars] at hit
      | next r1 =>
        rw [h1, h2] at hit
        simp only [Step.vars, Step.next.injEq] at hit
        exact ih s1 r1 hit

theorem finish_vars (a b : Step) (h : a.vars = b.vars) :
    (finish a).result = (finish b).result ∧ (finish a).final.vars = (finish b).final.vars := by
  cases a <;> cases b <;> simp [Step.vars] at h
  · simp [finish, h]
  · simp only [State.vars, State.mk.injEq, and_true] at h
    obtain ⟨e1, e2, e3, e4, e5, e6, e7, e8⟩ := h
    simp [finish, cleanup, State.vars, State.call, e1, e2, e3, e4, e5, e6, e7, e8]

/-- C14: a failed seek is not surfaced as a playback error.  The handling of a
seek request leaves the error flag and the consecutive-error counter as they
were and has no exit from the loop; and two runs of `play` that differ only in
the results of their `mpg123_seek` calls return alike (both true, both false,
or both still running) with the same error flag and the same counter, so that
a failing seek by itself never makes `play` return false. -/
theorem failed_seek_is_not_an_error (k : Codes) (su : Setup) (ts us : List Tick)
    (h : List.Forall₂ same_but_seek_ret ts us) :
    (∀ (t : Tick) (s : State),
      (handle_seek t s).error = s.error ∧ (handle_seek t s).error_count = s.error_count) ∧
    (play k su ts).result = (play k su us).result ∧
    (play k su ts).final.error = (play k su us).final.error ∧
    (play k su ts).final.error_count = (play k su us).final.error_count := by
  refine ⟨fun t s => ⟨handle_seek_error t s, handle_seek_error_count t s⟩, ?_⟩
  have key : (play k su ts).result = (play k su us).result ∧
      (play k su ts).final.vars = (play k su us).final.vars := by
    simp only [play]
    cases hs : setup k su with
    | pending s => simp
    | open_error s => simp
    | ok s => exact finish_vars _ _ (main_loop_vars k ts us s s h rfl)
  refine ⟨key.1, ?_, ?_⟩
  · have := congrArg State.error key.2
    simpa [State.vars] using this
  · have := congrArg State.error_count key.2
    simpa [State.vars] using this

/-- C14, witness: a session whose seek fails and the same session with the
seek succeeding both return true after the stop request. -/
theorem failed_seek_is_not_an_error_witness :
    List.Forall₂ same_but_seek_ret [good_tick [3], failed_seek_tick, stop_tick]
      [good_tick [3], seek_tick, stop_tick] ∧
    (play sample_codes sample_setup [good_tick [3], failed_seek_tick, stop_tick]).result
      = (play sample_codes sample_setup [good_tick [3], seek_tick, stop_tick]).result ∧
    (play sample_codes sample_setup [good_tick [3], failed_seek_tick, stop_tick]).result
      = some true :=
  ⟨List.Forall₂.cons (by decide) (List.Forall₂.cons (by decide)
      (List.Forall₂.cons (by decide) List.Forall₂.nil)),
   (failed_seek_is_not_an_error sample_codes sample_setup
      [good_tick [3], failed_seek_tick, stop_tick] [good_tick [3], seek_tick, stop_tick]
      (List.Forall₂.cons (by decide) (List.Forall₂.cons (by decide)
        (List.Forall₂.cons (by decide) List.Forall₂.nil)))).2.1,
   by decide⟩

end MPG123Plugin

namespace AdPlugXMMS

/-! ### The elapsed time counts player updates -/

@[simp] theorem successful_updates_true (l : List Ev) :
    successful_updates (Ev.update true :: l) = successful_updates l + 1 := rfl

@[simp] theorem successful_updates_false (l : List Ev) :
    successful_updates (Ev.update false :: l) = successful_updates l := rfl

theorem seek_loop_elapsed {σ : Type} (P : CPlayer σ) (r : CFloat)
    (hconst : ∀ p, P.getrefresh p = r) (fuel : Nat) (seek : Int) (s s1 : State σ)
    (h : seek_loop P fuel seek s = some s1) :
    s1.time - ms_per_update r * (successful_updates s1.log : Int)
      = s.time - ms_per_update r * (successful_updates s.log : Int) := by
  induction fuel generalizing s with
  | zero =>
    simp only [seek_loop] at h
    split at h
    · simp at h
    · simp only [Option.some.injEq] at h
      subst h
      rfl
  | succ n ih =>
    simp only [seek_loop] at h
    split at h
    · by_cases hu : (P.update s.p).1 = true
      · rw [if_pos hu] at h
        have := ih _ h
        rw [this]
        simp only [adplug_call_time, adplug_call_p, adplug_call_log, hu, hconst,
          successful_updates_true]
        push_cast
        ring
      · rw [if_neg hu] at h
        simp only [Option.some.injEq] at h
        subst h
        have hf : (P.update s.p).1 = false := by simpa using hu
        simp [hf]
    · simp only [Option.some.injEq] at h
      subst h
      rfl

theorem top_up_elapsed {σ : Type} (P : CPlayer σ) (r : CFloat)
    (hconst : ∀ p, P.getrefresh p = r) (freq : Int) (fuel : Nat) (s s1 : State σ)
    (h : top_up P freq fuel s = some s1) :
    s1.time - ms_per_update r * (successful_updates s1.log : Int)
      = s.time - ms_per_update r * (successful_updates s.log : Int) := by
  induction fuel generalizing s with
  | zero =>
    simp only [top_up] at h
    split at h
    · simp at h
    · simp only [Option.some.injEq] at h
      subst h
      rfl
  | succ n ih =>
    simp only [top_up] at h
    split at h
    · have := ih _ h
      rw [this]
      by_cases hu : (P.update s.p).1 = true
      · simp only [hu, if_true, adplug_call_time, adplug_call_p, adplug_call_log, hconst,
          successful_updates_true]
        push_cast
        ring
      · have hf : (P.update s.p).1 = false := by simpa using hu
        simp [hf]
    · simp only [Option.some.injEq] at h
      subst h
      rfl

theorem fill_elapsed {σ : Type} (P : CPlayer σ) (r : CFloat)
    (hconst : ∀ p, P.getrefresh p = r) (freq : Int) (fuel : Nat) (towrite : Int)
    (s s1 : State σ) (h : fill P freq fuel towrite s = some s1) :
    s1.time - ms_per_update r * (successful_updates s1.log : Int)
      = s.time - ms_per_update r * (successful_updates s.log : Int) := by
  induction fuel generalizing s towrite with
  | zero =>
    simp only [fill] at h
    split at h
    · simp at h
    · simp only [Option.some.injEq] at h
      subst h
      rfl
  | succ n ih =>
    simp only [fill] at h
    split at h
    · cases ht : top_up P freq (n + 1) s with
      | none => simp [ht] at h
      | some s2 =>
        simp only [ht] at h
        have h1 := top_up_elapsed P r hconst freq (n + 1) s s2 ht
        have h2 := ih _ _ h
        rw [h2, ← h1]
        simp [successful_updates]
    · simp only [Option.some.injEq] at h
      subst h
      rfl

theorem iteration_elapsed {σ : Type} (P : CPlayer σ) (r : CFloat)
    (hconst : ∀ p, P.getrefresh p = r) (sampsize : Int) (subsong fuel : Nat)
    (t : Tick) (s : State σ) (st : Step σ) (hseek : t.seek = -1)
    (h : iteration P sampsize subsong fuel t s = some st) :
    st.state.time - ms_per_update r * (successful_updates st.state.log : Int)
      = s.time - ms_per_update r * (successful_updates s.log : Int) := by
  simp only [iteration, hseek, handle_seek] at h
  split at h
  · simp only [Option.some.injEq] at h
    subst h
    rfl
  · split at h
    · simp only [Option.some.injEq] at h
      subst h
      simp [Step.state, successful_updates]
    · simp only [ne_eq, not_true_eq_false, if_false] at h
      cases hf : fill P t.conf.freq fuel SNDBUFSIZE
          ((s.call (Ev.check_stop t.stop)).call (Ev.check_seek (-1))) with
      | none => simp [hf] at h
      | some s2 =>
        simp only [hf, Option.some.injEq] at h
        subst h
        have := fill_elapsed P r hconst _ _ _ _ s2 hf
        simp only [Step.state, adplug_call_time, adplug_call_log, successful_updates] at this ⊢
        exact this

theorem main_loop_elapsed {σ : Type} (P : CPlayer σ) (r : CFloat)
    (hconst : ∀ p, P.getrefresh p = r) (sampsize : Int) (subsong fuel : Nat)
    (ts : List Tick) (s : State σ) (st : Step σ) (hseek : ∀ t ∈ ts, t.seek = -1)
    (h : main_loop P sampsize subsong fuel ts s = some st) :
    st.state.time - ms_per_update r * (successful_updates st.state.log : Int)
      = s.time - ms_per_update r * (successful_updates s.log : Int) := by
  induction ts generalizing s with
  | nil =>
    simp only [main_loop, Option.some.injEq] at h
    subst h
    rfl
  | cons t ts ih =>
    simp only [main_loop] at h
    cases hi : iteration P sampsize subsong fuel t s with
    | none => simp [hi] at h
    | some st1 =>
      have h1 := iteration_elapsed P r hconst sampsize subsong fuel t s st1
        (hseek t (List.mem_cons_self _ _)) hi
      cases st1 with
      | exit s1 =>
        simp only [hi, Option.some.injEq] at h
        subst h
        exact h1
      | next s1 =>
        simp only [hi] at h
        have h2 := ih s1 (fun u hu => hseek u (List.mem_cons_of_mem _ hu)) h
        simp only [Step.state] at h1
        rw [h2, h1]

theorem clock_append {σ : Type} (P : CPlayer σ) (l2 l1 : List Ev) (st : σ × Int) :
    clock P (l2 ++ l1) st = clock P l2 (clock P l1 st) := by
  simp only [clock, List.foldr_append]

theorem seek_loop_clock {σ : Type} (P : CPlayer σ) (fuel : Nat) (seek : Int)
    (s s1 : State σ) (h : seek_loop P fuel seek s = some s1) :
    ∃ l, s1.log = l ++ s.log ∧ clock P l (s.p, s.time) = (s1.p, s1.time) := by
  induction fuel generalizing s with
  | zero =>
    simp only [seek_loop] at h
    split at h
    · simp at h
    · simp only [Option.some.injEq] at h
      subst h
      exact ⟨[], rfl, rfl⟩
  | succ n ih =>
    simp only [seek_loop] at h
    split at h
    · by_cases hu : (P.update s.p).1 = true
      · rw [if_pos hu] at h
        obtain ⟨l, hl, hc⟩ := ih _ h
        refine ⟨l ++ [Ev.update (P.update s.p).1], ?_, ?_⟩
        · rw [hl]
          simp [State.call]
        · rw [clock_append, ← hc]
          simp [clock, tick_clock, State.call, hu]
      · rw [if_neg hu] at h
        simp only [Option.some.injEq] at h
        subst h
        refine ⟨[Ev.update (P.update s.p).1], by simp [State.call], ?_⟩
        simp [clock, tick_clock, State.call, hu]
    · simp only [Option.some.injEq] at h
      subst h
      exact ⟨[], rfl, rfl⟩

theorem handle_seek_clock {σ : Type} (P : CPlayer σ) (subsong fuel : Nat) (seek : Int)
    (s s1 : State σ) (h : handle_seek P subsong fuel seek s = some s1) :
    ∃ l, s1.log = l ++ s.log ∧ clock P l (s.p, s.time) = (s1.p, s1.time) := by
  simp only [handle_seek] at h
  split at h
  · by_cases hb : seek < s.time
    · rw [if_pos hb] at h
      obtain ⟨l, hl, hc⟩ := seek_loop_clock P fuel seek _ s1 h
      refine ⟨l ++ [Ev.rewind subsong], ?_, ?_⟩
      · rw [hl]
        simp [State.call]
      · rw [clock_append, ← hc]
        simp [clock, tick_clock, State.call]
    · rw [if_neg hb] at h
      exact seek_loop_clock P fuel seek s s1 h
  · simp only [Option.some.injEq] at h
    subst h
    exact ⟨[], rfl, rfl⟩

theorem top_up_clock {σ : Type} (P : CPlayer σ) (freq : Int) (fuel : Nat)
    (s s1 : State σ) (h : top_up P freq fuel s = some s1) :
    ∃ l, s1.log = l ++ s.log ∧ clock P l (s.p, s.time) = (s1.p, s1.time) := by
  induction fuel generalizing s with
  | zero =>
    simp only [top_up] at h
    split at h
    · simp at h
    · simp only [Option.some.injEq] at h
      subst h
      exact ⟨[], rfl, rfl⟩
  | succ n ih =>
    simp only [top_up] at h
    split at h
    · obtain ⟨l, hl, hc⟩ := ih _ h
      refine ⟨l ++ [Ev.update (P.update s.p).1], ?_, ?_⟩
      · rw [hl]
        split <;> simp [State.call]
      · rw [clock_append, ← hc]
        by_cases hu : (P.update s.p).1 = true
        · simp [clock, tick_clock, State.call, hu]
        · simp [clock, tick_clock, State.call, hu]
    · simp only [Option.some.injEq] at h
      subst h
      exact ⟨[], rfl, rfl⟩

theorem fill_clock {σ : Type} (P : CPlayer σ) (freq : Int) (fuel : Nat) (towrite : Int)
    (s s1 : State σ) (h : fill P freq fuel towrite s = some s1) :
    ∃ l, s1.log = l ++ s.log ∧ clock P l (s.p, s.time) = (s1.p, s1.time) := by
  induction fuel generalizing s towrite with
  | zero =>
    simp only [fill] at h
    split at h
    · simp at h
    · simp only [Option.some.injEq] at h
      subst h
      exact ⟨[], rfl, rfl⟩
  | succ n ih =>
    simp only [fill] at h
    split at h
    · cases ht : top_up P freq (n + 1) s with
      | none => simp [ht] at h
      | some s2 =>
        simp only [ht] at h
        obtain ⟨l1, hl1, hc1⟩ := top_up_clock P freq (n + 1) s s2 ht
        obtain ⟨l2, hl2, hc2⟩ := ih _ _ h
        refine ⟨l2 ++ Ev.opl_update (min towrite (chunk s2.toadd (P.getrefresh s2.p))) :: l1,
          ?_, ?_⟩
        · rw [hl2]
          simp [State.call, hl1]
        · rw [← hc2]
          rw [show l2 ++ Ev.opl_update (min towrite (chunk s2.toadd (P.getrefresh s2.p))) :: l1
            = l2 ++ ([Ev.opl_update (min towrite (chunk s2.toadd (P.getrefresh s2.p)))] ++ l1)
            by simp, clock_append, clock_append, hc1]
          simp [clock, tick_clock, State.call]
    · simp only [Option.some.injEq] at h
      subst h
      exact ⟨[], rfl, rfl⟩

theorem iteration_clock {σ : Type} (P : CPlayer σ) (sampsize : Int) (subsong fuel : Nat)
    (t : Tick) (s : State σ) (st : Step σ)
    (h : iteration P sampsize subsong fuel t s = some st) :
    ∃ l, st.state.log = l ++ s.log ∧ clock P l (s.p, s.time) = (st.state.p, st.state.time) := by
  simp only [iteration] at h
  split at h
  · simp only [Option.some.injEq] at h
    subst h
    exact ⟨[], rfl, rfl⟩
  · split at h
    · simp only [Option.some.injEq] at h
      subst h
      exact ⟨[Ev.check_stop t.stop], rfl, rfl⟩
    · cases hs : handle_seek P subsong fuel t.seek
          ((s.call (Ev.check_stop t.stop)).call (Ev.check_seek t.seek)) with
      | none => simp [hs] at h
      | some s1 =>
        simp only [hs] at h
        cases hf : fill P t.conf.freq fuel SNDBUFSIZE s1 with
        | none => simp [hf] at h
        | some s2 =>
          simp only [hf, Option.some.injEq] at h
          subst h
          obtain ⟨l1, hl1, hc1⟩ := handle_seek_clock P subsong fuel t.seek _ s1 hs
          obtain ⟨l2, hl2, hc2⟩ := fill_clock P t.conf.freq fuel SNDBUFSIZE s1 s2 hf
          refine ⟨Ev.write_audio (SNDBUFSIZE * sampsize) :: (l2 ++ (l1 ++
            [Ev.check_seek t.seek, Ev.check_stop t.stop])), ?_, ?_⟩
          · simp [Step.state, State.call, hl2, hl1]
          · have e1 : clock P [Ev.check_seek t.seek, Ev.check_stop t.stop] (s.p, s.time)
                = (s.p, s.time) := rfl
            have hc1' : clock P l1 (s.p, s.time) = (s1.p, s1.time) := hc1
            rw [show Ev.write_audio (SNDBUFSIZE * sampsize) :: (l2 ++ (l1 ++
                [Ev.check_seek t.seek, Ev.check_stop t.stop]))
              = [Ev.write_audio (SNDBUFSIZE * sampsize)] ++ (l2 ++ (l1 ++
                [Ev.check_seek t.seek, Ev.check_stop t.stop])) by rfl,
              clock_append, clock_append, clock_append, e1, hc1', hc2]
            rfl

theorem main_loop_clock {σ : Type} (P : CPlayer σ) (sampsize : Int) (subsong fuel : Nat)
    (ts : List Tick) (s : State σ) (st : Step σ)
    (h : main_loop P sampsize subsong fuel ts s = some st) :
    ∃ l, st.state.log = l ++ s.log ∧ clock P l (s.p, s.time) = (st.state.p, st.state.time) := by
  induction ts generalizing s with
  | nil =>
    simp only [main_loop, Option.some.injEq] at h
    subst h
    exact ⟨[], rfl, rfl⟩
  | cons t ts ih =>
    simp only [main_loop] at h
    cases hi : iteration P sampsize subsong fuel t s with
    | none => simp [hi] at h
    | some st1 =>
      obtain ⟨l1, hl1, hc1⟩ := iteration_clock P sampsize subsong fuel t s st1 hi
      cases st1 with
      | exit s1 =>
        simp only [hi, Option.some.injEq] at h
        subst h
        exact ⟨l1, hl1, hc1⟩
      | next s1 =>
        simp only [hi] at h
        obtain ⟨l, hl, hc⟩ := ih s1 h
        simp only [Step.state] at hl1 hc1
        refine ⟨l ++ l1, ?_, ?_⟩
        · rw [hl, hl1, List.append_assoc]
        · rw [clock_append, hc1, hc]


/-- C15 (amended): in `AdPlugXMMS::play` the elapsed-time counter is set by the
player calls alone.  Over any passes of the main loop, seeks included, the
player and the counter at the end are those that the calls logged in between
give when each update that reports the song as still playing adds
`(int) (1000 / refresh)` milliseconds, the `float` quotient for the refresh
rate reported after that update truncated toward zero, each rewind sets the
counter to 0 and no other call changes it: the frame count and the sample rate
do not enter and there is no error-corrected accumulator.  For a player with a
constant refresh rate `r` and passes without a seek request the counter grows
by the number of such updates times `(int) (1000 / r)`.  At 44100 / 512 Hz (one
update per 512 frames at 44100 Hz) each update contributes 11 ms and 100
updates 1100 ms; at `(float) (1000.0 / 7)` Hz the `float` quotient is 7 and
each update contributes 7 ms. -/
theorem time_counts_updates {σ : Type} (P : CPlayer σ) (sampsize : Int)
    (subsong fuel : Nat) (ts : List Tick) (s : State σ) (st : Step σ)
    (h : main_loop P sampsize subsong fuel ts s = some st) :
    (∃ l, st.state.log = l ++ s.log ∧
      clock P l (s.p, s.time) = (st.state.p, st.state.time)) ∧
    (∀ r, (∀ p, P.getrefresh p = r) → (∀ t ∈ ts, t.seek = -1) →
      st.state.time = s.time + ms_per_update r *
        ((successful_updates st.state.log : Int) - (successful_updates s.log : Int))) ∧
    ms_per_update block_rate = 11 ∧ 100 * ms_per_update block_rate = 1100 ∧
    ms_per_update seventh_rate = 7 := by
  refine ⟨main_loop_clock P sampsize subsong fuel ts s st h, ?_, by decide, by decide,
    by decide⟩
  intro r hconst hseek
  have := main_loop_elapsed P r hconst sampsize subsong fuel ts s st hseek h
  linear_combination this

/-- C15, witness: 100 passes on a player refreshing at 44100 / 512 Hz make 100
updates and take the counter from 0 to 1100 ms. -/
theorem time_counts_updates_witness :
    (main_loop (sample_player 1000 block_rate) 2 0 20 (List.replicate 100 plain_tick)
      fresh_state).map (fun st => (st.state.time, successful_updates st.state.log))
      = some (1100, 100) ∧
    ((main_loop (sample_player 1000 block_rate) 2 0 20 (List.replicate 100 plain_tick)
      fresh_state).getD (Step.next fresh_state)).state.time
      = fresh_state.time + ms_per_update block_rate *
        ((successful_updates ((main_loop (sample_player 1000 block_rate) 2 0 20
          (List.replicate 100 plain_tick) fresh_state).getD
            (Step.next fresh_state)).state.log : Int)
          - (successful_updates fresh_state.log : Int)) :=
  ⟨by decide!,
   (time_counts_updates (sample_player 1000 block_rate) 2 0 20
      (List.replicate 100 plain_tick) fresh_state
      ((main_loop (sample_player 1000 block_rate) 2 0 20 (List.replicate 100 plain_tick)
        fresh_state).getD (Step.next fresh_state))
      (by decide!)).2.1 block_rate (fun _ => rfl) (by decide)⟩

/-- C15, counterexample: at 44100 Hz with a player refreshing at 70 Hz, the
first unit of 512 frames takes the counter from 0 to 14 ms, not to
512 * 1000 / 44100 = 11 ms, and 100 such units take it to 1148 ms, not to
1100 ms.  With a player refreshing at 1000 Hz the first unit of 512 frames is
rendered in chunks of 4, eleven times 44, and 24 frames with an update before
each chunk but the first: every update adds 1 ms, 12 ms in all, although
44 * 1000 / 44100 = 0. -/
theorem unit_of_512_frames_is_not_11_ms :
    plain_tick.conf.freq = 44100 ∧ Int.tdiv (512 * 1000) 44100 = 11 ∧
    (main_loop (sample_player 1000 ⟨70, 1⟩) 2 0 20 [plain_tick] fresh_state).map
      (fun st => (st.state.time, (rendered st.state.log).sum)) = some (14, 512) ∧
    (main_loop (sample_player 1000 ⟨70, 1⟩) 2 0 20 (List.replicate 100 plain_tick)
      fresh_state).map (fun st => (st.state.time, (rendered st.state.log).sum))
      = some (1148, 51200) ∧
    (main_loop (sample_player 1000 ⟨1000, 1⟩) 2 0 20 [plain_tick] fresh_state).map
      (fun st => (st.state.time, successful_updates st.state.log,
        (rendered st.state.log).reverse))
      = some (12, 12, [4, 44, 44, 44, 44, 44, 44, 44, 44, 44, 44, 44, 24]) ∧
    Int.tdiv (44 * 1000) 44100 = 0 := by
  decide!

/-! ### Forward and backward seeks -/

theorem seek_loop_time {σ : Type} (P : CPlayer σ)
    (hms : ∀ p, 0 ≤ ms_per_update (P.getrefresh p)) (fuel : Nat) (seek : Int)
    (s s1 : State σ) (h : seek_loop P fuel seek s = some s1) : s.time ≤ s1.time := by
  induction fuel generalizing s with
  | zero =>
    simp only [seek_loop] at h
    split at h
    · simp at h
    · simp only [Option.some.injEq] at h
      subst h
      exact le_refl _
  | succ n ih =>
    simp only [seek_loop] at h
    split at h
    · by_cases hu : (P.update s.p).1 = true
      · rw [if_pos hu] at h
        have := ih _ h
        have hm := hms (P.update s.p).2
        simp only [adplug_call_time, adplug_call_p] at this
        omega
      · rw [if_neg hu] at h
        simp only [Option.some.injEq] at h
        subst h
        exact le_refl _
    · simp only [Option.some.injEq] at h
      subst h
      exact le_refl _

/-- A pass whose seek request, if any, is not a backward one does not turn the
counter back. -/
theorem iteration_time_forward {σ : Type} (P : CPlayer σ)
    (hms : ∀ p, 0 ≤ ms_per_update (P.getrefresh p)) (sampsize : Int) (subsong fuel : Nat)
    (t : Tick) (s : State σ) (st : Step σ) (hseek : t.seek = -1 ∨ s.time ≤ t.seek)
    (h : iteration P sampsize subsong fuel t s = some st) : s.time ≤ st.state.time := by
  rcases iteration_shape P sampsize subsong fuel t s st h with
    ⟨-, rfl⟩ | ⟨-, -, rfl⟩ | ⟨hc, hs, -⟩
  · exact le_refl _
  · exact le_refl _
  · simp only [iteration] at h
    rw [if_neg (by rw [hc]; simp), hs] at h
    simp only [Bool.false_eq_true, if_false] at h
    cases h1 : handle_seek P subsong fuel t.seek
        ((s.call (Ev.check_stop false)).call (Ev.check_seek t.seek)) with
    | none => simp [h1] at h
    | some s1 =>
      simp only [h1] at h
      cases h2 : fill P t.conf.freq fuel SNDBUFSIZE s1 with
      | none => simp [h2] at h
      | some s2 =>
        simp only [h2, Option.some.injEq] at h
        subst h
        have hf := fill_time P hms _ _ _ s1 s2 h2
        have hsk : s.time ≤ s1.time := by
          simp only [handle_seek] at h1
          split at h1
          · have hnb : ¬ t.seek < s.time := by
              rcases hseek with h0 | h0
              · rename_i hne
                exact absurd h0 hne
              · omega
            simp only [adplug_call_time, if_neg hnb] at h1
            have := seek_loop_time P hms fuel t.seek _ s1 h1
            simpa using this
          · simp only [Option.some.injEq] at h1
            subst h1
            exact le_refl _
        simp only [Step.state, adplug_call_time]
        omega

/-- From a counter that stands at a multiple `n` of the update duration with
the multiple before it below the target, the seek loop ends at such a
multiple. -/
theorem seek_loop_grid {σ : Type} (P : CPlayer σ) (r : CFloat)
    (hconst : ∀ p, P.getrefresh p = r) (fuel : Nat) (seek : Int) (s s1 : State σ)
    (n : Nat) (hn : s.time = n * ms_per_update r)
    (hbelow : n = 0 ∨ ((n : Int) - 1) * ms_per_update r < seek)
    (h : seek_loop P fuel seek s = some s1) :
    ∃ m : Nat, s1.time = m * ms_per_update r ∧
      (m = 0 ∨ ((m : Int) - 1) * ms_per_update r < seek) := by
  induction fuel generalizing s n with
  | zero =>
    simp only [seek_loop] at h
    split at h
    · simp at h
    · simp only [Option.some.injEq] at h
      subst h
      exact ⟨n, hn, hbelow⟩
  | succ k ih =>
    simp only [seek_loop] at h
    split at h
    · rename_i hlt
      by_cases hu : (P.update s.p).1 = true
      · rw [if_pos hu] at h
        refine ih _ (n + 1) ?_ ?_ h
        · simp only [adplug_call_time, adplug_call_p, hconst, hn]
          push_cast
          ring
        · right
          push_cast
          rw [hn] at hlt
          linarith
      · rw [if_neg hu] at h
        simp only [Option.some.injEq] at h
        subst h
        exact ⟨n, by simpa using hn, hbelow⟩
    · simp only [Option.some.injEq] at h
      subst h
      exact ⟨n, hn, hbelow⟩

/-- C16 (amended): for a player with a positive refresh rate the elapsed-time
counter is not turned back by a pass of the main loop unless the pass handles
a backward seek.  A backward seek to target `T` (a seek request, so not -1,
below the counter) sets the counter to 0 and
fast-forwards: when the handling has finished the counter is at least `T` or
the player reported the end of the song, and for a player with refresh rate
`r` it stands at a multiple `n` of `(int) (1000 / r)` whose predecessor is
below `T`, which need not be `T` itself. -/
theorem time_rewinds_only_on_backward_seek {σ : Type} (P : CPlayer σ)
    (hpos : ∀ p, 0 < (P.getrefresh p).num ∧ 0 < (P.getrefresh p).den)
    (sampsize : Int) (subsong fuel : Nat) (t : Tick) (s : State σ) :
    (∀ st, (t.seek = -1 ∨ s.time ≤ t.seek) →
      iteration P sampsize subsong fuel t s = some st → s.time ≤ st.state.time) ∧
    (∀ (T : Int) (s1 : State σ), T ≠ -1 → T < s.time →
      handle_seek P subsong fuel T s = some s1 →
      (T ≤ s1.time ∨ s1.log.head? = some (Ev.update false)) ∧
      ∀ r, (∀ p, P.getrefresh p = r) →
        ∃ n : Nat, s1.time = n * ms_per_update r ∧
          (n = 0 ∨ ((n : Int) - 1) * ms_per_update r < T)) := by
  have hms : ∀ p, 0 ≤ ms_per_update (P.getrefresh p) :=
    fun p => ms_per_update_nonneg _ (hpos p).1 (hpos p).2
  refine ⟨fun st hseek h => iteration_time_forward P hms sampsize subsong fuel t s st hseek h,
    ?_⟩
  intro T s1 hreq hback h
  simp only [handle_seek, if_pos hreq, if_pos hback] at h
  refine ⟨seek_loop_post P fuel T _ s1 h, ?_⟩
  intro r hconst
  exact seek_loop_grid P r hconst fuel T _ s1 0 (by simp) (Or.inl rfl) h

/-- C16, witness: at 70 Hz a pass without a seek takes the counter from 560 ms
to 574 ms, and a seek back to 100 ms leaves it at 112 ms, eight updates of
14 ms.  At `(float) (1000.0 / 7)` Hz a seek back to 70 ms leaves it at 70 ms,
ten updates of 7 ms. -/
theorem time_rewinds_only_on_backward_seek_witness :
    (handle_seek (sample_player 100 seventh_rate) 0 20 70 late_state).map
      (fun s => (s.time, successful_updates s.log)) = some (70, 10) ∧
    (0 < (⟨70, 1⟩ : CFloat).num ∧ 0 < (⟨70, 1⟩ : CFloat).den) ∧
    late_state.time ≤ ((iteration (sample_player 100 ⟨70, 1⟩) 2 0 20 plain_tick
      late_state).getD (Step.next late_state)).state.time ∧
    (iteration (sample_player 100 ⟨70, 1⟩) 2 0 20 plain_tick late_state).map
      (fun st => st.state.time) = some 574 ∧
    (∃ n : Nat, ((handle_seek (sample_player 100 ⟨70, 1⟩) 0 20 100 late_state).getD
        late_state).time = n * ms_per_update ⟨70, 1⟩ ∧
      (n = 0 ∨ ((n : Int) - 1) * ms_per_update ⟨70, 1⟩ < 100)) :=
  ⟨by decide, by decide,
   (time_rewinds_only_on_backward_seek (sample_player 100 ⟨70, 1⟩)
      (fun _ => (by decide : 0 < (⟨70, 1⟩ : CFloat).num ∧ 0 < (⟨70, 1⟩ : CFloat).den))
      2 0 20 plain_tick late_state).1 _ (Or.inl (by decide)) (by decide),
   by decide,
   ((time_rewinds_only_on_backward_seek (sample_player 100 ⟨70, 1⟩)
      (fun _ => (by decide : 0 < (⟨70, 1⟩ : CFloat).num ∧ 0 < (⟨70, 1⟩ : CFloat).den))
      2 0 20 plain_tick late_state).2 100
      ((handle_seek (sample_player 100 ⟨70, 1⟩) 0 20 100 late_state).getD late_state)
      (by decide) (by decide) (by decide)).2 ⟨70, 1⟩ (fun _ => rfl)⟩

/-- C16, counterexample: from 560 ms a backward seek to the target 100 ms
leaves the counter at 112 ms, not at 100 ms. -/
theorem backward_seek_misses_target :
    (100 : Int) < late_state.time ∧
    (handle_seek (sample_player 100 ⟨70, 1⟩) 0 20 100 late_state).map (fun s => s.time)
      = some 112 ∧
    (handle_seek (sample_player 100 ⟨70, 1⟩) 0 20 100 late_state).map (fun s => s.time)
      ≠ some 100 := by
  decide

/-! ### The configuration during a session -/

theorem iteration_same_format {σ : Type} (P : CPlayer σ) (sampsize : Int)
    (subsong fuel : Nat) (t u : Tick) (s : State σ) (h : same_but_format t u) :
    iteration P sampsize subsong fuel t s = iteration P sampsize subsong fuel u s := by
  obtain ⟨h1, h2, h3, h4⟩ := h
  simp only [iteration, h1, h2, h3, h4]

theorem main_loop_same_format {σ : Type} (P : CPlayer σ) (sampsize : Int)
    (subsong fuel : Nat) (ts us : List Tick) (s : State σ)
    (h : List.Forall₂ same_but_format ts us) :
    main_loop P sampsize subsong fuel ts s = main_loop P sampsize subsong fuel us s := by
  induction h generalizing s with
  | nil => rfl
  | @cons t u ts us htu _ ih =>
    simp only [main_loop, iteration_same_format P sampsize subsong fuel t u s htu]
    cases iteration P sampsize subsong fuel u s with
    | none => rfl
    | some st =>
      cases st with
      | exit s1 => rfl
      | next s1 => exact ih s1

theorem chunk_ge_four (toadd : Int) (r : CFloat) (h0 : 0 ≤ toadd) (hn : 0 < r.num)
    (hd : 0 < r.den) : 4 ≤ chunk toadd r := by
  obtain ⟨h1, h2⟩ := float_of_int_nonneg toadd h0
  obtain ⟨h3, h4⟩ := float_div_nonneg (float_of_int toadd) r h1 h2 hn hd
  have h5 : (4 : Int) * (float_of_int 4).den ≤ (float_of_int 4).num := by
    simp only [float_of_int]
    exact round_float_ge 4 (by decide) 4 1 (by decide) (by decide)
  have h6 : 0 < (float_of_int 4).den := round_float_den_pos _ _
  have hx : 4 ≤ float_to_int
      (float_add (float_div (float_of_int toadd) r) (float_of_int 4)) := by
    apply float_to_int_ge 4
    · simp only [float_add]
      exact round_float_den_pos _ _
    · simp only [float_add]
      apply round_float_ge 4 (by decide) _ _ (by positivity)
      have : 0 ≤ (float_div (float_of_int toadd) r).num * (float_of_int 4).den := by
        positivity
      have : ((4 : Nat) : Int) * ((float_div (float_of_int toadd) r).den * (float_of_int 4).den)
          = (4 * (float_of_int 4).den) * (float_div (float_of_int toadd) r).den := by
        push_cast
        ring
      rw [this]
      have := Int.mul_le_mul_of_nonneg_right h5 h4.le
      omega
  simp only [chunk]
  omega

theorem top_up_post {σ : Type} (P : CPlayer σ) (freq : Int) (fuel : Nat)
    (s s1 : State σ) (h : top_up P freq fuel s = some s1) :
    0 ≤ s1.toadd ∧ rendered s1.log = rendered s.log := by
  induction fuel generalizing s with
  | zero =>
    simp only [top_up] at h
    split at h
    · simp at h
    · simp only [Option.some.injEq] at h
      subst h
      exact ⟨by omega, rfl⟩
  | succ n ih =>
    simp only [top_up] at h
    split at h
    · obtain ⟨h1, h2⟩ := ih _ h
      refine ⟨h1, ?_⟩
      rw [h2]
      split <;> simp [rendered]
    · simp only [Option.some.injEq] at h
      subst h
      exact ⟨by omega, rfl⟩

theorem seek_loop_rendered {σ : Type} (P : CPlayer σ) (fuel : Nat) (seek : Int)
    (s s1 : State σ) (h : seek_loop P fuel seek s = some s1) :
    rendered s1.log = rendered s.log := by
  induction fuel generalizing s with
  | zero =>
    simp only [seek_loop] at h
    split at h
    · simp at h
    · simp only [Option.some.injEq] at h
      subst h
      rfl
  | succ n ih =>
    simp only [seek_loop] at h
    split at h
    · split at h
      · rw [ih _ h]
        simp [rendered]
      · simp only [Option.some.injEq] at h
        subst h
        simp [rendered]
    · simp only [Option.some.injEq] at h
      subst h
      rfl

theorem handle_seek_rendered {σ : Type} (P : CPlayer σ) (subsong fuel : Nat) (seek : Int)
    (s s1 : State σ) (h : handle_seek P subsong fuel seek s = some s1) :
    rendered s1.log = rendered s.log := by
  simp only [handle_seek] at h
  split at h
  · rw [seek_loop_rendered P fuel seek _ s1 h]
    split <;> simp [rendered]
  · simp only [Option.some.injEq] at h
    subst h
    rfl

/-- The chunks rendered by the fill loop are each at least one sample and add
up to the number of samples that were to be written. -/
theorem fill_chunks {σ : Type} (P : CPlayer σ)
    (hpos : ∀ p, 0 < (P.getrefresh p).num ∧ 0 < (P.getrefresh p).den) (freq : Int)
    (fuel : Nat) (towrite : Int) (s s1 : State σ) (h0 : 0 ≤ towrite)
    (h : fill P freq fuel towrite s = some s1) :
    ∃ chunks : List Int, rendered s1.log = chunks ++ rendered s.log ∧
      (∀ c ∈ chunks, 1 ≤ c) ∧ chunks.sum = towrite := by
  induction fuel generalizing s towrite with
  | zero =>
    simp only [fill] at h
    split at h
    · simp at h
    · simp only [Option.some.injEq] at h
      subst h
      exact ⟨[], rfl, by simp, by simp; omega⟩
  | succ n ih =>
    simp only [fill] at h
    split at h
    · rename_i hpos_tw
      cases ht : top_up P freq (n + 1) s with
      | none => simp [ht] at h
      | some s2 =>
        simp only [ht] at h
        obtain ⟨hta, hr2⟩ := top_up_post P freq (n + 1) s s2 ht
        have hch := chunk_ge_four s2.toadd (P.getrefresh s2.p) hta (hpos s2.p).1 (hpos s2.p).2
        have hi1 : 1 ≤ min towrite (chunk s2.toadd (P.getrefresh s2.p)) := by
          rw [le_min_iff]; omega
        have hi2 : min towrite (chunk s2.toadd (P.getrefresh s2.p)) ≤ towrite :=
          min_le_left _ _
        obtain ⟨chunks, hc1, hc2, hc3⟩ := ih _ _ (by omega) h
        refine ⟨chunks ++ [min towrite (chunk s2.toadd (P.getrefresh s2.p))], ?_, ?_, ?_⟩
        · rw [hc1]
          simp [rendered, hr2]
        · intro c hc
          rcases List.mem_append.mp hc with hc | hc
          · exact hc2 c hc
          · rw [List.mem_singleton.mp hc]; exact hi1
        · simp [hc3]
    · simp only [Option.some.injEq] at h
      subst h
      exact ⟨[], rfl, by simp, by simp; omega⟩

theorem sum_drop_bounds (l : List Int) (h : ∀ c ∈ l, 1 ≤ c) (n : Nat) :
    0 ≤ (l.drop n).sum ∧ (l.drop n).sum ≤ l.sum := by
  have h1 : 0 ≤ (l.drop n).sum :=
    List.sum_nonneg (fun x hx => by have := h x (List.mem_of_mem_drop hx); omega)
  have h2 : 0 ≤ (l.take n).sum :=
    List.sum_nonneg (fun x hx => by have := h x (List.mem_of_mem_take hx); omega)
  have h3 := List.sum_take_add_sum_drop l n
  exact ⟨h1, by omega⟩

theorem top_up_total {σ : Type} (P : CPlayer σ) (freq : Int) (hfreq : 0 < freq)
    (fuel : Nat) (s : State σ) (hfuel : -s.toadd ≤ fuel) :
    ∃ s1, top_up P freq fuel s = some s1 := by
  induction fuel generalizing s with
  | zero =>
    simp only [top_up]
    have : ¬ s.toadd < 0 := by
      simp only [Nat.cast_zero] at hfuel
      omega
    rw [if_neg this]
    exact ⟨s, rfl⟩
  | succ n ih =>
    simp only [top_up]
    by_cases hlt : s.toadd < 0
    · rw [if_pos hlt]
      apply ih
      push_cast at hfuel
      split <;> simp only [adplug_call_toadd] <;> omega
    · rw [if_neg hlt]
      exact ⟨s, rfl⟩

/-- The fill loop ends when the frequency is positive, the refresh rate is
positive and `B` bounds what a chunk takes off `toadd`: `towrite + B` passes
are enough. -/
theorem fill_total {σ : Type} (P : CPlayer σ)
    (hpos : ∀ p, 0 < (P.getrefresh p).num ∧ 0 < (P.getrefresh p).den) (freq : Int)
    (hfreq : 0 < freq) (W : Int) (B : Nat)
    (hB : ∀ p i, 1 ≤ i → i ≤ W → consumed (P.getrefresh p) i ≤ B)
    (fuel : Nat) (towrite : Int) (s : State σ) (hW : towrite ≤ W)
    (hfuel : towrite + B ≤ fuel) (htoadd : -s.toadd ≤ B) :
    ∃ s1, fill P freq fuel towrite s = some s1 := by
  induction fuel generalizing s towrite with
  | zero =>
    simp only [fill]
    have : ¬ 0 < towrite := by
      simp only [Nat.cast_zero] at hfuel
      omega
    rw [if_neg this]
    exact ⟨s, rfl⟩
  | succ n ih =>
    simp only [fill]
    by_cases hlt : 0 < towrite
    · rw [if_pos hlt]
      push_cast at hfuel
      obtain ⟨s2, ht⟩ := top_up_total P freq hfreq (n + 1) s (by push_cast; omega)
      obtain ⟨hta, -⟩ := top_up_post P freq (n + 1) s s2 ht
      have hch := chunk_ge_four s2.toadd (P.getrefresh s2.p) hta (hpos s2.p).1 (hpos s2.p).2
      have hi1 : 1 ≤ min towrite (chunk s2.toadd (P.getrefresh s2.p)) := by
        rw [le_min_iff]; omega
      have hi2 : min towrite (chunk s2.toadd (P.getrefresh s2.p)) ≤ towrite :=
        min_le_left _ _
      have hcons := hB s2.p _ hi1 (by omega)
      simp only [ht]
      apply ih
      · omega
      · omega
      · simp only [adplug_call_toadd]
        omega
    · rw [if_neg hlt]
      exact ⟨s, rfl⟩

/-- C18: for a player with a positive refresh rate, every pass of the main
loop that fills the sound buffer renders it in chunks of at least one sample
each whose sizes add up to exactly 512, so that the fill level after each
chunk lies between 0 and 512, and the call that follows the last chunk hands
the whole buffer of `512 * sampsize` bytes to the sink.  With a positive
frequency the fill loop does end: when `B` bounds what one chunk takes off
`toadd`, `512 + B` passes suffice. -/
theorem sound_buffer_filled_and_written {σ : Type} (P : CPlayer σ)
    (hpos : ∀ p, 0 < (P.getrefresh p).num ∧ 0 < (P.getrefresh p).den)
    (sampsize : Int) (subsong fuel : Nat) (t : Tick) (s : State σ) :
    (∀ st, iteration P sampsize subsong fuel t s = some (Step.next st) →
      st.log.head? = some (Ev.write_audio (512 * sampsize)) ∧
      ∃ chunks : List Int, rendered st.log = chunks ++ rendered s.log ∧
        (∀ c ∈ chunks, 1 ≤ c) ∧ chunks.sum = 512 ∧
        ∀ n, 0 ≤ (chunks.drop n).sum ∧ (chunks.drop n).sum ≤ 512) ∧
    (∀ (B n : Nat) (s0 : State σ), 0 < t.conf.freq →
      (∀ p i, 1 ≤ i → i ≤ 512 → consumed (P.getrefresh p) i ≤ B) →
      -s0.toadd ≤ B → 512 + B ≤ n →
      ∃ s1, fill P t.conf.freq n SNDBUFSIZE s0 = some s1) := by
  refine ⟨?_, ?_⟩
  · intro st h
    simp only [iteration] at h
    split at h
    · simp at h
    · split at h
      · simp at h
      · cases h1 : handle_seek P subsong fuel t.seek
            ((s.call (Ev.check_stop t.stop)).call (Ev.check_seek t.seek)) with
        | none => simp [h1] at h
        | some s1 =>
          simp only [h1] at h
          cases h2 : fill P t.conf.freq fuel SNDBUFSIZE s1 with
          | none => simp [h2] at h
          | some s2 =>
            simp only [h2, Option.some.injEq, Step.next.injEq] at h
            subst h
            have hr1 := handle_seek_rendered P subsong fuel t.seek _ s1 h1
            obtain ⟨chunks, hc1, hc2, hc3⟩ :=
              fill_chunks P hpos t.conf.freq fuel SNDBUFSIZE s1 s2 (by decide) h2
            refine ⟨by simp [SNDBUFSIZE], chunks, ?_, hc2, hc3, ?_⟩
            · simp only [adplug_call_log, rendered, hc1, hr1]
            · intro n
              have := sum_drop_bounds chunks hc2 n
              rw [hc3] at this
              exact this
  · intro B n s0 hfreq hB htoadd hn
    exact fill_total P hpos t.conf.freq hfreq 512 B hB n SNDBUFSIZE s0 (by decide)
      (by simp only [SNDBUFSIZE]; omega) htoadd

/-- C18, witness: a pass at 44100 Hz on a player refreshing at 70 Hz renders
chunks of 4 and 508 samples and writes 1024 bytes; one chunk takes at most
35840 off `toadd`. -/
theorem sound_buffer_filled_and_written_witness :
    (0 < (⟨70, 1⟩ : CFloat).num ∧ 0 < (⟨70, 1⟩ : CFloat).den) ∧
    (iteration (sample_player 100 ⟨70, 1⟩) 2 0 20 plain_tick fresh_state).map
      (fun st => (rendered st.state.log, st.state.log.head?))
      = some ([508, 4], some (Ev.write_audio 1024)) ∧
    (∃ chunks : List Int, [508, 4] = chunks ++ rendered fresh_state.log ∧
      (∀ c ∈ chunks, 1 ≤ c) ∧ chunks.sum = 512 ∧
      ∀ n, 0 ≤ (chunks.drop n).sum ∧ (chunks.drop n).sum ≤ 512) ∧
    (∃ s1, fill (sample_player 100 ⟨70, 1⟩) plain_tick.conf.freq (512 + 35840) SNDBUFSIZE
      fresh_state = some s1) :=
  ⟨by decide, by decide,
   ((sound_buffer_filled_and_written (sample_player 100 ⟨70, 1⟩)
      (fun _ => (by decide : 0 < (⟨70, 1⟩ : CFloat).num ∧ 0 < (⟨70, 1⟩ : CFloat).den))
      2 0 20 plain_tick fresh_state).1
      { p := 1, time := 14, toadd := 8260, playing := true,
        log := [Ev.write_audio 1024, Ev.opl_update 508, Ev.update true, Ev.opl_update 4,
                Ev.check_seek (-1), Ev.check_stop false] } (by decide)).2,
   (sound_buffer_filled_and_written (sample_player 100 ⟨70, 1⟩)
      (fun _ => (by decide : 0 < (⟨70, 1⟩ : CFloat).num ∧ 0 < (⟨70, 1⟩ : CFloat).den))
      2 0 20 plain_tick fresh_state).2 35840 (512 + 35840) fresh_state (by decide)
      (fun _ i h1 h2 =>
        consumed_le ⟨70, 1⟩ i 70 512 (by decide) (by decide) (by decide)
          (le_trans (by decide) h1) h2 (by decide) (by decide))
      (by decide) (by decide)⟩

end AdPlugXMMS

namespace MPG123Plugin

/-! ### The probe and the tuple -/

/-- C19: for every file name whose first six characters are "mms://",
`is_our_file` returns false and makes no call at all: the file is not asked
for its size, nothing is read from it, and no decoder is created. -/
theorem mms_names_rejected (k : Codes) (fname : String) (f : Probe)
    (h : "mms://".toList <+: fname.toList) :
    is_our_file k fname f = { result := some false, log := [] } ∧
    (is_our_file k fname f).result = some false ∧ (is_our_file k fname f).log = [] := by
  have hm : is_mms fname = true := by
    obtain ⟨rest, hrest⟩ := h
    simp only [is_mms, ← hrest]
    rw [List.take_left' (by decide)]
    simp
  have key : is_our_file k fname f = { result := some false, log := [] } := by
    simp [is_our_file, hm]
  exact ⟨key, by rw [key], by rw [key]⟩

/-- C19, witness: a name that starts with "mms://" is refused although the
file starts with an ID3 tag; under another name the same file is read and
accepted. -/
theorem mms_names_rejected_witness :
    "mms://".toList <+: "mms://radio/live.mp3".toList ∧
    is_our_file sample_codes "mms://radio/live.mp3" tagged_file
      = { result := some false, log := [] } ∧
    is_our_file sample_codes "http://radio/live.mp3" tagged_file
      = { result := some true, log := [ProbeEv.fread 3, ProbeEv.fsize] } :=
  ⟨⟨"radio/live.mp3".toList, by decide⟩,
   (mms_names_rejected sample_codes "mms://radio/live.mp3" tagged_file
      ⟨"radio/live.mp3".toList, by decide⟩).1,
   by decide⟩

theorem wrap32_of_range (x : Int) (h0 : 0 ≤ x) (h1 : x < 2 ^ 31) : wrap32 x = x := by
  unfold wrap32
  rw [Int.emod_eq_of_lt (by omega) (by omega)]
  omega

theorem tuple_length_exact (S R : Int)
    (hrange : 0 < S → 0 < R → S * 1000 < 2 ^ 63 ∧ Int.tdiv (S * 1000) R < 2 ^ 31) :
    tuple_length S R = if 0 < S ∧ 0 < R then Int.tdiv (S * 1000) R else 0 := by
  unfold tuple_length
  by_cases h : 0 < S ∧ 0 < R
  · obtain ⟨h1, h2⟩ := hrange h.1 h.2
    rw [if_pos h, if_pos h, wrap64_of_range _ (by omega) h1]
    exact wrap32_of_range _ (Int.tdiv_nonneg (by omega) (by omega)) h2
  · rw [if_neg h, if_neg h]
    decide

theorem size_bitrate_exact (B L : Int) (hB : 0 < B) (hL : 0 < L)
    (hrange : 8 * B < 2 ^ 63 ∧ Int.tdiv (8 * B) L < 2 ^ 31) :
    size_bitrate B L = Int.tdiv (8 * B) L := by
  unfold size_bitrate
  rw [wrap64_of_range _ (by omega) hrange.1]
  exact wrap32_of_range _ (Int.tdiv_nonneg (by omega) (by omega)) hrange.2

/-- C20 (amended): in `read_tuple`, when the decoder calls succeed.  For a
stream neither Length nor the size-based Bitrate is set; Bitrate is the
frame-info bitrate.  For a file with `S` samples, rate `R` and size `B`, as
long as the values fit their machine types (`S * 1000` in 64 bits and the
quotient `S * 1000 / R` in the 32-bit `int length`; `8 * B` in 64 bits and
`8 * B / Length` in the 32-bit argument of `set_int`): Length is set, to the
truncated quotient `S * 1000 / R`, exactly when `S > 0`, `R > 0` and the
quotient is positive; Bitrate is `8 * B / Length` exactly when `B > 0` and
Length was set, and the frame-info bitrate otherwise. -/
theorem tuple_length_and_bitrate (filename : String) (f : TupleProbe)
    (hok : tuple_probe_fails f = false)
    (hlen : 0 < f.samples → 0 < f.rate →
      f.samples * 1000 < 2 ^ 63 ∧ Int.tdiv (f.samples * 1000) f.rate < 2 ^ 31)
    (hbit : 0 < f.size → 0 < Int.tdiv (f.samples * 1000) f.rate →
      8 * f.size < 2 ^ 63 ∧
      Int.tdiv (8 * f.size) (Int.tdiv (f.samples * 1000) f.rate) < 2 ^ 31) :
    (f.fsize < 0 → (read_tuple filename f).length = none ∧
      (read_tuple filename f).bitrate = some f.bitrate) ∧
    (0 ≤ f.fsize →
      (read_tuple filename f).length
        = (if 0 < f.samples ∧ 0 < f.rate ∧ 0 < Int.tdiv (f.samples * 1000) f.rate
           then some (Int.tdiv (f.samples * 1000) f.rate) else none) ∧
      (read_tuple filename f).bitrate
        = (if 0 < f.size ∧ 0 < f.samples ∧ 0 < f.rate ∧
              0 < Int.tdiv (f.samples * 1000) f.rate
           then some (Int.tdiv (8 * f.size) (Int.tdiv (f.samples * 1000) f.rate))
           else some f.bitrate)) := by
  simp only [read_tuple, hok, Bool.false_eq_true, if_false]
  refine ⟨?_, ?_⟩
  · intro hs
    simp [hs]
  · intro hns
    have hns1 : ¬ f.fsize < 0 := by omega
    rw [if_neg hns1, tuple_length_exact _ _ hlen]
    by_cases hSR : 0 < f.samples ∧ 0 < f.rate
    · simp only [if_pos hSR]
      by_cases hq : 0 < Int.tdiv (f.samples * 1000) f.rate
      · by_cases hB : 0 < f.size
        · rw [size_bitrate_exact _ _ hB hq (hbit hB hq)]
          simp [hSR.1, hSR.2, hq, hB]
        · simp [hSR.1, hSR.2, hq, hB]
      · simp [hSR.1, hSR.2, hq]
    · simp only [if_neg hSR]
      have h1 : ¬ (0 < f.samples ∧ 0 < f.rate ∧ 0 < Int.tdiv (f.samples * 1000) f.rate) :=
        fun h => hSR ⟨h.1, h.2.1⟩
      have h2 : ¬ (0 < f.size ∧ 0 < f.samples ∧ 0 < f.rate ∧
          0 < Int.tdiv (f.samples * 1000) f.rate) := fun h => hSR ⟨h.2.1, h.2.2.1⟩
      rw [if_neg h1, if_neg h2]
      simp

/-- C20, witness: 8820000 samples at 44100 Hz in 4000000 bytes give a Length
of 200000 ms and a Bitrate of 160. -/
theorem tuple_length_and_bitrate_witness :
    tuple_probe_fails sample_file = false ∧ 0 ≤ sample_file.fsize ∧
    (read_tuple "a.mp3" sample_file).length = some 200000 ∧
    (read_tuple "a.mp3" sample_file).bitrate = some 160 :=
  ⟨by decide, by decide,
   ((tuple_length_and_bitrate "a.mp3" sample_file (by decide) (fun _ _ => by decide)
      (fun _ _ => by decide)).2 (by decide)).1,
   ((tuple_length_and_bitrate "a.mp3" sample_file (by decide) (fun _ _ => by decide)
      (fun _ _ => by decide)).2 (by decide)).2⟩

/-- C20, counterexample: 17179869184 samples at 8000 Hz make a quotient of
2147483648 ms, which is positive, but as a 32-bit `int` it is -2147483648 and
the Length field is not set.  With 34359738408 samples the quotient is
4294967301 and Length is set to 5. -/
theorem long_file_length_wraps :
    tuple_probe_fails long_file = false ∧ 0 ≤ long_file.fsize ∧
    0 < long_file.samples ∧ 0 < long_file.rate ∧
    Int.tdiv (long_file.samples * 1000) long_file.rate = 2147483648 ∧
    (read_tuple "a.mp3" long_file).length = none ∧
    Int.tdiv (34359738408 * 1000) long_file.rate = 4294967301 ∧
    (read_tuple "a.mp3" { long_file with samples := 34359738408 }).length = some 5 := by
  decide

end MPG123Plugin

namespace MPG123Plugin

/-! ### The bitrate estimator -/

theorem handle_seek_bitrate (t : Tick) (s : State) :
    (handle_seek t s).bitrate = s.bitrate ∧ (handle_seek t s).bitrate_sum = s.bitrate_sum ∧
    (handle_seek t s).bitrate_count = s.bitrate_count := by
  unfold handle_seek; split <;> [split; skip] <;> exact ⟨rfl, rfl, rfl⟩

theorem read_or_write_bitrate (k : Codes) (t : Tick) (s : State) :
    (read_or_write k t s).state.bitrate = s.bitrate ∧
    (read_or_write k t s).state.bitrate_sum = s.bitrate_sum ∧
    (read_or_write k t s).state.bitrate_count = s.bitrate_count := by
  unfold read_or_write
  by_cases hb : s.outbuf = []
  · rw [if_pos hb]
    by_cases hneg : t.read_ret < 0
    · simp only [hneg, if_true]
      by_cases hne : t.read_ret = k.MPG123_DONE ∨ t.read_ret = k.MPG123_ERR_READER
      · rw [if_pos hne]; exact ⟨rfl, rfl, rfl⟩
      · rw [if_neg hne]
        by_cases hc : 10 ≤ s.error_count + 1
        · simp only [call_error_count, hc, if_true]; exact ⟨rfl, rfl, rfl⟩
        · simp only [call_error_count, hc, if_false]; exact ⟨rfl, rfl, rfl⟩
    · simp only [hneg, if_false]
      exact ⟨rfl, rfl, rfl⟩
  · rw [if_neg hb]
    exact ⟨rfl, rfl, rfl⟩

/-- What one run of the estimator does: it publishes when the mean of the
readings summed so far differs from `bitrate` and there are at least 16 of
them, and then clears the sum and the count; otherwise it only adds the
reading. -/
theorem update_bitrate_cases (t : Tick) (s : State) :
    (Int.tdiv (s.bitrate_sum + t.fi_bitrate) (s.bitrate_count + 1) ≠ s.bitrate ∧
      16 ≤ s.bitrate_count + 1 ∧
      published (update_bitrate t s).log
        = Int.tdiv (s.bitrate_sum + t.fi_bitrate) (s.bitrate_count + 1) * 1000
          :: published s.log ∧
      (update_bitrate t s).bitrate
        = Int.tdiv (s.bitrate_sum + t.fi_bitrate) (s.bitrate_count + 1) ∧
      (update_bitrate t s).bitrate_sum = 0 ∧ (update_bitrate t s).bitrate_count = 0) ∨
    (¬ (Int.tdiv (s.bitrate_sum + t.fi_bitrate) (s.bitrate_count + 1) ≠ s.bitrate ∧
      16 ≤ s.bitrate_count + 1) ∧
      published (update_bitrate t s).log = published s.log ∧
      (update_bitrate t s).bitrate = s.bitrate ∧
      (update_bitrate t s).bitrate_sum = s.bitrate_sum + t.fi_bitrate ∧
      (update_bitrate t s).bitrate_count = s.bitrate_count + 1) := by
  simp only [update_bitrate]
  by_cases h : Int.tdiv (s.bitrate_sum + t.fi_bitrate) (s.bitrate_count + 1) ≠ s.bitrate ∧
      16 ≤ s.bitrate_count + 1
  · left
    simp only [State.call] at h ⊢
    rw [if_pos h]
    exact ⟨h.1, h.2, by simp [published], rfl, rfl, rfl⟩
  · right
    simp only [State.call] at h ⊢
    rw [if_neg h]
    exact ⟨h, by simp [published], rfl, rfl, rfl⟩

end MPG123Plugin

namespace MPG123Plugin

theorem update_bitrate_window (t : Tick) (s : State) (rs : List Int)
    (h : ∃ n : Nat, n ≤ rs.length ∧ s.bitrate_count = n ∧ s.bitrate_sum = (rs.take n).sum) :
    ∃ n : Nat, n ≤ (t.fi_bitrate :: rs).length ∧ (update_bitrate t s).bitrate_count = n ∧
      (update_bitrate t s).bitrate_sum = ((t.fi_bitrate :: rs).take n).sum := by
  obtain ⟨n, hn, hc, hs⟩ := h
  rcases update_bitrate_cases t s with ⟨-, -, -, -, h1, h2⟩ | ⟨-, -, -, h1, h2⟩
  · exact ⟨0, by simp, by simpa using h2, by simpa using h1⟩
  · refine ⟨n + 1, by simpa using hn, by rw [h2, hc]; push_cast; rfl, ?_⟩
    rw [h1, hs, List.take_succ_cons, List.sum_cons]
    ring

theorem iteration_window (k : Codes) (t : Tick) (s s1 : State) (rs : List Int)
    (hit : iteration k t s = Step.next s1)
    (h : ∃ n : Nat, n ≤ rs.length ∧ s.bitrate_count = n ∧ s.bitrate_sum = (rs.take n).sum) :
    ∃ n : Nat, n ≤ (t.fi_bitrate :: rs).length ∧ s1.bitrate_count = n ∧
      s1.bitrate_sum = ((t.fi_bitrate :: rs).take n).sum := by
  simp only [iteration] at hit
  by_cases hs : t.stop = true
  · simp [hs] at hit
  · rw [if_neg hs] at hit
    have hrw := read_or_write_bitrate k t (update_bitrate t (handle_seek t
      ((s.call (Ev.check_stop t.stop)).call (Ev.check_seek t.seek))))
    rw [hit] at hrw
    simp only [Step.state] at hrw
    have hhs := handle_seek_bitrate t ((s.call (Ev.check_stop t.stop)).call (Ev.check_seek t.seek))
    have hw := update_bitrate_window t (handle_seek t
      ((s.call (Ev.check_stop t.stop)).call (Ev.check_seek t.seek))) rs
      (by rw [hhs.2.1, hhs.2.2]; exact h)
    rw [hrw.2.1, hrw.2.2]
    exact hw

theorem main_loop_window (k : Codes) (ts : List Tick) (s s1 : State) (rs : List Int)
    (hrun : main_loop k ts s = Step.next s1)
    (h : ∃ n : Nat, n ≤ rs.length ∧ s.bitrate_count = n ∧ s.bitrate_sum = (rs.take n).sum) :
    ∃ n : Nat, n ≤ ((ts.map Tick.fi_bitrate).reverse ++ rs).length ∧ s1.bitrate_count = n ∧
      s1.bitrate_sum = (((ts.map Tick.fi_bitrate).reverse ++ rs).take n).sum := by
  induction ts generalizing s rs with
  | nil =>
    simp only [main_loop, Step.next.injEq] at hrun
    subst hrun
    simpa using h
  | cons t ts ih =>
    simp only [main_loop] at hrun
    cases hi : iteration k t s with
    | exit s2 => simp [hi] at hrun
    | next s2 =>
      simp only [hi] at hrun
      have := ih s2 (t.fi_bitrate :: rs) hrun (iteration_window k t s s2 rs hi h)
      simpa using this

theorem get_format_ok_bitrate (k : Codes) (l : List Attempt) (s s1 : State)
    (h : get_format k l s = Nego.ok s1) :
    s1.bitrate_sum = s.bitrate_sum ∧ s1.bitrate_count = s.bitrate_count := by
  induction l generalizing s with
  | nil => simp [get_format] at h
  | cons a rest ih =>
    simp only [get_format] at h
    split at h
    · simp at h
    · split at h
      · split at h
        · have := ih _ h
          simpa using this
        · simp at h
      · simp only [Nego.ok.injEq] at h
        subst h
        exact ⟨rfl, rfl⟩

/-- On entry to the main loop the running sum and count are zero. -/
theorem setup_ok_bitrate (k : Codes) (su : Setup) (s0 : State)
    (h : setup k su = Nego.ok s0) : s0.bitrate_sum = 0 ∧ s0.bitrate_count = 0 := by
  simp only [setup] at h
  split at h
  · simp at h
  · split at h
    · simp at h
    · split at h
      · simp at h
      · simp at h
      · rename_i s3 hg
        split at h
        · simp at h
        · simp only [Nego.ok.injEq] at h
          subst h
          have := get_format_ok_bitrate k _ _ _ hg
          refine ⟨?_, ?_⟩
          · show s3.bitrate_sum = 0
            rw [this.1]; split <;> rfl
          · show s3.bitrate_count = 0
            rw [this.2]; split <;> rfl

end MPG123Plugin

namespace MPG123Plugin

theorem handle_seek_published (t : Tick) (s : State) :
    published (handle_seek t s).log = published s.log := by
  simp only [handle_seek]
  split
  · split <;> simp [State.call, published]
  · rfl

theorem read_or_write_published (k : Codes) (t : Tick) (s : State) :
    published (read_or_write k t s).state.log = published s.log := by
  simp only [read_or_write, write_branch]
  split
  · split
    · split
      · simp [Step.state, State.call, published]
      · split <;> simp [Step.state, State.call, published]
    · simp [Step.state, State.call, published]
  · simp [Step.state, State.call, published]

/-- One pass of the loop body from a state whose running count is `n` and whose
running sum is the sum of the last `n` readings: either nothing is published
and the reading is added, or the mean of the `n + 1` readings is published and
sum and count are cleared. -/
theorem iteration_publishes (k : Codes) (t : Tick) (s : State) (rs : List Int) (n : Nat)
    (hstop : t.stop = false) (hc : s.bitrate_count = n)
    (hs : s.bitrate_sum = (rs.take n).sum) :
    (published (iteration k t s).state.log = published s.log ∧
      (iteration k t s).state.bitrate_count = s.bitrate_count + 1) ∨
    (16 ≤ n + 1 ∧
      published (iteration k t s).state.log
        = Int.tdiv ((t.fi_bitrate :: rs).take (n + 1)).sum ((n + 1 : Nat) : Int) * 1000
          :: published s.log ∧
      (iteration k t s).state.bitrate_sum = 0 ∧
      (iteration k t s).state.bitrate_count = 0) := by
  simp only [iteration, hstop, Bool.false_eq_true, if_false]
  have hrp := read_or_write_published k t (update_bitrate t (handle_seek t
      ((s.call (Ev.check_stop false)).call (Ev.check_seek t.seek))))
  have hrb := read_or_write_bitrate k t (update_bitrate t (handle_seek t
      ((s.call (Ev.check_stop false)).call (Ev.check_seek t.seek))))
  have hhp := handle_seek_published t ((s.call (Ev.check_stop false)).call (Ev.check_seek t.seek))
  have hhb := handle_seek_bitrate t ((s.call (Ev.check_stop false)).call (Ev.check_seek t.seek))
  have h0 : published ((s.call (Ev.check_stop false)).call (Ev.check_seek t.seek)).log
      = published s.log := by simp [State.call, published]
  have hb0 : ((s.call (Ev.check_stop false)).call (Ev.check_seek t.seek)).bitrate_sum
      = s.bitrate_sum := rfl
  have hb1 : ((s.call (Ev.check_stop false)).call (Ev.check_seek t.seek)).bitrate_count
      = s.bitrate_count := rfl
  rw [hrp, hrb.2.1, hrb.2.2]
  rcases update_bitrate_cases t (handle_seek t
      ((s.call (Ev.check_stop false)).call (Ev.check_seek t.seek)))
    with ⟨-, h16, hp, -, h1, h2⟩ | ⟨-, hp, -, -, h2⟩
  · right
    rw [hhb.2.1, hhb.2.2, hb0, hb1, hhp, h0] at hp
    rw [hhb.2.2, hb1, hc] at h16
    refine ⟨by exact_mod_cast h16, ?_, h1, h2⟩
    rw [hp, hs, hc, List.take_succ_cons, List.sum_cons]
    push_cast
    rw [add_comm (rs.take n).sum]
  · left
    rw [hp, hhp, h0, h2, hhb.2.2, hb1]
    exact ⟨rfl, rfl⟩

/-- C21 (amended): in `MPG123Plugin::play`, in any pass of the main loop reached
from a successful setup, either nothing is republished and the running count
grows by one, or the republished value is 1000 times the truncated integer
mean of the last `n` readings, where `n`, at least 16, is the number of readings
taken since sum and count were last cleared (the running count, this pass
included); sum and count are both zero right after each publish. -/
theorem republished_value_is_mean_since_reset (k : Codes) (su : Setup) (s0 s1 : State)
    (ts : List Tick) (t : Tick)
    (hsetup : setup k su = Nego.ok s0) (hrun : main_loop k ts s0 = Step.next s1)
    (hstop : t.stop = false) :
    (published (iteration k t s1).state.log = published s1.log ∧
      (iteration k t s1).state.bitrate_count = s1.bitrate_count + 1) ∨
    (∃ n : Nat, 16 ≤ n ∧ n ≤ ts.length + 1 ∧ s1.bitrate_count + 1 = n ∧
      published (iteration k t s1).state.log
        = Int.tdiv (((t :: ts.reverse).map Tick.fi_bitrate).take n).sum n * 1000
          :: published s1.log ∧
      (iteration k t s1).state.bitrate_sum = 0 ∧
      (iteration k t s1).state.bitrate_count = 0) := by
  have h0 := setup_ok_bitrate k su s0 hsetup
  obtain ⟨m, hm, hc, hs⟩ := main_loop_window k ts s0 s1 [] hrun
    ⟨0, by simp, by simpa using h0.2, by simpa using h0.1⟩
  simp only [List.append_nil, List.length_reverse, List.length_map] at hm
  rw [List.append_nil] at hs
  rcases iteration_publishes k t s1 (ts.map Tick.fi_bitrate).reverse m hstop hc hs with h | ⟨h16, hp, hz1, hz2⟩
  · exact Or.inl h
  · refine Or.inr ⟨m + 1, h16, by omega, by rw [hc]; push_cast; rfl, ?_, hz1, hz2⟩
    rw [hp]
    simp [List.map_reverse]

end MPG123Plugin

namespace MPG123Plugin

/-- C21, witness: after a successful setup and 32 passes reading 128, the pass
reading 400 republishes the mean of the 17 readings since the last reset. -/
theorem republished_value_is_mean_since_reset_witness :
    setup sample_codes sample_setup = Nego.ok (setup sample_codes sample_setup).state ∧
    main_loop sample_codes (List.replicate 32 (bitrate_tick 128))
        (setup sample_codes sample_setup).state
      = Step.next (main_loop sample_codes (List.replicate 32 (bitrate_tick 128))
          (setup sample_codes sample_setup).state).state ∧
    ((published (iteration sample_codes (bitrate_tick 400)
          (main_loop sample_codes (List.replicate 32 (bitrate_tick 128))
            (setup sample_codes sample_setup).state).state).state.log
        = published (main_loop sample_codes (List.replicate 32 (bitrate_tick 128))
            (setup sample_codes sample_setup).state).state.log ∧
      (iteration sample_codes (bitrate_tick 400)
          (main_loop sample_codes (List.replicate 32 (bitrate_tick 128))
            (setup sample_codes sample_setup).state).state).state.bitrate_count
        = (main_loop sample_codes (List.replicate 32 (bitrate_tick 128))
            (setup sample_codes sample_setup).state).state.bitrate_count + 1) ∨
    (∃ n : Nat, 16 ≤ n ∧ n ≤ (List.replicate 32 (bitrate_tick 128)).length + 1 ∧
      (main_loop sample_codes (List.replicate 32 (bitrate_tick 128))
            (setup sample_codes sample_setup).state).state.bitrate_count + 1 = n ∧
      published (iteration sample_codes (bitrate_tick 400)
          (main_loop sample_codes (List.replicate 32 (bitrate_tick 128))
            (setup sample_codes sample_setup).state).state).state.log
        = Int.tdiv (((bitrate_tick 400 :: (List.replicate 32 (bitrate_tick 128)).reverse).map
            Tick.fi_bitrate).take n).sum n * 1000
          :: published (main_loop sample_codes (List.replicate 32 (bitrate_tick 128))
            (setup sample_codes sample_setup).state).state.log ∧
      (iteration sample_codes (bitrate_tick 400)
          (main_loop sample_codes (List.replicate 32 (bitrate_tick 128))
            (setup sample_codes sample_setup).state).state).state.bitrate_sum = 0 ∧
      (iteration sample_codes (bitrate_tick 400)
          (main_loop sample_codes (List.replicate 32 (bitrate_tick 128))
            (setup sample_codes sample_setup).state).state).state.bitrate_count = 0)) :=
  ⟨by decide, by decide,
   republished_value_is_mean_since_reset sample_codes sample_setup
     (setup sample_codes sample_setup).state
     (main_loop sample_codes (List.replicate 32 (bitrate_tick 128))
        (setup sample_codes sample_setup).state).state
     (List.replicate 32 (bitrate_tick 128)) (bitrate_tick 400)
     (by decide) (by decide) (by decide)⟩

/-- C21, counterexample: with the bitrate reading 128 in 32 passes and 400 in
the 33rd, the running count stands at 16 after 32 passes without a reset, and
the value republished in pass 33 is 144000, the mean of the 17 readings since
the last reset, not 145000, the mean of the last 16. -/
theorem republished_mean_of_seventeen_readings :
    (play sample_codes sample_setup (long_window.take 32)).final.bitrate_count = 16 ∧
    published (play sample_codes sample_setup (long_window.take 32)).final.log
      = [128000, 128000] ∧
    published (play sample_codes sample_setup long_window).final.log
      = [144000, 128000, 128000] ∧
    Int.tdiv (((long_window.map Tick.fi_bitrate).reverse.take 17).sum) 17 * 1000 = 144000 ∧
    Int.tdiv (((long_window.map Tick.fi_bitrate).reverse.take 16).sum) 16 * 1000 = 145000 := by
  decide

end MPG123Plugin

namespace MPG123Plugin

/-! ### Recoverable read errors -/

/-- C22: in `MPG123Plugin::play`, a pass of the main loop that makes a read (the
staging buffer is empty, or a seek request empties it) whose result is a
recoverable error, with the error counter still below 10 after counting it,
calls `write_audio` not at all, whatever bytes the failed read stored, and the
loop goes on with the next pass; the counter is one higher and the error flag is
as before. -/
theorem recoverable_error_writes_nothing (k : Codes) (t : Tick) (ts : List Tick) (s : State)
    (hstop : t.stop = false) (hbuf : s.outbuf = [] ∨ 0 ≤ t.seek)
    (hrec : recoverable k t.read_ret) (hbudget : s.error_count + 1 < 10) :
    ∃ s1, iteration k t s = Step.next s1 ∧
      main_loop k (t :: ts) s = main_loop k ts s1 ∧
      read_rets s1.log = t.read_ret :: read_rets s.log ∧
      written s1.log = written s.log ∧
      s1.error_count = s.error_count + 1 ∧ s1.error = s.error := by
  obtain ⟨hneg, hd, hr⟩ := hrec
  have hb : (update_bitrate t (handle_seek t
      ((s.call (Ev.check_stop t.stop)).call (Ev.check_seek t.seek)))).outbuf = [] := by
    rw [update_bitrate_outbuf, handle_seek_outbuf]
    rcases hbuf with h | h
    · simp [h]
    · simp [h]
  have hit : iteration k t s = read_or_write k t (update_bitrate t (handle_seek t
      ((s.call (Ev.check_stop t.stop)).call (Ev.check_seek t.seek)))) := by
    simp [iteration, hstop]
  have hcnt : (update_bitrate t (handle_seek t
      ((s.call (Ev.check_stop t.stop)).call (Ev.check_seek t.seek)))).error_count
      = s.error_count := by simp
  have herr : (update_bitrate t (handle_seek t
      ((s.call (Ev.check_stop t.stop)).call (Ev.check_seek t.seek)))).error = s.error := by simp
  have hrd : read_rets (update_bitrate t (handle_seek t
      ((s.call (Ev.check_stop t.stop)).call (Ev.check_seek t.seek)))).log
      = read_rets s.log := by simp [read_rets]
  have hwr : written (update_bitrate t (handle_seek t
      ((s.call (Ev.check_stop t.stop)).call (Ev.check_seek t.seek)))).log
      = written s.log := by simp [written]
  generalize update_bitrate t (handle_seek t
      ((s.call (Ev.check_stop t.stop)).call (Ev.check_seek t.seek))) = sb
    at hb hit hcnt herr hrd hwr
  have hne : ¬ (t.read_ret = k.MPG123_DONE ∨ t.read_ret = k.MPG123_ERR_READER) := by
    rintro (h | h)
    · exact hd h
    · exact hr h
  have hc : ¬ 10 ≤ sb.error_count + 1 := by omega
  have hstep : iteration k t s = Step.next
      { ({ sb.call (Ev.mpg123_read t.read_ret t.read_data) with
            outbuf := t.read_data }.call Ev.print_mpg123_error) with
          error_count := sb.error_count + 1 } := by
    rw [hit]
    simp only [read_or_write]
    rw [if_pos hb, if_pos hneg, if_neg hne]
    simp only [State.call]
    rw [if_neg hc]
  refine ⟨_, hstep, ?_, ?_, ?_, ?_, ?_⟩
  · simp only [main_loop, hstep]
  · simp [State.call, read_rets, hrd]
  · simp [State.call, written, hwr]
  · simp [State.call, hcnt]
  · simp [State.call, herr]

/-- C22, witness: a pass whose read fails with the generic error and stores two
bytes, from a state with an empty buffer and five errors counted. -/
theorem recoverable_error_writes_nothing_witness :
    ∃ s1, iteration sample_codes (bad_tick [7, 7]) { stale_state with outbuf := [], error_count := 5 }
        = Step.next s1 ∧
      main_loop sample_codes (bad_tick [7, 7] :: [good_tick [3]])
          { stale_state with outbuf := [], error_count := 5 }
        = main_loop sample_codes [good_tick [3]] s1 ∧
      read_rets s1.log = (bad_tick [7, 7]).read_ret
        :: read_rets ({ stale_state with outbuf := [], error_count := 5 } : State).log ∧
      written s1.log = written ({ stale_state with outbuf := [], error_count := 5 } : State).log ∧
      s1.error_count = ({ stale_state with outbuf := [], error_count := 5 } : State).error_count + 1 ∧
      s1.error = ({ stale_state with outbuf := [], error_count := 5 } : State).error :=
  recoverable_error_writes_nothing sample_codes (bad_tick [7, 7]) [good_tick [3]]
    { stale_state with outbuf := [], error_count := 5 }
    (by decide) (Or.inl (by decide)) (by decide) (by decide)

end MPG123Plugin

namespace AdPlugXMMS

/-! ### Termination of the seek loop -/

theorem seek_loop_fuel_mono {σ : Type} (P : CPlayer σ) (fuel : Nat) (seek : Int)
    (s s1 : State σ) (h : seek_loop P fuel seek s = some s1) (extra : Nat) :
    seek_loop P (fuel + extra) seek s = some s1 := by
  induction fuel generalizing s with
  | zero =>
    simp only [seek_loop] at h
    split at h
    · simp at h
    · rename_i hlt
      simp only [Option.some.injEq] at h
      subst h
      cases extra with
      | zero => simp [seek_loop, hlt]
      | succ e => simp [seek_loop, hlt]
  | succ n ih =>
    rw [Nat.add_right_comm]
    simp only [seek_loop] at h ⊢
    split at h
    · rename_i hlt
      rw [if_pos hlt]
      split at h
      · rename_i hu
        rw [if_pos hu]
        exact ih _ h
      · rename_i hu
        rw [if_neg hu]
        exact h
    · rename_i hlt
      rw [if_neg hlt]
      exact h

/-- The seek loop makes at most `seek - time` updates when every update lasts
at least one millisecond. -/
theorem seek_loop_updates {σ : Type} (P : CPlayer σ)
    (hms : ∀ p, 1 ≤ ms_per_update (P.getrefresh p)) (fuel : Nat) (seek : Int)
    (s s1 : State σ) (h : seek_loop P fuel seek s = some s1) :
    (s1.log.length : Int) ≤ s.log.length + max (seek - s.time) 0 := by
  induction fuel generalizing s with
  | zero =>
    simp only [seek_loop] at h
    split at h
    · simp at h
    · simp only [Option.some.injEq] at h
      subst h
      have := le_max_right (seek - s.time) 0
      omega
  | succ n ih =>
    simp only [seek_loop] at h
    split at h
    · rename_i hlt
      split at h
      · have h1 := ih _ h
        have h2 := hms (({ s with p := (P.update s.p).2 } : State σ).call
          (Ev.update (P.update s.p).1)).p
        simp only [State.call, List.length_cons, Nat.cast_add, Nat.cast_one] at h1 h2 ⊢
        have h3 := le_max_left (seek - s.time) 0
        rcases max_cases (seek - (s.time + ms_per_update (P.getrefresh (P.update s.p).2))) 0
          with ⟨he, -⟩ | ⟨he, -⟩ <;> rw [he] at h1 <;> omega
      · simp only [Option.some.injEq] at h
        subst h
        have h3 := le_max_left (seek - s.time) 0
        simp only [State.call, List.length_cons, Nat.cast_add, Nat.cast_one]
        omega
    · simp only [Option.some.injEq] at h
      subst h
      have := le_max_right (seek - s.time) 0
      omega

/-- A looping player whose updates last zero milliseconds never gets the seek
loop to a target ahead of the counter. -/
theorem seek_loop_stuck (r : CFloat) (hr : ms_per_update r = 0) (fuel : Nat) (seek : Int)
    (s : State Nat) (hlt : s.time < seek) :
    seek_loop (looping_player r) fuel seek s = none := by
  induction fuel generalizing s with
  | zero => simp [seek_loop, hlt]
  | succ n ih =>
    simp only [seek_loop]
    rw [if_pos hlt]
    simp only [looping_player, if_true]
    apply ih
    simp only [State.call]
    have : ms_per_update r = 0 := hr
    simp only [looping_player] at this ⊢
    omega

end AdPlugXMMS

namespace AdPlugXMMS

/-- C23 (amended): for a player whose updates each last at least one
millisecond, that is with `(int) (1000 / refresh)` at least 1, the seek loop of
`AdPlugXMMS::play` ends for every target `T` and every state: with any fuel of
at least `T - E` it returns the same state, reached by at most `max (T - E) 0`
updates none of which is rendered; there the elapsed time has not gone back
and is at least `T`, or the last update reported the end of the song. -/
theorem seek_loop_terminates {σ : Type} (P : CPlayer σ)
    (hms : ∀ p, 1 ≤ ms_per_update (P.getrefresh p)) (seek : Int) (s : State σ) :
    ∃ s1, (∀ fuel : Nat, seek - s.time ≤ fuel → seek_loop P fuel seek s = some s1) ∧
      (seek ≤ s1.time ∨ s1.log.head? = some (Ev.update false)) ∧
      (s1.log.length : Int) ≤ s.log.length + max (seek - s.time) 0 ∧
      rendered s1.log = rendered s.log ∧ s.time ≤ s1.time := by
  obtain ⟨s1, h1⟩ := seek_loop_total P hms (seek - s.time).toNat seek s (Int.self_le_toNat _)
  refine ⟨s1, ?_, seek_loop_post P _ seek s s1 h1, seek_loop_updates P hms _ seek s s1 h1,
    seek_loop_rendered P _ seek s s1 h1,
    seek_loop_time P (fun p => by have := hms p; omega) _ seek s s1 h1⟩
  intro fuel hf
  have hle : (seek - s.time).toNat ≤ fuel := by omega
  obtain ⟨e, rfl⟩ := Nat.exists_eq_add_of_le hle
  exact seek_loop_fuel_mono P _ seek s s1 h1 e

/-- C23, witness: a player at 70 Hz, whose updates last 14 ms, sought to
300 ms from the start of the song. -/
theorem seek_loop_terminates_witness :
    ∃ s1, (∀ fuel : Nat, 300 - fresh_state.time ≤ fuel →
        seek_loop (sample_player 100 ⟨70, 1⟩) fuel 300 fresh_state = some s1) ∧
      (300 ≤ s1.time ∨ s1.log.head? = some (Ev.update false)) ∧
      (s1.log.length : Int) ≤ fresh_state.log.length + max (300 - fresh_state.time) 0 ∧
      rendered s1.log = rendered fresh_state.log ∧ fresh_state.time ≤ s1.time :=
  seek_loop_terminates (sample_player 100 ⟨70, 1⟩)
    (fun _ => (by decide : (1 : Int) ≤ ms_per_update ⟨70, 1⟩)) 300 fresh_state

/-- C23, counterexample: a player refreshing at 2000 Hz whose `update` never
reports the end of the song has updates of `(int) (1000 / 2000) = 0` ms; sought
to 100 ms from the start, the seek loop leaves the elapsed time at 0 in every
pass and does not end, whatever the number of passes allowed. -/
theorem seek_loop_never_ends :
    ms_per_update ⟨2000, 1⟩ = 0 ∧
    (seek_loop (looping_player ⟨2000, 1⟩) 1000 100 fresh_state) = none ∧
    ¬ ∃ fuel : Nat, (seek_loop (looping_player ⟨2000, 1⟩) fuel 100 fresh_state).isSome = true := by
  refine ⟨by decide, seek_loop_stuck _ (by decide) _ _ _ (by decide), ?_⟩
  rintro ⟨fuel, h⟩
  rw [seek_loop_stuck _ (by decide) fuel 100 fresh_state (by decide)] at h
  simp at h

end AdPlugXMMS

namespace AdPlugXMMS

/-! ### Termination of the fill loop -/

theorem top_up_fuel_mono {σ : Type} (P : CPlayer σ) (freq : Int) (fuel : Nat)
    (s s1 : State σ) (h : top_up P freq fuel s = some s1) (extra : Nat) :
    top_up P freq (fuel + extra) s = some s1 := by
  induction fuel generalizing s with
  | zero =>
    simp only [top_up] at h
    split at h
    · simp at h
    · rename_i hlt
      simp only [Option.some.injEq] at h
      subst h
      cases extra with
      | zero => simp [top_up, hlt]
      | succ e => simp [top_up, hlt]
  | succ n ih =>
    rw [Nat.add_right_comm]
    simp only [top_up] at h ⊢
    split at h
    · rename_i hlt
      rw [if_pos hlt]
      exact ih _ h
    · rename_i hlt
      rw [if_neg hlt]
      exact h

theorem fill_fuel_mono {σ : Type} (P : CPlayer σ) (freq : Int) (fuel : Nat) (towrite : Int)
    (s s1 : State σ) (h : fill P freq fuel towrite s = some s1) (extra : Nat) :
    fill P freq (fuel + extra) towrite s = some s1 := by
  induction fuel generalizing s towrite with
  | zero =>
    simp only [fill] at h
    split at h
    · simp at h
    · rename_i hlt
      simp only [Option.some.injEq] at h
      subst h
      cases extra with
      | zero => simp [fill, hlt]
      | succ e => simp [fill, hlt]
  | succ n ih =>
    rw [Nat.add_right_comm]
    simp only [fill] at h ⊢
    split at h
    · rename_i hlt
      rw [if_pos hlt]
      cases ht : top_up P freq (n + 1) s with
      | none => simp [ht] at h
      | some s2 =>
        simp only [ht] at h
        have ht2 := top_up_fuel_mono P freq (n + 1) s s2 ht extra
        rw [Nat.add_right_comm] at ht2
        simp only [ht2]
        exact ih _ _ h
    · rename_i hlt
      rw [if_neg hlt]
      exact h

/-- The fill loop ends from every state when the frequency and the refresh
rate are positive. -/
theorem fill_terminates {σ : Type} (P : CPlayer σ)
    (hpos : ∀ p, 0 < (P.getrefresh p).num ∧ 0 < (P.getrefresh p).den) (freq : Int)
    (hfreq : 0 < freq) (n : Nat) (towrite : Int) (s : State σ) (hn : towrite ≤ n) :
    ∃ fuel s1, fill P freq fuel towrite s = some s1 := by
  induction n generalizing s towrite with
  | zero =>
    refine ⟨0, s, ?_⟩
    simp only [fill]
    rw [if_neg (by simp only [Nat.cast_zero] at hn; omega)]
  | succ n ih =>
    by_cases hlt : 0 < towrite
    · obtain ⟨s2, ht⟩ := top_up_total P freq hfreq (-s.toadd).toNat s (Int.self_le_toNat _)
      obtain ⟨hta, -⟩ := top_up_post P freq _ s s2 ht
      have hch := chunk_ge_four s2.toadd (P.getrefresh s2.p) hta (hpos s2.p).1 (hpos s2.p).2
      have hi1 : 1 ≤ min towrite (chunk s2.toadd (P.getrefresh s2.p)) := by
        rw [le_min_iff]; omega
      obtain ⟨f2, s3, hf⟩ := ih (towrite - min towrite (chunk s2.toadd (P.getrefresh s2.p)))
        ({ s2.call (Ev.opl_update (min towrite (chunk s2.toadd (P.getrefresh s2.p)))) with
            toadd := s2.toadd - consumed (P.getrefresh s2.p)
              (min towrite (chunk s2.toadd (P.getrefresh s2.p))) })
        (by push_cast at hn; omega)
      refine ⟨max (-s.toadd).toNat f2 + 1, s3, ?_⟩
      simp only [fill]
      rw [if_pos hlt]
      have ht2 := top_up_fuel_mono P freq _ s s2 ht
        (max (-s.toadd).toNat f2 + 1 - (-s.toadd).toNat)
      rw [Nat.add_sub_cancel' (by have := le_max_left (-s.toadd).toNat f2; omega)] at ht2
      simp only [ht2]
      have hf2 := fill_fuel_mono P freq f2 _ _ s3 hf (max (-s.toadd).toNat f2 - f2)
      rw [Nat.add_sub_cancel' (le_max_right _ _)] at hf2
      exact hf2
    · refine ⟨0, s, ?_⟩
      simp only [fill]
      rw [if_neg hlt]

/-- The chunks rendered by the fill loop for a count that is a multiple of 4
are positive multiples of 4 that add up to the count. -/
theorem fill_chunks_of_four {σ : Type} (P : CPlayer σ)
    (hpos : ∀ p, 0 < (P.getrefresh p).num ∧ 0 < (P.getrefresh p).den) (freq : Int)
    (fuel : Nat) (towrite : Int) (s s1 : State σ) (h0 : 0 ≤ towrite) (h4 : towrite % 4 = 0)
    (h : fill P freq fuel towrite s = some s1) :
    ∃ chunks : List Int, rendered s1.log = chunks ++ rendered s.log ∧
      (∀ c ∈ chunks, 4 ≤ c ∧ c % 4 = 0) ∧ chunks.sum = towrite := by
  induction fuel generalizing s towrite with
  | zero =>
    simp only [fill] at h
    split at h
    · simp at h
    · simp only [Option.some.injEq] at h
      subst h
      exact ⟨[], rfl, by simp, by simp; omega⟩
  | succ n ih =>
    simp only [fill] at h
    split at h
    · rename_i hpos_tw
      cases ht : top_up P freq (n + 1) s with
      | none => simp [ht] at h
      | some s2 =>
        simp only [ht] at h
        obtain ⟨hta, hr2⟩ := top_up_post P freq (n + 1) s s2 ht
        have hch := chunk_ge_four s2.toadd (P.getrefresh s2.p) hta (hpos s2.p).1 (hpos s2.p).2
        have hc4 : chunk s2.toadd (P.getrefresh s2.p) % 4 = 0 := by
          simp only [chunk]
          omega
        have hi : 4 ≤ min towrite (chunk s2.toadd (P.getrefresh s2.p)) ∧
            min towrite (chunk s2.toadd (P.getrefresh s2.p)) % 4 = 0 ∧
            min towrite (chunk s2.toadd (P.getrefresh s2.p)) ≤ towrite := by
          rcases min_cases towrite (chunk s2.toadd (P.getrefresh s2.p)) with ⟨he, -⟩ | ⟨he, -⟩
          · rw [he]; omega
          · rw [he]
            have := min_le_left towrite (chunk s2.toadd (P.getrefresh s2.p))
            rw [he] at this
            omega
        obtain ⟨chunks, hc1, hc2, hc3⟩ := ih _ _ (by omega) (by omega) h
        refine ⟨chunks ++ [min towrite (chunk s2.toadd (P.getrefresh s2.p))], ?_, ?_, ?_⟩
        · rw [hc1]
          simp [rendered, hr2]
        · intro c hc
          rcases List.mem_append.mp hc with hc | hc
          · exact hc2 c hc
          · rw [List.mem_singleton.mp hc]; exact ⟨hi.1, hi.2.1⟩
        · simp [hc3]
    · simp only [Option.some.injEq] at h
      subst h
      exact ⟨[], rfl, by simp, by simp; omega⟩

theorem sum_of_fours (l : List Int) (h : ∀ c ∈ l, 4 ≤ c ∧ c % 4 = 0) :
    l.sum % 4 = 0 ∧ 4 * (l.length : Int) ≤ l.sum := by
  induction l with
  | nil => simp
  | cons a l ih =>
    have ha := h a (List.mem_cons_self _ _)
    have hl := ih (fun c hc => h c (List.mem_cons_of_mem _ hc))
    simp only [List.sum_cons, List.length_cons, Nat.cast_add, Nat.cast_one]
    omega

end AdPlugXMMS

namespace AdPlugXMMS

/-- C24: with a positive configured frequency and a player whose refresh rate
is positive, the loop of `AdPlugXMMS::play` that tops up `toadd` ends from every
state, within `-toadd` updates, with `toadd` non-negative, and the fill loop
ends from every state: from some amount of fuel on it returns the same state,
having rendered the 512 samples in at most 128 chunks, each a positive multiple
of 4, so that the count still to be written after any number of chunks is a
multiple of 4. -/
theorem fill_loop_terminates {σ : Type} (P : CPlayer σ)
    (hpos : ∀ p, 0 < (P.getrefresh p).num ∧ 0 < (P.getrefresh p).den) (freq : Int)
    (hfreq : 0 < freq) (s : State σ) :
    (∃ s1, (∀ n : Nat, -s.toadd ≤ n → top_up P freq n s = some s1) ∧ 0 ≤ s1.toadd) ∧
    (∃ fuel s1, (∀ n : Nat, fuel ≤ n → fill P freq n SNDBUFSIZE s = some s1) ∧
      ∃ chunks : List Int, rendered s1.log = chunks ++ rendered s.log ∧
        (∀ c ∈ chunks, 0 < c ∧ c % 4 = 0) ∧ chunks.sum = 512 ∧
        (∀ k, (512 - (chunks.reverse.take k).sum) % 4 = 0) ∧
        chunks.length ≤ 128) := by
  refine ⟨?_, ?_⟩
  · obtain ⟨s1, ht⟩ := top_up_total P freq hfreq (-s.toadd).toNat s (Int.self_le_toNat _)
    refine ⟨s1, ?_, (top_up_post P freq _ s s1 ht).1⟩
    intro n hn
    have hle : (-s.toadd).toNat ≤ n := by omega
    obtain ⟨e, rfl⟩ := Nat.exists_eq_add_of_le hle
    exact top_up_fuel_mono P freq _ s s1 ht e
  · obtain ⟨fuel, s1, hf⟩ := fill_terminates P hpos freq hfreq 512 SNDBUFSIZE s
      (by simp [SNDBUFSIZE])
    refine ⟨fuel, s1, ?_, ?_⟩
    · intro n hn
      obtain ⟨e, rfl⟩ := Nat.exists_eq_add_of_le hn
      exact fill_fuel_mono P freq fuel _ s s1 hf e
    · obtain ⟨chunks, hc1, hc2, hc3⟩ := fill_chunks_of_four P hpos freq fuel SNDBUFSIZE s s1
        (by simp [SNDBUFSIZE]) (by simp [SNDBUFSIZE]) hf
      simp only [SNDBUFSIZE] at hc3
      refine ⟨chunks, hc1, fun c hc => ⟨by have := (hc2 c hc).1; omega, (hc2 c hc).2⟩, hc3,
        ?_, ?_⟩
      · intro k
        have := (sum_of_fours (chunks.reverse.take k)
          (fun c hc => hc2 c (List.mem_reverse.mp (List.mem_of_mem_take hc)))).1
        omega
      · have := (sum_of_fours chunks hc2).2
        omega

/-- C24, witness: a player at 70 Hz from the start of a song, at 44100 Hz. -/
theorem fill_loop_terminates_witness :
    (∃ s1, (∀ n : Nat, -fresh_state.toadd ≤ n →
        top_up (sample_player 100 ⟨70, 1⟩) 44100 n fresh_state = some s1) ∧ 0 ≤ s1.toadd) ∧
    (∃ fuel s1, (∀ n : Nat, fuel ≤ n →
        fill (sample_player 100 ⟨70, 1⟩) 44100 n SNDBUFSIZE fresh_state = some s1) ∧
      ∃ chunks : List Int, rendered s1.log = chunks ++ rendered fresh_state.log ∧
        (∀ c ∈ chunks, 0 < c ∧ c % 4 = 0) ∧ chunks.sum = 512 ∧
        (∀ k, (512 - (chunks.reverse.take k).sum) % 4 = 0) ∧
        chunks.length ≤ 128) :=
  fill_loop_terminates (sample_player 100 ⟨70, 1⟩)
    (fun _ => ⟨(by decide : (0 : Int) < 70), (by decide : (0 : Int) < 1)⟩) 44100
    (by decide) fresh_state

end AdPlugXMMS

namespace AdPlugXMMS

/-! ### The remembered file name and subsong -/

theorem select_subsong_cases (filename : String) (plr : Plr) :
    select_subsong filename plr
      = if plr.filename = some filename then plr else { subsong := 0, filename := some filename } := by
  simp only [select_subsong]
  by_cases h : plr.filename = some filename
  · rw [if_pos h, if_neg]
    rw [h]
    simp
  · rw [if_neg h, if_pos (Or.inr h)]

/-- When the player was created and the run returns a final state, the log
starts, in order of time, with the opening calls, the creation of the player,
the allocation of the buffer and the rewind to the selected subsong. -/
theorem play_log_prefix {σ : Type} (P : CPlayer σ) (c : Conf) (filename : String)
    (plr : Plr) (p0 : σ) (fuel : Nat) (ticks : List Tick)
    (h : (play P c filename plr (some p0) fuel ticks).final.isSome = true) :
    ∃ l, (play P c filename plr (some p0) fuel ticks).log
      = l ++ Ev.rewind (select_subsong filename plr).subsong
          :: Ev.malloc (SNDBUFSIZE * sampsize_of c) :: Ev.factory true :: open_log c := by
  cases hm : main_loop P (sampsize_of c) (select_subsong filename plr).subsong fuel ticks
      (loop_entry P c (select_subsong filename plr) p0) with
  | none => simp [play, hm, free_all] at h
  | some st =>
    obtain ⟨l, hl, -⟩ := adplug_main_loop_frame P _ _ fuel ticks _ st hm
    cases st with
    | next s1 =>
      simp only [Step.state] at hl
      refine ⟨l, ?_⟩
      simp only [play, hm, free_all, hl]
      simp [loop_entry]
    | exit s1 =>
      simp only [Step.state] at hl
      refine ⟨Ev.free_sndbuf :: Ev.delete_player :: l, ?_⟩
      simp only [play, hm, free_all, hl]
      simp [loop_entry]

/-- C27: `AdPlugXMMS::play` with the player created and a file name other than
the remembered one (or none remembered) returns with the new name remembered
and the subsong index 0, and the rewind, made after that, is to subsong 0; with
the remembered name it leaves both as they were and rewinds to the remembered
subsong; when no player could be created neither the remembered name nor the
subsong index changes. -/
theorem subsong_reset_on_new_file {σ : Type} (P : CPlayer σ) (c : Conf) (filename : String)
    (plr : Plr) (p0 : σ) (fuel : Nat) (ticks : List Tick) :
    (plr.filename ≠ some filename →
      (play P c filename plr (some p0) fuel ticks).plr
        = { subsong := 0, filename := some filename } ∧
      ((play P c filename plr (some p0) fuel ticks).final.isSome = true →
        ∃ l, (play P c filename plr (some p0) fuel ticks).log
          = l ++ Ev.rewind 0 :: Ev.malloc (SNDBUFSIZE * sampsize_of c)
              :: Ev.factory true :: open_log c)) ∧
    (plr.filename = some filename →
      (play P c filename plr (some p0) fuel ticks).plr = plr ∧
      ((play P c filename plr (some p0) fuel ticks).final.isSome = true →
        ∃ l, (play P c filename plr (some p0) fuel ticks).log
          = l ++ Ev.rewind plr.subsong :: Ev.malloc (SNDBUFSIZE * sampsize_of c)
              :: Ev.factory true :: open_log c)) ∧
    (play P c filename plr none fuel ticks).plr = plr := by
  have hplr : (play P c filename plr (some p0) fuel ticks).plr = select_subsong filename plr := by
    simp only [play]
    cases main_loop P (sampsize_of c) (select_subsong filename plr).subsong fuel ticks
      (loop_entry P c (select_subsong filename plr) p0) with
    | none => rfl
    | some st => cases st <;> rfl
  refine ⟨?_, ?_, rfl⟩
  · intro hne
    have hsel : select_subsong filename plr = { subsong := 0, filename := some filename } := by
      rw [select_subsong_cases, if_neg hne]
    refine ⟨by rw [hplr, hsel], fun h => ?_⟩
    have := play_log_prefix P c filename plr p0 fuel ticks h
    rw [hsel] at this
    exact this
  · intro heq
    have hsel : select_subsong filename plr = plr := by
      rw [select_subsong_cases, if_pos heq]
    refine ⟨by rw [hplr, hsel], fun h => ?_⟩
    have := play_log_prefix P c filename plr p0 fuel ticks h
    rw [hsel] at this
    exact this

/-- C27, witness: with subsong 3 of `a.rad` remembered, playing `b.rad` resets
the subsong to 0 and rewinds to it; playing `a.rad` again keeps subsong 3. -/
theorem subsong_reset_on_new_file_witness :
    (some "a.rad" : Option String) ≠ some "b.rad" ∧
    ((play (sample_player 100 ⟨70, 1⟩) default_conf "b.rad" ⟨3, some "a.rad"⟩ (some 0) 20
        [plain_tick]).plr = { subsong := 0, filename := some "b.rad" } ∧
      ((play (sample_player 100 ⟨70, 1⟩) default_conf "b.rad" ⟨3, some "a.rad"⟩ (some 0) 20
          [plain_tick]).final.isSome = true →
        ∃ l, (play (sample_player 100 ⟨70, 1⟩) default_conf "b.rad" ⟨3, some "a.rad"⟩ (some 0) 20
            [plain_tick]).log
          = l ++ Ev.rewind 0 :: Ev.malloc (SNDBUFSIZE * sampsize_of default_conf)
              :: Ev.factory true :: open_log default_conf)) ∧
    (play (sample_player 100 ⟨70, 1⟩) default_conf "b.rad" ⟨3, some "a.rad"⟩ (some 0) 20
        [plain_tick]).final.isSome = true ∧
    ((play (sample_player 100 ⟨70, 1⟩) default_conf "a.rad" ⟨3, some "a.rad"⟩ (some 0) 20
        [plain_tick]).plr = ⟨3, some "a.rad"⟩ ∧
      ((play (sample_player 100 ⟨70, 1⟩) default_conf "a.rad" ⟨3, some "a.rad"⟩ (some 0) 20
          [plain_tick]).final.isSome = true →
        ∃ l, (play (sample_player 100 ⟨70, 1⟩) default_conf "a.rad" ⟨3, some "a.rad"⟩ (some 0) 20
            [plain_tick]).log
          = l ++ Ev.rewind 3 :: Ev.malloc (SNDBUFSIZE * sampsize_of default_conf)
              :: Ev.factory true :: open_log default_conf)) :=
  ⟨by decide,
   (subsong_reset_on_new_file (sample_player 100 ⟨70, 1⟩) default_conf "b.rad"
      ⟨3, some "a.rad"⟩ 0 20 [plain_tick]).1 (by decide),
   by decide,
   (subsong_reset_on_new_file (sample_player 100 ⟨70, 1⟩) default_conf "a.rad"
      ⟨3, some "a.rad"⟩ 0 20 [plain_tick]).2.1 rfl⟩

end AdPlugXMMS

namespace SongChange

/-! ## The song-change plugin: `escape_shell_chars` and `check_command` -/

theorem strchr_special (c : Char) (h : c ≠ NUL) :
    strchr special c = true ↔ (c = dollar ∨ c = backquote ∨ c = dquote ∨ c = backslash) := by
  simp [strchr, special, h]

theorem c_string_cons (c : Char) (rest : List Char) :
    c_string (c :: rest) = if c = NUL then [] else c :: c_string rest := by
  by_cases h : c = NUL
  · simp [c_string, List.takeWhile, h]
  · simp [c_string, List.takeWhile, h]

theorem strlen_eq (mem : List Char) : strlen mem = (c_string mem).length := by
  induction mem with
  | nil => rfl
  | cons c rest ih =>
    rw [c_string_cons]
    simp only [strlen]
    split
    · rfl
    · simp [ih]

theorem count_special_eq (mem : List Char) (num : Nat) :
    count_special mem num
      = num + (c_string mem).countP (fun c => decide (c ∈ special)) := by
  induction mem generalizing num with
  | nil => simp [count_special, c_string]
  | cons c rest ih =>
    rw [c_string_cons]
    simp only [count_special]
    by_cases h : c = NUL
    · simp [h]
    · rw [if_neg h, if_neg h, ih]
      have hs : strchr special c = decide (c ∈ special) := by
        simp [strchr, h]
      rw [hs, List.countP_cons]
      by_cases hm : c ∈ special
      · simp [hm]; omega
      · simp [hm]

theorem copy_escaped_eq (mem : List Char) :
    copy_escaped mem = backslash_inserted (c_string mem) ++ [NUL] := by
  induction mem with
  | nil => rfl
  | cons c rest ih =>
    rw [c_string_cons]
    simp only [copy_escaped]
    by_cases h : c = NUL
    · rw [if_pos h, if_pos h]
      rfl
    · rw [if_neg h, if_neg h, ih]
      simp only [backslash_inserted, List.flatMap_cons, List.append_assoc]
      congr 1
      by_cases hs : strchr special c = true
      · rw [if_pos hs, if_pos ((strchr_special c h).mp hs)]
      · rw [if_neg hs, if_neg (fun hc => hs ((strchr_special c h).mpr hc))]

theorem length_backslash_inserted (s : List Char) :
    (backslash_inserted s).length
      = s.length + s.countP (fun c => decide (c ∈ special)) := by
  induction s with
  | nil => rfl
  | cons c rest ih =>
    have hunf : backslash_inserted (c :: rest)
        = (if c = dollar ∨ c = backquote ∨ c = dquote ∨ c = backslash then [backslash, c]
            else [c]) ++ backslash_inserted rest := by
      simp [backslash_inserted, List.flatMap_cons]
    rw [hunf, List.length_append, ih, List.countP_cons]
    by_cases hm : c = dollar ∨ c = backquote ∨ c = dquote ∨ c = backslash
    · have hmem : c ∈ special := by simpa [special] using hm
      rw [if_pos hm]
      simp [hmem]
      omega
    · have hmem : c ∉ special := by simpa [special] using hm
      rw [if_neg hm]
      simp [hmem]
      omega

/-- C25: for every string `s`, given as the characters that memory holds
before the terminator, `escape_shell_chars` stores `s` with one backslash
inserted immediately before each dollar sign, backquote, double quote and
backslash, every other character copied unchanged and in order, followed by the
terminator; the length of the result is the length of `s` plus the number of
such characters, and the block allocated for it is one character longer, which
is exactly what is stored. -/
theorem escape_shell_chars_inserts_backslashes (mem : List Char) :
    (escape_shell_chars mem).stored = backslash_inserted (c_string mem) ++ [NUL] ∧
    (backslash_inserted (c_string mem)).length
      = (c_string mem).length + (c_string mem).countP (fun c => decide (c ∈ special)) ∧
    (escape_shell_chars mem).allocated = (backslash_inserted (c_string mem)).length + 1 ∧
    (escape_shell_chars mem).stored.length = (escape_shell_chars mem).allocated := by
  have h1 := copy_escaped_eq mem
  have h2 := length_backslash_inserted (c_string mem)
  have h3 : (escape_shell_chars mem).allocated
      = (backslash_inserted (c_string mem)).length + 1 := by
    simp only [escape_shell_chars]
    rw [strlen_eq, count_special_eq, h2]
    omega
  refine ⟨h1, h2, h3, ?_⟩
  rw [h3]
  simp only [escape_shell_chars]
  rw [h1]
  simp

end SongChange

namespace SongChange

/-- C26: evaluation of `check_command` and `edit_cb`.  On the command `echo %`
the percent sign is the last character, outside quotes and followed by no
letter, yet `check_command` returns -1, because the search of `dangerous` for
the terminator that follows succeeds, and `edit_cb` shows the warning; on
`echo %s` and on the quoted `echo "%s"` the result is as the condition on the
letters says. -/
theorem check_command_flags_trailing_percent :
    check_command trailing_percent = -1 ∧
    percent_letter_outside_quotes trailing_percent = false ∧
    strchr dangerous NUL = true ∧
    edit_cb ⟨trailing_percent, [], [], []⟩ = [Ev.show_warn_img, Ev.show_warn_label] ∧
    check_command bare_parameter = -1 ∧
    percent_letter_outside_quotes bare_parameter = true ∧
    check_command quoted_parameter = 0 ∧
    percent_letter_outside_quotes quoted_parameter = false ∧
    edit_cb ⟨quoted_parameter, [], [], []⟩ = [Ev.hide_warn_img, Ev.hide_warn_label] := by
  decide

end SongChange

namespace AdPlugXMMS

/-! ### The file-type exclusion list -/

theorem exclude_string_eq (all players : List CPlayerDesc) (acc : List Char) :
    all.foldl (fun exclude i =>
        if i ∈ players then exclude else add_filetype exclude i.filetype) acc
      = (excluded_types all players).foldl add_filetype acc := by
  induction all generalizing acc with
  | nil => rfl
  | cons d rest ih =>
    simp only [List.foldl_cons, excluded_types, List.filter_cons]
    by_cases h : d ∈ players
    · simp only [h, if_true, not_true_eq_false, decide_False, Bool.false_eq_true, if_false]
      exact ih acc
    · simp only [h, if_false, not_false_eq_true, decide_True, if_true, List.map_cons,
        List.foldl_cons]
      exact ih _

theorem foldl_add_filetype (ex : List (List Char)) (acc : List Char) (hacc : acc ≠ [])
    (hne : ∀ t ∈ ex, t ≠ []) :
    ex.foldl add_filetype acc ++ [colon]
      = acc ++ [colon] ++ ex.flatMap (fun t => t ++ [colon]) := by
  induction ex generalizing acc with
  | nil => simp
  | cons t rest ih =>
    have ht : t ≠ [] := hne t (List.mem_cons_self _ _)
    have hstep : add_filetype acc t = acc ++ [colon] ++ t := by
      simp [add_filetype, hacc]
    rw [List.foldl_cons, hstep, ih _ (by simp [ht]) (fun u hu => hne u (List.mem_cons_of_mem _ hu))]
    simp [List.flatMap_cons]

theorem join_with_colon (ex : List (List Char)) (hne : ∀ t ∈ ex, t ≠ []) (hex : ex ≠ []) :
    ex.foldl add_filetype [] ++ [colon] = ex.flatMap (fun t => t ++ [colon]) := by
  cases ex with
  | nil => exact absurd rfl hex
  | cons t rest =>
    have ht : t ≠ [] := hne t (List.mem_cons_self _ _)
    have hstep : add_filetype [] t = t := by simp [add_filetype]
    rw [List.foldl_cons, hstep,
      foldl_add_filetype rest t ht (fun u hu => hne u (List.mem_cons_of_mem _ hu))]
    simp [List.flatMap_cons]

theorem c_str_cons (c : Char) (rest : List Char) :
    c_str (c :: rest) = if c = NUL then [] else c :: c_str rest := by
  by_cases h : c = NUL
  · simp [c_str, List.takeWhile, h]
  · simp [c_str, List.takeWhile, h]

theorem c_str_of_no_nul (s : List Char) (h : NUL ∉ s) : c_str s = s := by
  induction s with
  | nil => rfl
  | cons c rest ih =>
    have hc : c ≠ NUL := fun e => h (e ▸ List.mem_cons_self _ _)
    have hr : NUL ∉ rest := fun e => h (List.mem_cons_of_mem _ e)
    rw [c_str_cons, if_neg hc, ih hr]

theorem c_str_append_nul (t rest : List Char) (h : NUL ∉ t) :
    c_str (t ++ NUL :: rest) = t := by
  induction t with
  | nil => simp [c_str_cons]
  | cons c u ih =>
    have hc : c ≠ NUL := fun e => h (e ▸ List.mem_cons_self _ _)
    have hr : NUL ∉ u := fun e => h (List.mem_cons_of_mem _ e)
    rw [List.cons_append, c_str_cons, if_neg hc, ih hr]

theorem strlen_append_nul (t rest : List Char) (h : NUL ∉ t) :
    strlen (t ++ NUL :: rest) = t.length := by
  induction t with
  | nil => simp [strlen]
  | cons c u ih =>
    have hc : c ≠ NUL := fun e => h (e ▸ List.mem_cons_self _ _)
    have hr : NUL ∉ u := fun e => h (List.mem_cons_of_mem _ e)
    simp [strlen, hc, ih hr]

theorem replace_colons (ex : List (List Char)) (hcol : ∀ t ∈ ex, colon ∉ t) :
    str_replace_char (ex.flatMap (fun t => t ++ [colon])) colon NUL
      = ex.flatMap (fun t => t ++ [NUL]) := by
  induction ex with
  | nil => rfl
  | cons t rest ih =>
    have ht : colon ∉ t := hcol t (List.mem_cons_self _ _)
    have hmap : t.map (fun c => if c = colon then NUL else c) = t := by
      conv_rhs => rw [← List.map_id t]
      apply List.map_congr_left
      intro c hc
      have : c ≠ colon := fun e => ht (e ▸ hc)
      simp [this]
    have ih2 := ih (fun u hu => hcol u (List.mem_cons_of_mem _ hu))
    simp only [str_replace_char] at ih2 ⊢
    simp only [List.flatMap_cons, List.map_append, ih2, hmap]
    simp

theorem walk_segments (ex : List (List Char)) (hne : ∀ t ∈ ex, t ≠ [])
    (hnul : ∀ t ∈ ex, NUL ∉ t) (fuel : Nat) (hfuel : ex.length ≤ fuel) :
    walk fuel (ex.flatMap (fun t => t ++ [NUL]) ++ [NUL]) = ex := by
  induction ex generalizing fuel with
  | nil =>
    cases fuel with
    | zero => rfl
    | succ n => simp [walk]
  | cons t rest ih =>
    have ht : t ≠ [] := hne t (List.mem_cons_self _ _)
    have hn : NUL ∉ t := hnul t (List.mem_cons_self _ _)
    cases fuel with
    | zero => simp at hfuel
    | succ n =>
      have hbuf : (t :: rest).flatMap (fun t => t ++ [NUL]) ++ [NUL]
          = t ++ NUL :: (rest.flatMap (fun t => t ++ [NUL]) ++ [NUL]) := by
        simp [List.flatMap_cons]
      rw [hbuf]
      simp only [walk]
      have hhead : (t ++ NUL :: (rest.flatMap (fun t => t ++ [NUL]) ++ [NUL])).headD NUL ≠ NUL := by
        cases t with
        | nil => exact absurd rfl ht
        | cons c u =>
          intro e
          exact hn (by simp only [List.cons_append, List.headD_cons] at e; rw [e]; exact List.mem_cons_self _ _)
      rw [if_neg hhead, c_str_append_nul t _ hn, strlen_append_nul t _ hn]
      have hdrop : (t ++ NUL :: (rest.flatMap (fun t => t ++ [NUL]) ++ [NUL])).drop (t.length + 1)
          = rest.flatMap (fun t => t ++ [NUL]) ++ [NUL] := by
        rw [show t ++ NUL :: (rest.flatMap (fun t => t ++ [NUL]) ++ [NUL])
          = (t ++ [NUL]) ++ (rest.flatMap (fun t => t ++ [NUL]) ++ [NUL]) by simp]
        exact List.drop_left' (by simp)
      rw [hdrop, ih (fun u hu => hne u (List.mem_cons_of_mem _ hu))
        (fun u hu => hnul u (List.mem_cons_of_mem _ hu)) n (by simpa using hfuel)]

theorem no_nul_foldl (ex : List (List Char)) (acc : List Char) (hacc : NUL ∉ acc)
    (hnul : ∀ t ∈ ex, NUL ∉ t) : NUL ∉ ex.foldl add_filetype acc := by
  induction ex generalizing acc with
  | nil => exact hacc
  | cons t rest ih =>
    rw [List.foldl_cons]
    apply ih
    · have ht := hnul t (List.mem_cons_self _ _)
      have hc : NUL ≠ colon := by decide
      simp only [add_filetype]
      split <;> simp [hacc, ht, hc]
    · exact fun u hu => hnul u (List.mem_cons_of_mem _ hu)

/-- The parse of `init` undoes the join of `cleanup` on file types that are not
empty and contain neither a colon nor a terminator. -/
theorem init_of_join (ex : List (List Char)) (hne : ∀ t ∈ ex, t ≠ [])
    (hcol : ∀ t ∈ ex, colon ∉ t) (hnul : ∀ t ∈ ex, NUL ∉ t) :
    init_exclude (c_str (ex.foldl add_filetype [])) = ex := by
  rw [c_str_of_no_nul _ (no_nul_foldl ex [] (by simp) hnul)]
  cases hex : ex with
  | nil => simp [init_exclude]
  | cons t rest =>
    rw [← hex]
    have hjoin := join_with_colon ex hne (by rw [hex]; simp)
    have ht : t ≠ [] := hne t (by rw [hex]; exact List.mem_cons_self _ _)
    have hn : NUL ∉ t := hnul t (by rw [hex]; exact List.mem_cons_self _ _)
    have hhead : (ex.foldl add_filetype []).headD NUL ≠ NUL := by
      have h1 : (ex.foldl add_filetype [] ++ [colon]).headD NUL ≠ NUL := by
        rw [hjoin, hex]
        cases t with
        | nil => exact absurd rfl ht
        | cons c u =>
          intro e
          apply hn
          simp only [List.flatMap_cons, List.cons_append, List.headD_cons] at e
          rw [e]
          exact List.mem_cons_self _ _
      cases hf : ex.foldl add_filetype [] with
      | nil =>
        have hlen := congrArg List.length hjoin
        rw [hf, hex] at hlen
        simp at hlen
        have htl : 0 < t.length := List.length_pos.mpr ht
        omega
      | cons c u =>
        rw [hf] at h1
        simpa using h1
    simp only [init_exclude]
    rw [if_pos hhead, hjoin, replace_colons ex hcol]
    apply walk_segments ex hne hnul
    simp only [List.length_append, List.length_singleton]
    have : ex.length ≤ (ex.flatMap (fun t => t ++ [NUL])).length := by
      clear hjoin hhead hex
      induction ex with
      | nil => simp
      | cons a r ih =>
        have := ih (fun u hu => hne u (List.mem_cons_of_mem _ hu))
          (fun u hu => hcol u (List.mem_cons_of_mem _ hu))
          (fun u hu => hnul u (List.mem_cons_of_mem _ hu))
        simp only [List.flatMap_cons, List.length_append, List.length_cons, List.length_nil]
        omega
    omega

end AdPlugXMMS

namespace AdPlugXMMS

/-- C28: when no excluded file type is empty or contains a colon (or a
terminator, which no C string contains), the procedure of `AdPlugXMMS::init`
applied to the string that `AdPlugXMMS::cleanup` stores passes to
`lookup_filetype` exactly the excluded file types, in the same order; the
string stored is the types joined by colons, that is, followed by one more
colon it is each type followed by a colon; and with nothing excluded the
string is empty and `init` removes nothing. -/
theorem exclusion_list_round_trips (all players : List CPlayerDesc)
    (hne : ∀ t ∈ excluded_types all players, t ≠ [])
    (hcol : ∀ t ∈ excluded_types all players, colon ∉ t)
    (hnul : ∀ t ∈ excluded_types all players, NUL ∉ t) :
    init_exclude (cleanup_exclude all players) = excluded_types all players ∧
    (excluded_types all players ≠ [] →
      cleanup_exclude all players ++ [colon]
        = (excluded_types all players).flatMap (fun t => t ++ [colon])) ∧
    (excluded_types all players = [] →
      cleanup_exclude all players = [] ∧ init_exclude (cleanup_exclude all players) = []) := by
  have hs : exclude_string all players = (excluded_types all players).foldl add_filetype [] :=
    exclude_string_eq all players []
  have hrt := init_of_join (excluded_types all players) hne hcol hnul
  refine ⟨?_, ?_, ?_⟩
  · simp only [cleanup_exclude]
    rw [hs]
    exact hrt
  · intro hex
    simp only [cleanup_exclude]
    rw [hs, c_str_of_no_nul _ (no_nul_foldl _ [] (by simp) hnul)]
    exact join_with_colon _ hne hex
  · intro hex
    have hc : cleanup_exclude all players = [] := by
      simp only [cleanup_exclude]
      rw [hs, hex]
      rfl
    refine ⟨hc, ?_⟩
    rw [hc]
    rfl

/-- C28, witness: of four players, `hsc`, `imf` and `d00` are excluded; the
string stored is `hsc:imf:d00`, and `init` looks up these three types. -/
theorem exclusion_list_round_trips_witness :
    cleanup_exclude sample_players enabled_players = "hsc:imf:d00".toList ∧
    (init_exclude (cleanup_exclude sample_players enabled_players)
        = excluded_types sample_players enabled_players ∧
      (excluded_types sample_players enabled_players ≠ [] →
        cleanup_exclude sample_players enabled_players ++ [colon]
          = (excluded_types sample_players enabled_players).flatMap (fun t => t ++ [colon])) ∧
      (excluded_types sample_players enabled_players = [] →
        cleanup_exclude sample_players enabled_players = [] ∧
        init_exclude (cleanup_exclude sample_players enabled_players) = [])) :=
  ⟨by decide,
   exclusion_list_round_trips sample_players enabled_players
     (by decide) (by decide) (by decide)⟩

end AdPlugXMMS

namespace Skins

/-! ## The skins interface: volume and balance sliders, oscilloscope -/

theorem CLAMP_range (x : Int) : 0 ≤ CLAMP x 0 100 ∧ CLAMP x 0 100 ≤ 100 ∧
    CLAMP x 0 100 = max 0 (min x 100) := by
  simp only [CLAMP]
  split
  · refine ⟨by omega, by omega, ?_⟩
    rw [min_eq_right (by omega), max_eq_right (by omega)]
  · split
    · refine ⟨by omega, by omega, ?_⟩
      rw [min_eq_left (by omega), max_eq_left (by omega)]
    · refine ⟨by omega, by omega, ?_⟩
      rw [min_eq_left (by omega), max_eq_right (by omega)]

theorem nearest_range (round100 : Int → Int → Int) (hn : nearest round100) (a b : Int)
    (h0 : 0 ≤ a) (hab : a < b) (hb : b ≤ 100) :
    0 ≤ round100 a b ∧ round100 a b ≤ 99 := by
  have h := hn a b h0 hab hb
  have hpos : 0 < b := by omega
  have h1 := abs_le.mp (show |round100 a b * b - 100 * a| ≤ b by
    have := abs_nonneg (round100 a b * b - 100 * a); omega)
  have h2 : 2 * (round100 a b * b - 100 * a) ≤ b := by
    have := le_abs_self (round100 a b * b - 100 * a); omega
  have h3 : 2 * (100 * a - round100 a b * b) ≤ b := by
    have := neg_abs_le (round100 a b * b - 100 * a); omega
  constructor
  · by_contra hneg
    have : round100 a b ≤ -1 := by omega
    have : round100 a b * b ≤ -1 * b := Int.mul_le_mul_of_nonneg_right this hpos.le
    omega
  · by_contra hbig
    have : 100 ≤ round100 a b := by omega
    have : 100 * b ≤ round100 a b * b := Int.mul_le_mul_of_nonneg_right this hpos.le
    omega

theorem rint_exact_nearest : nearest rint_exact := by
  intro a b h0 hab hb
  have hpos : 0 < b := by omega
  have hdiv := Int.ediv_add_emod (100 * a) b
  have hr0 := Int.emod_nonneg (100 * a) (show b ≠ 0 by omega)
  have hr1 := Int.emod_lt_of_pos (100 * a) hpos
  simp only [rint_exact]
  generalize (100 * a) / b = q at hdiv ⊢
  generalize (100 * a) % b = r at hdiv hr0 hr1 ⊢
  have e1 : q * b - 100 * a = -r := by rw [← hdiv]; ring
  have e2 : (q + 1) * b - 100 * a = b - r := by rw [← hdiv]; ring
  split
  · rw [e1, abs_neg, abs_of_nonneg hr0]; omega
  · split
    · rw [e2, abs_of_nonneg (by omega)]; omega
    · split
      · rw [e1, abs_neg, abs_of_nonneg hr0]; omega
      · rw [e2, abs_of_nonneg (by omega)]; omega

/-- C29: in `ui_main_evlistener_volume_change`, whatever nearest integer the
floating-point rounding yields, for every pair of host volumes `l`, `r`, with
`vl`, `vr` the values clamped to 0..100: no division by zero occurs; the volume
slider value is the larger of `vl` and `vr` and lies in 0..100; the balance
lies in -100..100, is negative exactly when `vl > vr`, positive exactly when
`vl < vr` and 0 exactly when `vl = vr`; with the channels swapped the volume is
the same and the balance is the negated one. -/
theorem volume_and_balance_sliders (round100 : Int → Int → Int) (hn : nearest round100)
    (l r : Int) :
    ∃ s, ui_main_evlistener_volume_change round100 l r = some s ∧
      s.volume = max (CLAMP l 0 100) (CLAMP r 0 100) ∧
      CLAMP l 0 100 = max 0 (min l 100) ∧ CLAMP r 0 100 = max 0 (min r 100) ∧
      0 ≤ s.volume ∧ s.volume ≤ 100 ∧ -100 ≤ s.balance ∧ s.balance ≤ 100 ∧
      (s.balance < 0 ↔ CLAMP l 0 100 > CLAMP r 0 100) ∧
      (0 < s.balance ↔ CLAMP l 0 100 < CLAMP r 0 100) ∧
      (s.balance = 0 ↔ CLAMP l 0 100 = CLAMP r 0 100) ∧
      ∃ s', ui_main_evlistener_volume_change round100 r l = some s' ∧
        s'.volume = s.volume ∧ s'.balance = -s.balance := by
  obtain ⟨hl0, hl1, hl2⟩ := CLAMP_range l
  obtain ⟨hr0, hr1, hr2⟩ := CLAMP_range r
  simp only [ui_main_evlistener_volume_change, percentage, MAX]
  generalize CLAMP l 0 100 = vl at *
  generalize CLAMP r 0 100 = vr at *
  rcases lt_trichotomy vl vr with h | h | h
  · obtain ⟨ha, hb⟩ := nearest_range round100 hn vl vr hl0 h hr1
    have hvr : vr ≠ 0 := by omega
    have c1 : ¬ vl > vr := by omega
    have c2 : vr > vl := h
    refine ⟨⟨vr, 100 - round100 vl vr⟩, by simp [c1, h, hvr], ?_, hl2, hr2, ?_⟩
    · rw [max_eq_right h.le]
    · refine ⟨by show 0 ≤ vr; omega, hr1, by show -100 ≤ 100 - round100 vl vr; omega,
        by show 100 - round100 vl vr ≤ 100; omega, ?_, ?_, ?_, ?_⟩
      · show 100 - round100 vl vr < 0 ↔ vl > vr
        constructor <;> intro <;> omega
      · show 0 < 100 - round100 vl vr ↔ vl < vr
        constructor <;> intro <;> omega
      · show 100 - round100 vl vr = 0 ↔ vl = vr
        constructor <;> intro <;> omega
      · refine ⟨⟨vr, round100 vl vr - 100⟩, by simp [c2, hvr], rfl, ?_⟩
        show round100 vl vr - 100 = -(100 - round100 vl vr)
        omega
  · subst h
    refine ⟨⟨vl, 0⟩, by simp, ?_, hl2, hr2, ?_⟩
    · rw [max_self]
    · refine ⟨hl0, hl1, by show (-100 : Int) ≤ 0; decide, by show (0 : Int) ≤ 100; decide,
        ?_, ?_, ?_, ?_⟩
      · show (0 : Int) < 0 ↔ vl > vl
        constructor <;> intro <;> omega
      · show (0 : Int) < 0 ↔ vl < vl
        constructor <;> intro <;> omega
      · show (0 : Int) = 0 ↔ vl = vl
        constructor <;> intro <;> rfl
      · exact ⟨⟨vl, 0⟩, by simp, rfl, rfl⟩
  · obtain ⟨ha, hb⟩ := nearest_range round100 hn vr vl hr0 h hl1
    have hvl : vl ≠ 0 := by omega
    have c1 : vl > vr := h
    have c2 : ¬ vr > vl := by omega
    refine ⟨⟨vl, round100 vr vl - 100⟩, by simp [c1, hvl], ?_, hl2, hr2, ?_⟩
    · rw [max_eq_left h.le]
    · refine ⟨by show 0 ≤ vl; omega, hl1, by show -100 ≤ round100 vr vl - 100; omega,
        by show round100 vr vl - 100 ≤ 100; omega, ?_, ?_, ?_, ?_⟩
      · show round100 vr vl - 100 < 0 ↔ vl > vr
        constructor <;> intro <;> omega
      · show 0 < round100 vr vl - 100 ↔ vl < vr
        constructor <;> intro <;> omega
      · show round100 vr vl - 100 = 0 ↔ vl = vr
        constructor <;> intro <;> omega
      · refine ⟨⟨vl, 100 - round100 vr vl⟩, by simp [c2, h, hvl], rfl, ?_⟩
        show 100 - round100 vr vl = -(round100 vr vl - 100)
        omega

end Skins

namespace Skins

/-- C29, witness: with the exact rounding, the host volumes 150 and 23 give
the volume 100 and the balance -77; swapped they give the balance 77. -/
theorem volume_and_balance_sliders_witness :
    ui_main_evlistener_volume_change rint_exact 150 23 = some ⟨100, -77⟩ ∧
    ui_main_evlistener_volume_change rint_exact 23 150 = some ⟨100, 77⟩ ∧
    ∃ s, ui_main_evlistener_volume_change rint_exact 150 23 = some s ∧
      s.volume = max (CLAMP 150 0 100) (CLAMP 23 0 100) ∧
      CLAMP 150 0 100 = max 0 (min 150 100) ∧ CLAMP 23 0 100 = max 0 (min 23 100) ∧
      0 ≤ s.volume ∧ s.volume ≤ 100 ∧ -100 ≤ s.balance ∧ s.balance ≤ 100 ∧
      (s.balance < 0 ↔ CLAMP 150 0 100 > CLAMP 23 0 100) ∧
      (0 < s.balance ↔ CLAMP 150 0 100 < CLAMP 23 0 100) ∧
      (s.balance = 0 ↔ CLAMP 150 0 100 = CLAMP 23 0 100) ∧
      ∃ s', ui_main_evlistener_volume_change rint_exact 23 150 = some s' ∧
        s'.volume = s.volume ∧ s'.balance = -s.balance :=
  ⟨by decide, by decide, volume_and_balance_sliders rint_exact rint_exact_nearest 150 23⟩

end Skins

namespace Skins

theorem scope_step_range (length : Int) (h0 : 0 ≤ length) (h1 : length ≤ 512) :
    0 ≤ scope_step length ∧ scope_step length ≤ 1771 := by
  simp only [scope_step]
  rw [Int.tdiv_eq_ediv (by omega) (by decide)]
  omega

theorem scope_value_range (x : Int) : 0 ≤ scope_value x ∧ scope_value x ≤ 12 := by
  simp only [scope_value]
  split
  · omega
  · split <;> omega

theorem sample_at_some (mono_pcm : List Int) (hlen : mono_pcm.length = 512) (pos : Int)
    (h0 : 0 ≤ pos) (h1 : pos / 256 < 512) :
    ∃ x, sample_at mono_pcm pos = some x := by
  have hq : 0 ≤ pos / 256 := by omega
  have hlt : (pos / 256).toNat < mono_pcm.length := by omega
  refine ⟨mono_pcm[(pos / 256).toNat], ?_⟩
  simp only [sample_at]
  rw [if_pos hq, List.getElem?_eq_getElem hlt]

theorem scope_loop_ok (mono_pcm : List Int) (hlen : mono_pcm.length = 512)
    (step : Int) (hstep : 0 ≤ step)
    (n : Nat) (pos : Int) (hpos : 0 ≤ pos) (hlast : n = 0 ∨ pos + (n - 1) * step < 131072) :
    ∃ vals, scope_loop mono_pcm step n pos = some vals ∧ vals.length = n ∧
      ∀ v ∈ vals, 0 ≤ v ∧ v ≤ 12 := by
  induction n generalizing pos with
  | zero => exact ⟨[], rfl, rfl, by simp⟩
  | succ n ih =>
    have hlast2 : pos + n * step < 131072 := by
      rcases hlast with h | h
      · omega
      · push_cast at h
        simpa using h
    have hn : 0 ≤ (n : Int) * step := by positivity
    obtain ⟨x, hx⟩ := sample_at_some mono_pcm hlen pos hpos (by omega)
    obtain ⟨vals, hv, hl, hr⟩ := ih (pos + step) (by omega) (by
      cases n with
      | zero => left; rfl
      | succ m =>
        right
        push_cast at hlast2 ⊢
        have : pos + step + ((m : Int) + 1 - 1) * step = pos + (m + 1) * step := by ring
        rw [this]
        exact hlast2)
    refine ⟨scope_value x :: vals, ?_, by simp [hl], ?_⟩
    · simp only [scope_loop, hx, hv]
    · intro v hvm
      rcases List.mem_cons.mp hvm with rfl | h
      · exact scope_value_range x
      · exact hr v h

/-- C30: in the oscilloscope branch of
`ui_main_evlistener_visualization_timeout`, for every data length `L` with
`0 ≤ L ≤ 512` and every row of 512 samples, each of the 75
indices `pos >> 8`, with `pos = i * ((L << 8) / 74)`, lies in 0..511, so that
the loop reads inside the row, and the 75 values it stores in
`intern_vis_data` all lie in 0..12. -/
theorem oscilloscope_in_bounds (mono_pcm : List Int) (length : Int)
    (hlen : mono_pcm.length = 512) (h0 : 0 ≤ length) (h1 : length ≤ 512) :
    (∀ i : Int, 0 ≤ i → i < 75 →
      0 ≤ (i * scope_step length) / 256 ∧ (i * scope_step length) / 256 < 512) ∧
    ∃ vals, oscilloscope mono_pcm length = some vals ∧ vals.length = 75 ∧
      ∀ v ∈ vals, 0 ≤ v ∧ v ≤ 12 := by
  obtain ⟨hs0, hs1⟩ := scope_step_range length h0 h1
  refine ⟨?_, ?_⟩
  · intro i hi0 hi1
    have hp0 : 0 ≤ i * scope_step length := by positivity
    have hp1 : i * scope_step length ≤ 74 * 1771 := by
      have : i * scope_step length ≤ 74 * scope_step length :=
        Int.mul_le_mul_of_nonneg_right (by omega) hs0
      omega
    omega
  · apply scope_loop_ok mono_pcm hlen (scope_step length) hs0 75 0 (le_refl _)
    right
    norm_num
    omega

/-- C30, witness: a row that runs through the range of `gint16`, with the data
length 512. -/
theorem oscilloscope_in_bounds_witness :
    (∀ i : Int, 0 ≤ i → i < 75 →
      0 ≤ (i * scope_step 512) / 256 ∧ (i * scope_step 512) / 256 < 512) ∧
    ∃ vals, oscilloscope sample_row 512 = some vals ∧ vals.length = 75 ∧
      ∀ v ∈ vals, 0 ≤ v ∧ v ≤ 12 :=
  oscilloscope_in_bounds sample_row 512 (by simp only [sample_row, List.length_map, List.length_range]) (by decide) (by decide)

end Skins
